import Mathlib

/-!
# Three-way table merge of dolt (go/libraries/doltcore/merge)

A shallow embedding of the merge engine in `merge.go` and `merge_prolly.go`:
the cell-wise value merger, the table merge driver's short-circuit block, the
row reconciliation walk, the conflict processors and the roots-level merge,
and of the in-memory table of `table/inmem_table.go`, followed by the theorems
about them.

Conventions of the embedding

* A Go `[]byte` field value is an `Option (List Nat)`; `none` is the nil slice,
  which the tuple layer reads as SQL NULL.
* A Go `val.Tuple` that may be nil is an `Option Tuple`; `none` is the nil tuple
  (the row is absent on that side).
* A Go runtime panic (explicit `panic`, slice index out of range, a method call
  on or a type assertion of nil) is `Except.error` carrying the panic text.
* Reads of the store do not fail and the context is never cancelled; what a
  goroutine sends on a channel is the list of the values sent, in order.
* Collaborators whose code is not among the sources are parameters (the
  comparator of a tuple descriptor, the fields of `Store`) or are modelled from
  the specification, which their doc comment then says.
-/

namespace Dolt

/-! ## Part I: definitions -/

/-! ### Schemas and tuples -/

/-- A field of a value tuple, Go `[]byte`; `none` is nil, read as NULL. -/
abbrev Field := Option (List Nat)

/-- Encoding of a column in a tuple descriptor (`val.Type`), kept abstract. -/
abbrev ValType := Nat

/-- Modelled from the spec: `schema.Column`, whose declaration is not among the
sources: "each column has a stable Tag, a name, a type, a nullability flag, and
membership in either the primary-key set or the non-primary-key set"; kept are
the attributes that the merge reads. -/
structure Column where
  Name : String
  Tag : Nat
  Kind : ValType
  IsPartOfPK : Bool
  AutoIncrement : Bool
  deriving DecidableEq, Repr

/-- Modelled from the spec: `schema.ColCollection`, whose declaration is not
among the sources: an ordered list of columns that "exposes `non_pk_cols.tags`
in projection order and a `tag → index` lookup". -/
structure ColCollection where
  cols : List Column
  deriving DecidableEq, Repr

/-- The tags of the collection in projection order (`ColCollection.Tags`). -/
def ColCollection.Tags (cc : ColCollection) : List Nat :=
  cc.cols.map (fun c => c.Tag)

/-- Number of columns (`ColCollection.Size`). -/
def ColCollection.Size (cc : ColCollection) : Nat :=
  cc.cols.length

/-- Lookup of a tag's position (`ColCollection.TagToIdx`, a Go map from tag to
index; a missing key is `none`). -/
def ColCollection.TagToIdx (cc : ColCollection) (tag : Nat) : Option Nat :=
  cc.Tags.findIdx? (fun t => t == tag)

/-- Modelled from the spec: `schema.Schema`, whose declaration is not among the
sources: "an ordered list of Columns". -/
structure Schema where
  allCols : List Column
  deriving DecidableEq, Repr

/-- The non-primary-key columns, in order (`Schema.GetNonPKCols`). -/
def Schema.GetNonPKCols (s : Schema) : ColCollection :=
  ⟨s.allCols.filter (fun c => !c.IsPartOfPK)⟩

/-- The primary-key columns, in order (`Schema.GetPKCols`). -/
def Schema.GetPKCols (s : Schema) : ColCollection :=
  ⟨s.allCols.filter (fun c => c.IsPartOfPK)⟩

/-- Modelled from the spec: `val.Tuple` (non-nil), whose declaration is not
among the sources: "an ordered sequence of column values (possibly NULL)". -/
abbrev Tuple := List Field

/-- Modelled from the spec: `val.Tuple.GetField`, which is not among the
sources. A row tuple is "an ordered sequence of column values (possibly NULL)";
the field at an ordinal outside the tuple reads as NULL. -/
def Tuple.GetField (t : Tuple) (i : Int) : Field :=
  if i < 0 then none else t[i.toNat]?.join

/-- Comparator of a tuple descriptor: `CompareValues(a, b, typ)`, negative,
zero or positive. The comparator is supplied by the schema layer and is a
parameter of the embedding. -/
abbrev Comparator := Field → Field → ValType → Int

/-- Modelled from the spec: `val.TupleDesc`, whose declaration is not among the
sources: the column types (`Types`) and the comparator (`Comparator()`). -/
structure TupleDesc where
  Types : List ValType
  CompareValues : Comparator

/-- Modelled from the spec: `shim.ValueDescriptorFromSchema`, which is not
among the sources. The descriptor of a schema's value tuple lists the types of
its non-primary-key columns in projection order. -/
def ValueDescriptorFromSchema (cmp : Comparator) (sch : Schema) : TupleDesc :=
  { Types := sch.GetNonPKCols.cols.map (fun c => c.Kind), CompareValues := cmp }

/-- Go slice indexing `xs[i]`: a runtime panic when out of range. -/
def sliceAt {α : Type} (xs : List α) (i : Nat) : Except String α :=
  match xs[i]? with
  | some x => .ok x
  | none => .error "index out of range"

/-! ### The value merger (`merge_prolly.go`) -/

/-- The struct `valueMerger`; the buffer pool plays no part in the result. -/
structure valueMerger where
  numCols : Nat
  vD : TupleDesc
  leftMapping : List Int
  rightMapping : List Int
  baseMapping : List Int

/-- One entry of an ordinal mapping in `newValueMerger`: the index of `tag`
among the non-primary-key columns of `sch`, or `-1`. -/
def ordinalOf (sch : Schema) (tag : Nat) : Int :=
  match sch.GetNonPKCols.TagToIdx tag with
  | some j => (j : Int)
  | none => -1

/-- The constructor `newValueMerger(merged, leftSch, rightSch, baseSch, pool)`. -/
def newValueMerger (cmp : Comparator) (merged leftSch rightSch baseSch : Schema) :
    valueMerger :=
  { numCols := merged.GetNonPKCols.Size
    vD := ValueDescriptorFromSchema cmp merged
    leftMapping := merged.GetNonPKCols.Tags.map (ordinalOf leftSch)
    rightMapping := merged.GetNonPKCols.Tags.map (ordinalOf rightSch)
    baseMapping := merged.GetNonPKCols.Tags.map (ordinalOf baseSch) }

/-- The method `valueMerger.processColumn(i, left, right, base)`: the merged
value of column `i` and whether the column conflicts. `left` and `right` are
non-nil here (guarded by `tryMerge`); `base` may be nil. -/
def valueMerger.processColumn (m : valueMerger) (i : Nat) (left right : Tuple)
    (base : Option Tuple) : Except String (Field × Bool) := do
  let l ← sliceAt m.leftMapping i
  let leftCol : Field := if l != -1 then left.GetField l else none
  let r ← sliceAt m.rightMapping i
  let rightCol : Field := if r != -1 then right.GetField r else none
  let ty ← sliceAt m.vD.Types i
  if m.vD.CompareValues leftCol rightCol ty == 0 then
    return (leftCol, false)
  match base with
  | none => return (none, true)
  | some base =>
    let b ← sliceAt m.baseMapping i
    let baseVal : Field := if b != -1 then base.GetField b else none
    let leftModified := m.vD.CompareValues leftCol baseVal ty != 0
    let rightModified := m.vD.CompareValues rightCol baseVal ty != 0
    if leftModified && rightModified then
      return (none, true)
    else if leftModified then
      return (leftCol, false)
    else
      return (rightCol, false)

/-- The column loop of `tryMerge` over the columns `cols` (in the code
`0, 1, .., numCols - 1`): stops at the first conflicting column, otherwise
collects the merged values in order. -/
def valueMerger.mergeColumns (m : valueMerger) (left right : Tuple)
    (base : Option Tuple) : List Nat → Except String (Option Tuple × Bool)
  | [] => .ok (some [], false)
  | i :: rest => do
    let (v, isConflict) ← m.processColumn i left right base
    if isConflict then
      return (none, true)
    let (tl, c) ← m.mergeColumns left right base rest
    return (tl.map (fun t => v :: t), c)

/-- The method `valueMerger.tryMerge(left, right, base)`: the merged tuple
(`none` for Go nil) and the conflict flag. -/
def valueMerger.tryMerge (m : valueMerger) (left right base : Option Tuple) :
    Except String (Option Tuple × Bool) :=
  if base.isSome && (left.isNone != right.isNone) then
    .ok (none, true)
  else
    match left, right with
    | some l, some r => m.mergeColumns l r base (List.range m.numCols)
    | _, _ => .error "found nil left / right which should never occur"

/-- Lexicographic byte comparator with NULL first, one instance of a tuple
descriptor's comparator; it returns `0` exactly on identical fields. -/
def bytesComparator : Comparator := fun a b _ =>
  if a = b then 0
  else
    match a, b with
    | none, _ => -1
    | _, none => 1
    | some x, some y => if x < y then -1 else 1

/-- The value of merged column `i` on one side, as `processColumn` reads it:
the field at the side's ordinal, NULL when the side's mapping is `-1`. -/
def sideValue (mapping : List Int) (i : Nat) (t : Tuple) : Field :=
  match mapping[i]? with
  | some j => if j = -1 then none else t.GetField j
  | none => none

/-- The type of merged column `i` in the merged schema's value descriptor. -/
def columnType (merged : Schema) (i : Nat) : ValType :=
  (merged.GetNonPKCols.cols[i]?.map (fun c => c.Kind)).getD 0

/-! ### The new-format collision callback (`mergeProllyRowData`) -/

/-- Kind of a `tree.Diff`; `AddedDiff` is the zero value. -/
inductive DiffType where
  | AddedDiff
  | ModifiedDiff
  | RemovedDiff
  deriving DecidableEq, Repr

/-- A `tree.Diff`: kind (the Go field `Type`), key, old and new value tuples
(`none` is Go nil). -/
structure Diff where
  Typ : DiffType
  Key : Option Tuple
  From : Option Tuple
  To : Option Tuple
  deriving DecidableEq, Repr

/-- The zero value `tree.Diff{}`. -/
def Diff.zero : Diff :=
  { Typ := DiffType.AddedDiff, Key := none, From := none, To := none }

/-- The struct `confVals` sent on the conflict channel. -/
structure confVals where
  key : Option Tuple
  ourVal : Option Tuple
  theirVal : Option Tuple
  baseVal : Option Tuple
  deriving DecidableEq, Repr

/-- The two kinds of `indexEdit` sent on the index-edit channel. -/
inductive indexEdit where
  | conflictEdit (right : Diff)
  | cellWiseMergeEdit (left right merged : Diff)
  deriving DecidableEq, Repr

/-- What one call of the collision callback does: the returned
`(tree.Diff, bool)` and the values it sent on the two channels, in order. -/
structure CollideResult where
  diff : Diff
  ok : Bool
  conflicts : List confVals
  indexEdits : List indexEdit
  deriving DecidableEq, Repr

/-- The collision callback that `mergeProllyRowData` passes to
`prolly.MergeMaps`, with the context never cancelled. -/
def collide (vMerger : valueMerger) (left right : Diff) : Except String CollideResult := do
  let (merged, isConflict) ← vMerger.tryMerge left.To right.To left.From
  if isConflict then
    let c : confVals :=
      { key := left.Key, ourVal := left.To, theirVal := right.To, baseVal := left.From }
    let e := indexEdit.conflictEdit right
    return { diff := Diff.zero, ok := false, conflicts := [c], indexEdits := [e] }
  let d : Diff :=
    { Typ := DiffType.ModifiedDiff, Key := left.Key, From := left.From, To := merged }
  return { diff := d, ok := true, conflicts := [],
           indexEdits := [indexEdit.cellWiseMergeEdit left right d] }

/-! ### Old-format rows, ordered indexes and their diff -/

/-- Primary key of a row. Keys are totally ordered values (`types.Value` with
`Less`); the embedding takes natural numbers with their order. -/
abbrev Key := Nat

/-- An old-format row value (`types.Tuple`) as the merge reads it: the list of
`(tag, value)` pairs that `row.ParseTaggedValues` yields, a NULL column being
absent. For a keyless table the first pair holds the row's cardinality, which
is the value at tuple position `row.KeylessCardinalityValIdx`. -/
abbrev NomsRow := List (Nat × Nat)

/-- Modelled from the spec: the ordered index ("a persistent ordered map from
Key tuple to Row tuple"), `types.Map`, which is not among the sources. The
entries are listed in strictly increasing key order. -/
abbrev Index := List (Key × NomsRow)

/-- The keys of an index, in order. -/
def Index.keys (m : Index) : List Key :=
  m.map (fun e => e.1)

/-- The call `m.MaybeGet(key)`: the row stored at `key`, if any. -/
def Index.MaybeGet (m : Index) (k : Key) : Option NomsRow :=
  (m.find? (fun e => e.1 == k)).map (fun e => e.2)

/-- The index with `k` bound to `v`, keeping the key order. -/
def Index.put (m : Index) (k : Key) (v : NomsRow) : Index :=
  m.filter (fun e => e.1 < k) ++ (k, v) :: m.filter (fun e => k < e.1)

/-- The index without `k`. -/
def Index.del (m : Index) (k : Key) : Index :=
  m.filter (fun e => e.1 != k)

/-- The enumeration `types.DiffChangeType`. -/
inductive DiffChangeType where
  | DiffChangeAdded
  | DiffChangeRemoved
  | DiffChangeModified
  deriving DecidableEq, Repr

/-- A `types.ValueChanged` with a key; the zero value that a closed channel
yields (nil key) is the end of the list in the embedding. -/
structure ValueChanged where
  ChangeType : DiffChangeType
  Key : Key
  OldValue : Option NomsRow
  NewValue : Option NomsRow
  deriving DecidableEq, Repr

/-- Modelled from the spec: `types.Map.Diff`, which is not among the sources:
"`diff(base) → stream<Change>` where `Change ∈ {Added(key, new), Removed(key,
old), Modified(key, old, new)}` produced in key order". `Index.Diff rows anc`
is the stream that `rows.Diff(ctx, anc, ch)` sends. -/
def Index.Diff : Index → Index → List ValueChanged
  | [], [] => []
  | (k, v) :: t, [] =>
    ⟨DiffChangeType.DiffChangeAdded, k, none, some v⟩ :: Index.Diff t []
  | [], (k, v) :: f =>
    ⟨DiffChangeType.DiffChangeRemoved, k, some v, none⟩ :: Index.Diff [] f
  | (k1, v1) :: t, (k2, v2) :: f =>
    if k1 < k2 then
      ⟨DiffChangeType.DiffChangeAdded, k1, none, some v1⟩ :: Index.Diff t ((k2, v2) :: f)
    else if k2 < k1 then
      ⟨DiffChangeType.DiffChangeRemoved, k2, some v2, none⟩ :: Index.Diff ((k1, v1) :: t) f
    else if v1 = v2 then
      Index.Diff t f
    else
      ⟨DiffChangeType.DiffChangeModified, k1, some v2, some v1⟩ :: Index.Diff t f
termination_by a b => a.length + b.length

/-! ### Merge statistics -/

/-- The enumeration of merge operations (`TableUnmodified = 0`, `TableAdded`,
`TableRemoved`, `TableModified`). -/
inductive TableMergeOp where
  | TableUnmodified
  | TableAdded
  | TableRemoved
  | TableModified
  deriving DecidableEq, Repr

/-- Modelled from the spec: the struct `MergeStats`, whose declaration is not
among the sources: "`{operation, adds, deletes, modifications, conflicts,
constraint_violations}`". The counters are Go `int`; they count rows and stay
far below `2^63`, so they are natural numbers here. A composite literal such
as `MergeStats{Operation: TableModified}` leaves the counters zero. -/
structure MergeStats where
  Operation : TableMergeOp
  Adds : Nat := 0
  Deletes : Nat := 0
  Modifications : Nat := 0
  Conflicts : Nat := 0
  ConstraintViolations : Nat := 0
  deriving DecidableEq, Repr

/-! ### Row mergers of the old format (`merge.go`) -/

/-- The struct `rowMergeResult`. -/
structure rowMergeResult where
  mergedRow : Option NomsRow
  didCellMerge : Bool
  isConflict : Bool
  deriving DecidableEq, Repr

/-- The function type `rowMerger`, without context and format. -/
abbrev rowMerger := Schema → Option NomsRow → Option NomsRow → Option NomsRow →
  Except String rowMergeResult

/-- The lookup `TaggedValues.Get(tag)`; a missing tag gives nil. -/
def TaggedValues.Get (tv : NomsRow) (tag : Nat) : Option Nat :=
  (tv.find? (fun e => e.1 == tag)).map (fun e => e.2)

/-- The closure `processTagFunc` of `nomsPkRowMerge`: the merged value of one
tag, whether it conflicts, and whether it sets `didMerge`. The comparison
`valutil.NilSafeEqCheck` is equality of optional values. -/
def processTagFunc (baseVals rowVals mergeVals : NomsRow) (tag : Nat) :
    Option Nat × Bool × Bool :=
  let baseVal := TaggedValues.Get baseVals tag
  let val := TaggedValues.Get rowVals tag
  let mergeVal := TaggedValues.Get mergeVals tag
  if val == mergeVal then
    (val, false, false)
  else
    let modified := !(val == baseVal)
    let mergeModified := !(mergeVal == baseVal)
    if modified && mergeModified then
      (none, true, false)
    else if modified then
      (val, false, true)
    else
      (mergeVal, false, true)

/-- The iteration `sch.GetNonPKCols().Iter(..)` of `nomsPkRowMerge` over the
tags: it stops at the first conflict; otherwise it returns the result values
(the non-NULL ones, which `NomsTupleForNonPKCols` keeps) and `didMerge`. -/
def mergeTags (baseVals rowVals mergeVals : NomsRow) :
    List Nat → Option (NomsRow × Bool)
  | [] => some ([], false)
  | tag :: rest =>
    match processTagFunc baseVals rowVals mergeVals tag with
    | (_, true, _) => none
    | (v, false, d) =>
      match mergeTags baseVals rowVals mergeVals rest with
      | none => none
      | some (vals, d2) =>
        some ((match v with
               | some x => (tag, x) :: vals
               | none => vals), d || d2)

/-- The function `nomsPkRowMerge(ctx, nbf, sch, r, mergeRow, baseRow)`. A call
of a method on, or a type assertion of, a nil row is a Go panic. -/
def nomsPkRowMerge : rowMerger := fun sch r mergeRow baseRow =>
  let cellWise (baseVals : NomsRow) : Except String rowMergeResult :=
    match r, mergeRow with
    | some rowVals, some mergeVals =>
      match mergeTags baseVals rowVals mergeVals sch.GetNonPKCols.Tags with
      | none => .ok ⟨none, false, true⟩
      | some (vals, didMerge) => .ok ⟨some vals, didMerge, false⟩
    | _, _ => .error "interface conversion: interface is nil, not types.Tuple"
  match baseRow with
  | none =>
    match r with
    | none => .error "invalid memory address or nil pointer dereference"
    | some rv =>
      if mergeRow = some rv then
        .ok ⟨r, false, false⟩
      else
        cellWise []
  | some baseVals =>
    if r.isNone && mergeRow.isNone then
      .ok ⟨none, false, false⟩
    else if r.isNone || mergeRow.isNone then
      .ok ⟨none, false, true⟩
    else
      cellWise baseVals

/-- The function `keylessRowMerge`: always a conflict. -/
def keylessRowMerge : rowMerger := fun _ _ _ _ =>
  .ok ⟨none, false, true⟩

/-! ### Applying a change to the table editor (`merge.go`) -/

/-- Modelled from the spec: `schema.IsKeyless`, which is not among the
sources: a keyless schema is "a schema without a primary key". -/
def IsKeyless (sch : Schema) : Bool :=
  sch.GetPKCols.Size == 0

/-- What an applicator updates: the table editor's rows and the statistics. -/
structure EditState where
  tblEdit : Index
  stats : MergeStats
  deriving DecidableEq, Repr

/-- Modelled from the spec: `TableEditor.InsertRow` of a primary-key table,
which is not among the sources ("`editor()` with `insert/update/delete`"); a
key that the editor already holds is the fatal duplicate primary key of
`makeDupErrHandler`. Secondary indexes are outside the embedding. -/
def InsertRow (ed : Index) (k : Key) (v : NomsRow) : Except String Index :=
  if (ed.MaybeGet k).isSome then .error "duplicate key" else .ok (ed.put k v)

/-- Modelled from the spec: `TableEditor.UpdateRow(old, new)` for two rows of
the same key `k`, which is not among the sources. -/
def UpdateRow (ed : Index) (k : Key) (v : NomsRow) : Except String Index :=
  .ok (ed.put k v)

/-- Modelled from the spec: `TableEditor.DeleteByKey`, which is not among the
sources. -/
def DeleteByKey (ed : Index) (k : Key) : Except String Index :=
  .ok (ed.del k)

/-- A Go type assertion `v.(types.Tuple)`: a panic on the nil interface. -/
def asTuple (v : Option NomsRow) : Except String NomsRow :=
  match v with
  | some t => .ok t
  | none => .error "interface conversion: interface is nil, not types.Tuple"

/-- The function type `applicator`: schema, ours' row data, and the editor
with the statistics that the call updates. -/
abbrev applicator := Schema → Index → EditState → ValueChanged → Except String EditState

/-- The function `applyNomsPkChange`. -/
def applyNomsPkChange : applicator := fun _ rowData st change =>
  match change.ChangeType with
  | DiffChangeType.DiffChangeAdded => do
    let newRow ← asTuple change.NewValue
    let ed ←
      match rowData.MaybeGet change.Key with
      | some _ => UpdateRow st.tblEdit change.Key newRow
      | none => InsertRow st.tblEdit change.Key newRow
    return { tblEdit := ed, stats := { st.stats with Adds := st.stats.Adds + 1 } }
  | DiffChangeType.DiffChangeModified => do
    let _ ← asTuple change.OldValue
    let newVal ← asTuple change.NewValue
    let ed ← UpdateRow st.tblEdit change.Key newVal
    return { tblEdit := ed,
             stats := { st.stats with Modifications := st.stats.Modifications + 1 } }
  | DiffChangeType.DiffChangeRemoved => do
    let _ ← asTuple change.OldValue
    let ed ← DeleteByKey st.tblEdit change.Key
    return { tblEdit := ed, stats := { st.stats with Deletes := st.stats.Deletes + 1 } }

/-- Conversion `uint64(x)` of an integer: reduction modulo `2^64`. -/
def toUint64 (z : Int) : Nat :=
  (z % 18446744073709551616).toNat

/-- Conversion `int64(x)` of an integer: the two's-complement value. -/
def toInt64 (z : Int) : Int :=
  (z + 9223372036854775808) % 18446744073709551616 - 9223372036854775808

/-- The cardinality of a keyless row, `uint64(v.(types.Uint))` for the value
`v` at `row.KeylessCardinalityValIdx`. -/
def keylessCard (row : NomsRow) : Except String Nat :=
  match row with
  | (_, c) :: _ => .ok (toUint64 c)
  | [] => .error "interface conversion: interface is nil, not types.Uint"

/-- The function `convertValueChanged`: the change to apply and how often. -/
def convertValueChanged (vc : ValueChanged) : Except String (ValueChanged × Nat) := do
  let oldCard ←
    match vc.OldValue with
    | some v => keylessCard v
    | none => pure 0
  let newCard ←
    match vc.NewValue with
    | some v => keylessCard v
    | none => pure 0
  match vc.ChangeType with
  | DiffChangeType.DiffChangeRemoved => return (vc, oldCard)
  | DiffChangeType.DiffChangeAdded => return (vc, newCard)
  | DiffChangeType.DiffChangeModified =>
    let delta := toInt64 (toInt64 newCard - toInt64 oldCard)
    if delta > 0 then
      return ({ vc with ChangeType := DiffChangeType.DiffChangeAdded, OldValue := none },
              toUint64 delta)
    else if delta < 0 then
      return ({ vc with ChangeType := DiffChangeType.DiffChangeRemoved, NewValue := none },
              toUint64 (toInt64 (-delta)))
    else
      throw "diff with delta = 0 for key"

/-- The row with its cardinality set to `n`. -/
def setCard (row : NomsRow) (n : Nat) : NomsRow :=
  match row with
  | (t, _) :: rest => (t, n) :: rest
  | [] => []

/-- Modelled from the spec: `TableEditor.InsertRow` of a keyless table, which
is not among the sources: "keyless indexes map a surrogate key to a pair (row
tuple, cardinality ≥ 1)", so one insert raises the cardinality at the key by
one. -/
def KeylessInsertRow (ed : Index) (k : Key) (v : NomsRow) : Except String Index :=
  match ed.MaybeGet k with
  | some old => do
    let c ← keylessCard old
    return ed.put k (setCard old (c + 1))
  | none => .ok (ed.put k (setCard v 1))

/-- Modelled from the spec: `TableEditor.DeleteByKey` of a keyless table, which
is not among the sources: one delete lowers the cardinality at the key by one
and drops the entry when none is left. -/
def KeylessDeleteByKey (ed : Index) (k : Key) : Except String Index :=
  match ed.MaybeGet k with
  | some old => do
    let c ← keylessCard old
    if c ≤ 1 then return ed.del k else return ed.put k (setCard old (c - 1))
  | none => .ok ed

/-- The closure `apply` of `applyKeylessChange`. -/
def applyKeylessOnce (st : EditState) (ch : ValueChanged) : Except String EditState :=
  match ch.ChangeType with
  | DiffChangeType.DiffChangeAdded => do
    let newRow ← asTuple ch.NewValue
    let ed ← KeylessInsertRow st.tblEdit ch.Key newRow
    return { tblEdit := ed, stats := { st.stats with Adds := st.stats.Adds + 1 } }
  | DiffChangeType.DiffChangeModified => do
    let _ ← asTuple ch.OldValue
    let newRow ← asTuple ch.NewValue
    let ed ← UpdateRow st.tblEdit ch.Key newRow
    return { tblEdit := ed,
             stats := { st.stats with Modifications := st.stats.Modifications + 1 } }
  | DiffChangeType.DiffChangeRemoved => do
    let _ ← asTuple ch.OldValue
    let ed ← KeylessDeleteByKey st.tblEdit ch.Key
    return { tblEdit := ed, stats := { st.stats with Deletes := st.stats.Deletes + 1 } }

/-- The loop `for card > 0 { apply(change); card-- }` of `applyKeylessChange`. -/
def applyTimes (ch : ValueChanged) : Nat → EditState → Except String EditState
  | 0, st => .ok st
  | card + 1, st => do
    let st1 ← applyKeylessOnce st ch
    applyTimes ch card st1

/-- The function `applyKeylessChange`. -/
def applyKeylessChange : applicator := fun _ _ st change => do
  let (ch, card) ← convertValueChanged change
  applyTimes ch card st

/-! ### The row reconciliation walk (`mergeNomsTableData`) -/

/-- A conflict of the old format (`conflict.NewConflict(base, value,
mergeValue)`). -/
structure Conflict where
  Base : Option NomsRow
  Value : Option NomsRow
  MergeValue : Option NomsRow
  deriving DecidableEq, Repr

/-- State of the walk: the editor with the statistics, and the `(key,
conflict)` pairs sent to the streaming conflict map so far, in order. -/
structure WalkState where
  edit : EditState
  conflicts : List (Key × Conflict)
  deriving DecidableEq, Repr

/-- The loop of the third goroutine of `mergeNomsTableData`, with the context
never cancelled. The lists are what is still to come from `changeChan` and
`mergeChangeChan`; their heads are the loop variables `change` and
`mergeChange`, and an empty list is the nil key that a closed channel yields.
The three cases are, in the order of the code: ours' key is the smaller one
(or theirs is exhausted), theirs' key is the smaller one (or ours is
exhausted), and neither is smaller. -/
def mergeWalk (rowMerge : rowMerger) (applyChange : applicator) (sch : Schema)
    (rows : Index) : List ValueChanged → List ValueChanged → WalkState →
    Except String WalkState
  | [], [], st => .ok st
  | _ :: cs, [], st => mergeWalk rowMerge applyChange sch rows cs [] st
  | [], mc :: ms, st => do
    let e ← applyChange sch rows st.edit mc
    mergeWalk rowMerge applyChange sch rows [] ms { st with edit := e }
  | c :: cs, mc :: ms, st =>
    if c.Key < mc.Key then
      mergeWalk rowMerge applyChange sch rows cs (mc :: ms) st
    else if mc.Key < c.Key then do
      let e ← applyChange sch rows st.edit mc
      mergeWalk rowMerge applyChange sch rows (c :: cs) ms { st with edit := e }
    else do
      let res ← rowMerge sch c.NewValue mc.NewValue c.OldValue
      if res.isConflict then
        mergeWalk rowMerge applyChange sch rows cs ms
          { st with conflicts := st.conflicts ++ [(c.Key, ⟨c.OldValue, c.NewValue, mc.NewValue⟩)] }
      else do
        let vc : ValueChanged :=
          { ChangeType := c.ChangeType, Key := c.Key, NewValue := res.mergedRow,
            OldValue := if res.didCellMerge then c.NewValue else c.OldValue }
        let e ← applyChange sch rows st.edit vc
        mergeWalk rowMerge applyChange sch rows cs ms { st with edit := e }
termination_by d1 d2 _ => d1.length + d2.length

/-- What `mergeNomsTableData` returns without error: the rows of the merged
table, the conflict map and the statistics. -/
structure NomsMergeResult where
  mergedRows : Index
  conflicts : List (Key × Conflict)
  stats : MergeStats
  deriving DecidableEq, Repr

/-- The function `mergeNomsTableData(ctx, vrw, tblName, sch, rows, mergeRows,
ancRows, tblEdit)`; `tblEdit` is the content of the table editor, which the
driver opens on ours' table. -/
def mergeNomsTableData (sch : Schema) (rows mergeRows ancRows : Index) (tblEdit : Index) :
    Except String NomsMergeResult := do
  let rowMerge : rowMerger := if IsKeyless sch then keylessRowMerge else nomsPkRowMerge
  let applyChange : applicator :=
    if IsKeyless sch then applyKeylessChange else applyNomsPkChange
  let st ← mergeWalk rowMerge applyChange sch rows (Index.Diff rows ancRows)
    (Index.Diff mergeRows ancRows)
    { edit := { tblEdit := tblEdit, stats := { Operation := TableMergeOp.TableModified } },
      conflicts := [] }
  return { mergedRows := st.edit.tblEdit, conflicts := st.conflicts, stats := st.edit.stats }

/-! ### Tables, roots and the table merge driver (`merge.go`) -/

/-- A content address (`hash.Hash`), as its bytes. -/
abbrev Hash := List Nat

/-- The zero value `hash.Hash{}`: twenty zero bytes. -/
def Hash.zero : Hash :=
  List.replicate 20 0

/-- Modelled from the spec: the kinds of artifact (`prolly.ArtifactType`), whose
declaration is not among the sources: "three artifact kinds: Conflict,
ConstraintViolation, ForeignKeyViolation". -/
inductive ArtifactType where
  | ArtifactTypeConflict
  | ArtifactTypeConstraintViol
  | ArtifactTypeForeignKeyViol
  deriving DecidableEq, Repr

/-- The struct `prolly.ConflictMetadata`, whose JSON text is the metadata of a
conflict artifact: `{"BaseTblHash": .., "TheirTblHash": ..}`. -/
structure ConflictMetadata where
  BaseTblHash : List Nat
  TheirTblHash : List Nat
  deriving DecidableEq, Repr

/-- Modelled from the spec: an entry of the artifact map, which is not among
the sources: an artifact is keyed by the row's primary key and carries the
provenance hash, the artifact type and the metadata. -/
structure Artifact where
  key : Option Tuple
  cmHash : List Nat
  artType : ArtifactType
  metadata : ConflictMetadata
  deriving DecidableEq, Repr

/-- Modelled from the spec: `doltdb.Table`, which is not among the sources:
"`{schema, primary_index, index_set, artifact_map, auto_increment_value?}`",
with the old format's in-line conflicts and constraint violations (a map from
key to violation, listed in key order); secondary indexes are outside the
embedding. -/
structure Table where
  sch : Schema
  rowData : Index
  autoIncrementValue : Nat := 0
  conflictSchemas : Option (Schema × Schema × Schema) := none
  conflicts : List (Key × Conflict) := []
  artifacts : List Artifact := []
  constraintViolations : List (Nat × Nat) := []
  deriving DecidableEq, Repr

/-- Modelled from the spec: `doltdb.RootValue`, which is not among the
sources: "a mapping from table name to Table". -/
structure RootValue where
  tables : List (String × Table)
  deriving DecidableEq, Repr

/-- The call `root.GetTable(ctx, name)`. -/
def RootValue.GetTable (root : RootValue) (name : String) : Option Table :=
  (root.tables.find? (fun e => e.1 == name)).map (fun e => e.2)

/-- The errors that the merge returns. -/
inductive MergeErr where
  | ErrSameTblAddedTwice
  | ErrTableDeletedAndModified
  | ErrCantOverwriteConflicts
  | ErrConflictsIncompatible
  | schemaConflict
  | other (msg : String)
  deriving DecidableEq, Repr

/-- One value of the channel of `diff.Summary` (`diff.DiffSummaryProgress`). -/
structure DiffSummaryProgress where
  Adds : Nat
  Removes : Nat
  Changes : Nat
  deriving DecidableEq, Repr

/-- The collaborators of the driver that are not among the sources; reads of
the store do not fail in the embedding.

* `HashOf` is `Table.HashOf`, the content address of a table.
* `Summary rows mergeRows sch mergeSch` is what `diff.Summary` sends.
* `SchemaMerge` returns the merged schema and the number of schema conflicts.
* `IsFormat_DOLT_1` tells whether the new storage format is in use.
* `prollyMerge` is the new format's artifact and data merge
  (`mergeTableArtifacts` followed by `mergeTableData`), whose map merge and
  index machinery are not among the sources. -/
structure Store where
  HashOf : Table → Hash
  Summary : Index → Index → Schema → Schema → List DiffSummaryProgress
  SchemaMerge : Schema → Schema → Schema → String → Except MergeErr (Schema × Nat)
  IsFormat_DOLT_1 : Bool
  prollyMerge : Schema → Schema → Schema → Schema → Table → Table → Table → Index →
    Except MergeErr (Table × MergeStats)

/-- What `MergeTable` returns: `(*doltdb.Table, *MergeStats, error)`, each of
which may be nil. -/
structure MergeTableResult where
  table : Option Table
  stats : Option MergeStats
  err : Option MergeErr
  deriving DecidableEq, Repr

/-- The struct `Merger`. -/
structure Merger where
  theirRootIsh : Hash
  ancRootIsh : Hash
  root : RootValue
  mergeRoot : RootValue
  ancRoot : RootValue

/-- The local variables of `MergeTable` that its short-circuit block reads and
updates and that the merge body reads. -/
structure MergeVars where
  rootHasTable : Bool
  mergeHasTable : Bool
  ancHasTable : Bool
  tbl : Option Table
  mergeTbl : Option Table
  ancTbl : Option Table
  rootSchema : Option Schema
  mergeSchema : Option Schema
  ancSchema : Option Schema
  rootHash : Hash
  mergeHash : Hash
  ancHash : Hash
  ancRows : Option Index
  deriving DecidableEq, Repr

/-- The function `getTableInfoFromRoot`: presence, table, schema and hash, the
last three being zero values when the root lacks the table. -/
def getTableInfoFromRoot (st : Store) (tblName : String) (root : RootValue) :
    Bool × Option Table × Option Schema × Hash :=
  match root.GetTable tblName with
  | some t => (true, some t, some t.sch, st.HashOf t)
  | none => (false, none, none, Hash.zero)

/-- The variables of `MergeTable` on entry to the short-circuit block. -/
def initialVars (st : Store) (merger : Merger) (tblName : String) : MergeVars :=
  let r := getTableInfoFromRoot st tblName merger.root
  let m := getTableInfoFromRoot st tblName merger.mergeRoot
  let a := getTableInfoFromRoot st tblName merger.ancRoot
  { rootHasTable := r.1, tbl := r.2.1, rootSchema := r.2.2.1, rootHash := r.2.2.2
    mergeHasTable := m.1, mergeTbl := m.2.1, mergeSchema := m.2.2.1, mergeHash := m.2.2.2
    ancHasTable := a.1, ancTbl := a.2.1, ancSchema := a.2.2.1, ancHash := a.2.2.2
    ancRows := if a.1 then a.2.1.map (fun t => t.rowData) else none }

/-- The test `schema.IsKeyless(sch)` on a schema variable that is nil when the
table is absent; the driver evaluates it only behind `rootHasTable`. -/
def schemaIsKeyless (sch : Option Schema) : Bool :=
  match sch with
  | some s => IsKeyless s
  | none => false

/-- Modelled from the spec: `schema.SchemasAreEqual`, which is not among the
sources: the two schemas have the same columns. -/
def SchemasAreEqual (a b : Option Schema) : Bool :=
  a == b

/-- The function `calcTableMergeStats(ctx, tbl, mergeTbl)`: the totals of the
summary of the diff from ours' rows to theirs' rows. -/
def calcTableMergeStats (st : Store) (tbl mergeTbl : Table) : MergeStats :=
  (st.Summary tbl.rowData mergeTbl.rowData tbl.sch mergeTbl.sch).foldl
    (fun ms p =>
      { ms with Adds := ms.Adds + p.Adds, Deletes := ms.Deletes + p.Removes,
                Modifications := ms.Modifications + p.Changes })
    { Operation := TableMergeOp.TableModified }

/-- How the short-circuit block of `MergeTable` ends: with a `return`, or by
falling through to the merge body with the variables as they then are. -/
inductive ShortCircuit where
  | returned (r : MergeTableResult)
  | fallThrough (v : MergeVars)
  deriving DecidableEq, Repr

/-- The part `if !ancHasTable { .. }` of the short-circuit block. -/
def addedTable (v : MergeVars) : ShortCircuit :=
  if !v.ancHasTable then
    if v.mergeHasTable && v.rootHasTable then
      if SchemasAreEqual v.rootSchema v.mergeSchema then
        .fallThrough { v with ancHasTable := true, ancSchema := v.rootSchema, ancTbl := v.tbl,
                              ancRows := some [] }
      else
        .returned ⟨none, none, some MergeErr.ErrSameTblAddedTwice⟩
    else if v.rootHasTable then
      .returned ⟨v.tbl, some { Operation := TableMergeOp.TableUnmodified }, none⟩
    else
      .returned ⟨v.mergeTbl, some { Operation := TableMergeOp.TableAdded }, none⟩
  else
    .fallThrough v

/-- The rest of the short-circuit block, from `// Deleted in both` on. -/
def deletedOrFastForward (st : Store) (tblName : String) (isCherryPick : Bool)
    (v : MergeVars) : ShortCircuit :=
  if v.ancHasTable && !v.rootHasTable && !v.mergeHasTable then
    .returned ⟨none, some { Operation := TableMergeOp.TableRemoved }, none⟩
  else if v.ancHasTable && (!v.rootHasTable || !v.mergeHasTable) then
    if isCherryPick && v.rootHasTable && !v.mergeHasTable then
      .returned ⟨none, some { Operation := TableMergeOp.TableModified },
        some (MergeErr.other ("schema changes not supported: " ++ tblName ++
          " table was renamed or dropped in cherry-pick commit"))⟩
    else if (v.mergeHasTable && v.mergeHash != v.ancHash) ||
        (v.rootHasTable && v.rootHash != v.ancHash) then
      .returned ⟨none, none, some MergeErr.ErrTableDeletedAndModified⟩
    else
      .returned ⟨none, some { Operation := TableMergeOp.TableRemoved }, none⟩
  else if v.mergeHash == v.ancHash then
    .returned ⟨v.tbl, some { Operation := TableMergeOp.TableUnmodified }, none⟩
  else if !isCherryPick && v.rootHash == v.ancHash then
    if v.rootHash != v.mergeHash then
      match v.tbl, v.mergeTbl with
      | some tbl, some mergeTbl =>
        .returned ⟨v.mergeTbl, some (calcTableMergeStats st tbl mergeTbl), none⟩
      | _, _ =>
        .returned ⟨none, none,
          some (MergeErr.other "invalid memory address or nil pointer dereference")⟩
    else
      .returned ⟨v.mergeTbl, some { Operation := TableMergeOp.TableModified }, none⟩
  else
    .fallThrough v

/-- The short-circuit block of `MergeTable`. -/
def shortCircuit (st : Store) (tblName : String) (isCherryPick : Bool) (v : MergeVars) :
    ShortCircuit :=
  if v.rootHasTable && v.mergeHasTable && v.ancHasTable && v.rootHash == v.mergeHash &&
      v.rootHash == v.ancHash then
    .returned ⟨v.tbl, some { Operation := TableMergeOp.TableUnmodified }, none⟩
  else if v.rootHasTable && v.mergeHasTable && v.rootHash == v.mergeHash &&
      !schemaIsKeyless v.rootSchema then
    .returned ⟨v.tbl, some { Operation := TableMergeOp.TableUnmodified }, none⟩
  else
    match addedTable v with
    | .returned r => .returned r
    | .fallThrough v1 => deletedOrFastForward st tblName isCherryPick v1

/-- Modelled from the spec: `schema.HasAutoIncrement`, which is not among the
sources: "the schema has an auto-increment column". -/
def HasAutoIncrement (sch : Schema) : Bool :=
  sch.allCols.any (fun c => c.AutoIncrement)

/-- The function `mergeAutoIncrementValues(ctx, tbl, otherTbl, resultTbl)`. -/
def mergeAutoIncrementValues (tbl otherTbl resultTbl : Table) : Table :=
  if !HasAutoIncrement tbl.sch then
    resultTbl
  else
    let autoVal := tbl.autoIncrementValue
    let mergeAutoVal := otherTbl.autoIncrementValue
    let autoVal := if autoVal < mergeAutoVal then mergeAutoVal else autoVal
    { resultTbl with autoIncrementValue := autoVal }

/-- The function `setConflicts(ctx, cons, tbl, mergeTbl, ancTbl, tableToUpdate)`. -/
def setConflicts (cons : List (Key × Conflict)) (tbl mergeTbl ancTbl tableToUpdate : Table) :
    Table :=
  { tableToUpdate with conflictSchemas := some (ancTbl.sch, tbl.sch, mergeTbl.sch),
                       conflicts := cons }

/-- The body of `MergeTable` after the short-circuit block. A nil table,
schema or row index that the body would dereference, and a panic of the row
walk, end the merge with an error in the embedding. -/
def threeWayMerge (st : Store) (tblName : String) (isCherryPick : Bool) (v : MergeVars) :
    MergeTableResult :=
  if isCherryPick && !SchemasAreEqual v.rootSchema v.mergeSchema then
    ⟨none, none, some (MergeErr.other ("schema changes not supported: " ++ tblName ++
      " table schema does not match in current HEAD and cherry-pick commit."))⟩
  else
    match v.tbl, v.mergeTbl, v.ancTbl, v.rootSchema, v.mergeSchema, v.ancSchema, v.ancRows with
    | some tbl, some mergeTbl, some ancTbl, some rootSchema, some mergeSchema, some ancSchema,
        some ancRows =>
      match st.SchemaMerge rootSchema mergeSchema ancSchema tblName with
      | .error e => ⟨none, none, some e⟩
      | .ok (postMergeSchema, schConflicts) =>
        if schConflicts != 0 then
          ⟨none, none, some MergeErr.schemaConflict⟩
        else
          let updatedTbl : Table := { tbl with sch := postMergeSchema }
          if st.IsFormat_DOLT_1 then
            match st.prollyMerge postMergeSchema rootSchema mergeSchema ancSchema tbl mergeTbl
                updatedTbl ancRows with
            | .error e => ⟨none, none, some e⟩
            | .ok (updated, stats) =>
              ⟨some (mergeAutoIncrementValues tbl mergeTbl updated), some stats, none⟩
          else
            match mergeNomsTableData postMergeSchema tbl.rowData mergeTbl.rowData ancRows
                updatedTbl.rowData with
            | .error msg => ⟨none, none, some (MergeErr.other msg)⟩
            | .ok res =>
              let resultTbl : Table := { updatedTbl with rowData := res.mergedRows }
              let resultTbl :=
                if res.conflicts.length > 0 then
                  setConflicts res.conflicts tbl mergeTbl ancTbl resultTbl
                else resultTbl
              ⟨some (mergeAutoIncrementValues tbl mergeTbl resultTbl), some res.stats, none⟩
    | _, _, _, _, _, _, _ =>
      ⟨none, none, some (MergeErr.other "invalid memory address or nil pointer dereference")⟩

/-- The method `Merger.MergeTable(ctx, tblName, opts, isCherryPick)`. -/
def MergeTable (st : Store) (merger : Merger) (tblName : String) (isCherryPick : Bool) :
    MergeTableResult :=
  match shortCircuit st tblName isCherryPick (initialVars st merger tblName) with
  | .returned r => r
  | .fallThrough v => threeWayMerge st tblName isCherryPick v


/-! ### Notions of the specification and scenario data -/

/-- The three-way decision on one column in the words of the specification:
`lv` when `lv` equals `rv` under the comparator; otherwise a conflict when both
differ from `bv`; otherwise `lv` when only `lv` differs from `bv`; otherwise
`rv`. The flag is the conflict flag. -/
def columnDecision (cmp : Comparator) (ty : ValType) (lv rv bv : Field) : Field × Bool :=
  if cmp lv rv ty = 0 then (lv, false)
  else if cmp lv bv ty ≠ 0 ∧ cmp rv bv ty ≠ 0 then (none, true)
  else if cmp lv bv ty ≠ 0 then (lv, false)
  else (rv, false)

/-- A schema `(id PK, v)` with tags `0` and `1`, the schema of the
specification's scenarios. -/
def scenarioSchema : Schema :=
  ⟨[⟨"id", 0, 1, true, false⟩, ⟨"v", 1, 1, false, false⟩]⟩

/-- A store for the scenarios: a table is addressed by its schema's tags, its
rows and its counter; the diff summary is read off the row diff; the schema
merge keeps ours' schema; the old storage format is in use. -/
def scenarioStore : Store :=
  { HashOf := fun t =>
      t.sch.allCols.map (fun c => c.Tag) ++ [t.autoIncrementValue] ++
        t.rowData.flatMap (fun e => e.1 :: e.2.flatMap (fun p => [p.1, p.2]))
    Summary := fun rows mergeRows _ _ =>
      (Index.Diff mergeRows rows).map (fun c =>
        match c.ChangeType with
        | DiffChangeType.DiffChangeAdded => ⟨1, 0, 0⟩
        | DiffChangeType.DiffChangeRemoved => ⟨0, 1, 0⟩
        | DiffChangeType.DiffChangeModified => ⟨0, 0, 1⟩)
    SchemaMerge := fun r _ _ _ => .ok (r, 0)
    IsFormat_DOLT_1 := false
    prollyMerge := fun _ _ _ _ _ _ updated _ =>
      .ok (updated, { Operation := TableMergeOp.TableModified }) }

/-- A root with the one table `t` of the scenarios, holding `rows`. -/
def scenarioRoot (sch : Schema) (rows : Index) : RootValue :=
  ⟨[("t", { sch := sch, rowData := rows })]⟩

/-- A merger over three roots that each hold the table `t`. -/
def scenarioMerger (sch : Schema) (ours theirs anc : Index) : Merger :=
  { theirRootIsh := Hash.zero, ancRootIsh := Hash.zero
    root := scenarioRoot sch ours, mergeRoot := scenarioRoot sch theirs
    ancRoot := scenarioRoot sch anc }

/-- A keyless schema `(v)` with tag `1`. -/
def keylessSchema : Schema :=
  ⟨[⟨"v", 1, 1, false, false⟩]⟩

/-- The entries of an index are in strictly increasing key order, the
invariant of an ordered map. -/
abbrev Index.Ordered (m : Index) : Prop :=
  List.Pairwise (fun a b => a < b) m.keys

/-- The changes of a stream are in strictly increasing key order. -/
abbrev changesOrdered (d : List ValueChanged) : Prop :=
  List.Pairwise (fun a b => a < b) (d.map (fun c => c.Key))

/-- The shape of a change that a diff sends: an added key has no old value, a
removed key no new value, a modified key has both. -/
def ValueChanged.wellFormed (c : ValueChanged) : Prop :=
  match c.ChangeType with
  | DiffChangeType.DiffChangeAdded => c.OldValue = none ∧ c.NewValue.isSome = true
  | DiffChangeType.DiffChangeRemoved => c.OldValue.isSome = true ∧ c.NewValue = none
  | DiffChangeType.DiffChangeModified => c.OldValue.isSome = true ∧ c.NewValue.isSome = true

/-- What the primary-key applicator reads of a change without a panic: the new
value of an added key, the old value of a removed key, both of a modified
key. -/
def ValueChanged.applicable (c : ValueChanged) : Prop :=
  match c.ChangeType with
  | DiffChangeType.DiffChangeAdded => c.NewValue.isSome = true
  | DiffChangeType.DiffChangeRemoved => c.OldValue.isSome = true
  | DiffChangeType.DiffChangeModified => c.OldValue.isSome = true ∧ c.NewValue.isSome = true

/-- Equality of two value tuples under a tuple descriptor ("tuples are compared
field-wise using a per-type comparator"): the same number of fields, and each
pair of fields equal under the comparator at the field's type. -/
def TupleDesc.tuplesEqual (vD : TupleDesc) (t t1 : Tuple) : Prop :=
  t.length = t1.length ∧
    ∀ i, i < t.length →
      vD.CompareValues (t.getD i none) (t1.getD i none) (vD.Types.getD i 0) = 0

/-- The scenario schema with a further column `w` (tag `2`), as after
`ALTER TABLE t ADD COLUMN w`. -/
def scenarioSchemaW : Schema :=
  ⟨[⟨"id", 0, 1, true, false⟩, ⟨"v", 1, 1, false, false⟩, ⟨"w", 2, 1, false, false⟩]⟩

/-- A root without tables. -/
def emptyRoot : RootValue :=
  ⟨[]⟩

/-- A merger over the three given roots. -/
def mergerOf (ours theirs anc : RootValue) : Merger :=
  { theirRootIsh := Hash.zero, ancRootIsh := Hash.zero
    root := ours, mergeRoot := theirs, ancRoot := anc }

/-- A schema `(id PK auto-increment, v)`. -/
def autoIncSchema : Schema :=
  ⟨[⟨"id", 0, 1, true, true⟩, ⟨"v", 1, 1, false, false⟩]⟩

/-- The number of keys at which two indexes hold different rows (the size of
their symmetric difference as maps). -/
def differingKeys (a b : Index) : Nat :=
  (((a.keys ++ b.keys).dedup).filter (fun k => a.MaybeGet k != b.MaybeGet k)).length

/-- The number of changes that the statistics count: adds, modifications and
deletes together. -/
def MergeStats.changes (s : MergeStats) : Nat :=
  s.Adds + s.Modifications + s.Deletes

/-! ### The conflict processors of the new format (`merge_prolly.go`) -/

/-- Modelled from the spec: `Table.HasConflicts`, which is not among the
sources: "the table already contains conflicts", as conflict artifacts or as
in-line conflicts. -/
def Table.HasConflicts (t : Table) : Bool :=
  t.artifacts.any (fun a => a.artType == ArtifactType.ArtifactTypeConflict) ||
    !t.conflicts.isEmpty

/-- Modelled from the spec: `Table.GetConflictSchemas`, which is not among the
sources: "the pre-existing conflict schemas `(base', ours', theirs')`"; a table
that stores none gives an error. -/
def Table.GetConflictSchemas (t : Table) : Except MergeErr (Schema × Schema × Schema) :=
  match t.conflictSchemas with
  | some s => .ok s
  | none => .error (MergeErr.other "no conflict schemas")

/-- The method `Schema.GetAllCols`: all columns, in order. -/
def Schema.GetAllCols (s : Schema) : ColCollection :=
  ⟨s.allCols⟩

/-- Modelled from the spec: `schema.ColCollsAreEqual`, which is not among the
sources: the "column collections" are "equal". -/
def ColCollsAreEqual (a b : ColCollection) : Bool :=
  a == b

/-- The function `isNewConflictsCompatible(ctx, tbl, base, ours, theirs)`. -/
def isNewConflictsCompatible (tbl : Table) (base ours theirs : Schema) :
    Except MergeErr Bool :=
  if !tbl.HasConflicts then
    .ok true
  else
    match tbl.GetConflictSchemas with
    | .error e => .error e
    | .ok (eBase, eOurs, eTheirs) =>
      if ColCollsAreEqual eBase.GetAllCols base.GetAllCols &&
          ColCollsAreEqual eOurs.GetAllCols ours.GetAllCols &&
          ColCollsAreEqual eTheirs.GetAllCols theirs.GetAllCols then
        .ok true
      else
        .ok false

/-- The struct `insertingProcessor`; `metadataJson` is the JSON text of the
metadata, which the struct determines. -/
structure insertingProcessor where
  cmHash : List Nat
  metadataJson : ConflictMetadata
  deriving DecidableEq, Repr

/-- The statements `h := make([]byte, 20); copy(h, src[:])`: the first twenty
bytes of `src`, zero-filled at the end when `src` is shorter. -/
def copy20 (src : List Nat) : List Nat :=
  src.take 20 ++ List.replicate (20 - src.length) 0

/-- The function `newInsertingProcessor(cmHash, baseTblHash, theirTblHash)`;
marshalling the metadata does not fail. -/
def newInsertingProcessor (cmHash baseTblHash theirTblHash : Hash) : insertingProcessor :=
  { cmHash := copy20 cmHash
    metadataJson := { BaseTblHash := copy20 baseTblHash, TheirTblHash := copy20 theirTblHash } }

/-- What a call of `process` leaves: the statistics and the artifact editor,
both of which the caller shares, and the returned error. -/
structure ProcessResult where
  stats : MergeStats
  artEditor : List Artifact
  err : Option MergeErr
  deriving DecidableEq, Repr

/-- Modelled from the spec: `ArtifactsEditor.Add`, which is not among the
sources: "append an artifact keyed by the row's primary key". -/
def ArtifactsEditor.Add (ed : List Artifact) (key : Option Tuple) (cmHash : List Nat)
    (artType : ArtifactType) (metadata : ConflictMetadata) : List Artifact :=
  ed ++ [⟨key, cmHash, artType, metadata⟩]

/-- The method `insertingProcessor.process`: the loop over the conflict channel
until it is closed, the list being what the channel delivers. -/
def insertingProcessor.process (p : insertingProcessor) (stats : MergeStats)
    (conflictChan : List confVals) (artEditor : List Artifact) : ProcessResult :=
  match conflictChan with
  | [] => { stats := stats, artEditor := artEditor, err := none }
  | conflict :: rest =>
    p.process { stats with Conflicts := stats.Conflicts + 1 } rest
      (ArtifactsEditor.Add artEditor conflict.key p.cmHash
        ArtifactType.ArtifactTypeConflict p.metadataJson)

/-- The method `abortingProcessor.process`: one receive from the conflict
channel; a record gives `ErrConflictsIncompatible`, the closed channel nil. -/
def abortingProcessor.process (stats : MergeStats) (conflictChan : List confVals)
    (artEditor : List Artifact) : ProcessResult :=
  match conflictChan with
  | [] => { stats := stats, artEditor := artEditor, err := none }
  | _ :: _ =>
    { stats := stats, artEditor := artEditor, err := some MergeErr.ErrConflictsIncompatible }

/-- The interface `conflictProcessor` with its two implementations. -/
inductive conflictProcessor where
  | inserting (p : insertingProcessor)
  | aborting
  deriving DecidableEq, Repr

/-- The call `p.process(ctx, stats, conflictChan, artEditor)`. -/
def conflictProcessor.process (p : conflictProcessor) (stats : MergeStats)
    (conflictChan : List confVals) (artEditor : List Artifact) : ProcessResult :=
  match p with
  | .inserting ip => ip.process stats conflictChan artEditor
  | .aborting => abortingProcessor.process stats conflictChan artEditor

/-- The function `mergeTableData` as far as the conflicts go. The row merge
(`mergeProllyRowData`, whose `prolly.MergeMaps` is not among the sources) and
the index merges are taken to have succeeded: `conflicts` is what the row merge
sent on the conflict channel and `updatedTable` the table with the merged rows
and indexes. The error of the task group is the error of the processor. -/
def mergeTableData (conflicts : List confVals) (updatedTable : Table)
    (rootSchema mergeSchema ancSchema : Schema) (tbl : Table)
    (cmHash mergeTblHash ancTblHash : Hash) : Except MergeErr (Table × MergeStats) :=
  let stats : MergeStats := { Operation := TableMergeOp.TableModified }
  let artifactEditor := tbl.artifacts
  match isNewConflictsCompatible tbl ancSchema rootSchema mergeSchema with
  | .error e => .error e
  | .ok can =>
    let p : conflictProcessor :=
      if can then .inserting (newInsertingProcessor cmHash ancTblHash mergeTblHash)
      else .aborting
    let r := p.process stats conflicts artifactEditor
    match r.err with
    | some e => .error e
    | none => .ok ({ updatedTable with artifacts := r.artEditor }, r.stats)

/-- A table of the new format that holds one conflict artifact, recorded by an
earlier merge when the schemas on all three sides were the scenario schema. -/
def conflictedTable : Table :=
  { sch := scenarioSchemaW, rowData := [(1, [(1, 11)])]
    conflictSchemas := some (scenarioSchema, scenarioSchema, scenarioSchema)
    artifacts := [⟨some [some [1]], copy20 [], ArtifactType.ArtifactTypeConflict,
      ⟨copy20 [], copy20 []⟩⟩] }

/-! ### The roots-level merge (`MergeRoots`, `merge.go`) -/

/-- The call `root.HasTable(ctx, name)`. -/
def RootValue.HasTable (root : RootValue) (name : String) : Bool :=
  (root.GetTable name).isSome

/-- Modelled from the spec: `RootValue.PutTable`, which is not among the
sources: "`put_table(name, table)`" binds the name to the table, in place when
the root has the name already. -/
def RootValue.PutTable (root : RootValue) (name : String) (tbl : Table) : RootValue :=
  if root.HasTable name then
    ⟨root.tables.map (fun e => if e.1 == name then (name, tbl) else e)⟩
  else
    ⟨root.tables ++ [(name, tbl)]⟩

/-- Modelled from the spec: `RootValue.RemoveTables` for one name, which is not
among the sources: "`remove_tables(names)`". -/
def RootValue.RemoveTables (root : RootValue) (name : String) : RootValue :=
  ⟨root.tables.filter (fun e => e.1 != name)⟩

/-- Modelled from the spec: `doltdb.UnionTableNames`, which is not among the
sources: "`table_names = union(keys(ours), keys(theirs))`", each name once. -/
def UnionTableNames (a b : RootValue) : List String :=
  (a.tables.map (fun e => e.1) ++ b.tables.map (fun e => e.1)).eraseDups

/-- The map `tblToStats` from table name to statistics, with its entries in
the order in which the names were first set. -/
abbrev StatsMap := List (String × MergeStats)

/-- The assignment `tblToStats[name] = stats`. -/
def StatsMap.set (m : StatsMap) (name : String) (stats : MergeStats) : StatsMap :=
  if m.any (fun e => e.1 == name) then
    m.map (fun e => if e.1 == name then (name, stats) else e)
  else
    m ++ [(name, stats)]

/-- Modelled from the spec: the struct `conflictStash`, which is not among the
sources: the conflicts that ours' tables held before the merge, by table name,
each with its conflict schemas. -/
structure conflictStash where
  Stash : List (String × Option (Schema × Schema × Schema) × List (Key × Conflict))
  deriving DecidableEq, Repr

/-- Modelled from the spec: `conflictStash.Empty`, which is not among the
sources: "the pre-merge stash contained" no "conflicts". -/
def conflictStash.Empty (s : conflictStash) : Bool :=
  s.Stash.isEmpty

/-- Modelled from the spec: the struct `violationStash`, which is not among the
sources: the constraint violations that the ancestor's tables held, by table
name, in the iteration order of the Go map. -/
structure violationStash where
  Stash : List (String × List (Nat × Nat))
  deriving DecidableEq, Repr

/-- Modelled from the spec: `stashConflicts`, which is not among the sources:
"stash from ours all existing conflicts" and "replace them with empty
artifacts for the duration of the merge". -/
def stashConflicts (root : RootValue) : RootValue × conflictStash :=
  (⟨root.tables.map (fun e => (e.1, { e.2 with conflictSchemas := none, conflicts := [] }))⟩,
   ⟨(root.tables.filter (fun e => !e.2.conflicts.isEmpty)).map
      (fun e => (e.1, e.2.conflictSchemas, e.2.conflicts))⟩)

/-- Modelled from the spec: `stashViolations`, which is not among the sources:
"stash from ancestor all existing constraint violations" and replace them with
empty ones. -/
def stashViolations (root : RootValue) : RootValue × violationStash :=
  (⟨root.tables.map (fun e => (e.1, { e.2 with constraintViolations := [] }))⟩,
   ⟨(root.tables.filter (fun e => !e.2.constraintViolations.isEmpty)).map
      (fun e => (e.1, e.2.constraintViolations))⟩)

/-- Modelled from the spec: `applyConflictStash`, which is not among the
sources: "re-apply the stashed conflicts" to the tables that the root still
has. -/
def applyConflictStash
    (stash : List (String × Option (Schema × Schema × Schema) × List (Key × Conflict)))
    (root : RootValue) : RootValue :=
  stash.foldl
    (fun r e =>
      match r.GetTable e.1 with
      | some t => r.PutTable e.1 { t with conflictSchemas := e.2.1, conflicts := e.2.2 }
      | none => r)
    root

/-- Modelled from the spec: `types.UnionMaps` with the callback of
`mergeCVsWithStash`, which is not among the sources: the union of the current
and the stashed violations; "if a key collides with an unequal payload, fail"
(the callback panics), and on an equal payload the current value stays. -/
def UnionMaps (curr stashed : List (Nat × Nat)) : Except String (List (Nat × Nat)) :=
  stashed.foldlM
    (fun acc e =>
      match (acc.find? (fun c => c.1 == e.1)).map (fun c => c.2) with
      | some currV =>
        if currV != e.2 then
          .error "encountered conflict when merging constraint violations"
        else .ok acc
      | none => .ok (acc.filter (fun c => c.1 < e.1) ++ e :: acc.filter (fun c => e.1 < c.1)))
    curr

/-- The loop of `mergeCVsWithStash` over the entries of the stash, with the
variable `updatedRoot`. -/
def mergeCVsLoop (root : RootValue) :
    List (String × List (Nat × Nat)) → RootValue → Except String RootValue
  | [], updatedRoot => .ok updatedRoot
  | (name, stashed) :: rest, updatedRoot =>
    match root.GetTable name with
    | none => mergeCVsLoop root rest updatedRoot
    | some tbl => do
      let curr := tbl.constraintViolations
      let unioned ← UnionMaps curr stashed
      let tbl := { tbl with constraintViolations := unioned }
      mergeCVsLoop root rest (root.PutTable name tbl)

/-- The function `mergeCVsWithStash(ctx, root, stash)`. -/
def mergeCVsWithStash (root : RootValue) (stash : violationStash) : Except String RootValue :=
  mergeCVsLoop root stash.Stash root

/-- The function `checkForConflicts(tblToStats)`. -/
def checkForConflicts (tblToStats : StatsMap) : Bool :=
  tblToStats.any (fun e => decide (e.2.Conflicts > 0))

/-- Modelled from the spec: `Table.NumRowsInConflict`, which is not among the
sources: "counting rows-in-conflict". -/
def Table.NumRowsInConflict (t : Table) : Nat :=
  t.conflicts.length +
    (t.artifacts.filter (fun a => a.artType == ArtifactType.ArtifactTypeConflict)).length

/-- Modelled from the spec: `Table.NumConstraintViolations`, which is not among
the sources: counting "rows-with-violation". -/
def Table.NumConstraintViolations (t : Table) : Nat :=
  t.constraintViolations.length +
    (t.artifacts.filter (fun a => a.artType != ArtifactType.ArtifactTypeConflict)).length

/-- The function `getConflictAndConstraintViolationStats(ctx, root,
tblToStats)`, which updates the statistics in place. -/
def getConflictAndConstraintViolationStats (root : RootValue) (tblToStats : StatsMap) :
    StatsMap :=
  tblToStats.map (fun e =>
    match root.GetTable e.1 with
    | some tbl =>
      (e.1, { e.2 with Conflicts := tbl.NumRowsInConflict
                       ConstraintViolations := tbl.NumConstraintViolations })
    | none => e)

/-- The foreign-key collaborators of `MergeRoots`, which are not among the
sources: `ForeignKeysMerge` returns the merged collection and the number of
conflicts. -/
structure RootOps where
  ForeignKeysMerge : RootValue → RootValue → RootValue → RootValue →
    Except MergeErr (Nat × Nat)
  PutForeignKeyCollection : RootValue → Nat → RootValue
  UpdateSuperSchemasFromOther : RootValue → List String → RootValue → RootValue
  AddForeignKeyViolations : RootValue → RootValue → Hash → Except MergeErr RootValue

/-- The table loop of `MergeRoots`, with the variables `mergedRoot` and
`tblToStats`. `MergeTable` never returns a table without statistics; the nil
pointer that the map would then hold is a panic here. -/
def mergeTablesLoop (st : Store) (merger : Merger) (isCherryPick : Bool) :
    List String → RootValue → StatsMap → Except MergeErr (RootValue × StatsMap)
  | [], mergedRoot, tblToStats => .ok (mergedRoot, tblToStats)
  | tblName :: rest, mergedRoot, tblToStats =>
    let r := MergeTable st merger tblName isCherryPick
    match r.err with
    | some e => .error e
    | none =>
      match r.table, r.stats with
      | some mergedTable, some stats =>
        mergeTablesLoop st merger isCherryPick rest (mergedRoot.PutTable tblName mergedTable)
          (tblToStats.set tblName stats)
      | some _, none =>
        .error (MergeErr.other "invalid memory address or nil pointer dereference")
      | none, stats =>
        if mergedRoot.HasTable tblName then
          mergeTablesLoop st merger isCherryPick rest (mergedRoot.RemoveTables tblName)
            (tblToStats.set tblName { Operation := TableMergeOp.TableRemoved })
        else
          match stats with
          | some s =>
            if s.Operation != TableMergeOp.TableRemoved then
              .error (MergeErr.other ("Invalid merge state for table " ++ tblName ++
                ". This is a bug."))
            else
              mergeTablesLoop st merger isCherryPick rest mergedRoot tblToStats
          | none =>
            .error (MergeErr.other "invalid memory address or nil pointer dereference")

/-- The part of `MergeRoots` from the union of the table names to
`AddForeignKeyViolations`: the table loop and the foreign keys. -/
def mergeTablesAndForeignKeys (st : Store) (ops : RootOps) (theirRootIsh ancRootIsh : Hash)
    (ourRoot theirRoot ancRoot : RootValue) (isCherryPick : Bool) :
    Except MergeErr (RootValue × StatsMap) := do
  let tblNames := UnionTableNames ourRoot theirRoot
  let merger : Merger :=
    { theirRootIsh := theirRootIsh, ancRootIsh := ancRootIsh, root := ourRoot
      mergeRoot := theirRoot, ancRoot := ancRoot }
  let (mergedRoot, tblToStats) ← mergeTablesLoop st merger isCherryPick tblNames ourRoot []
  let (mergedFKColl, conflicts) ← ops.ForeignKeysMerge mergedRoot ourRoot theirRoot ancRoot
  if conflicts > 0 then
    throw (MergeErr.other "foreign key conflicts")
  let mergedRoot := ops.PutForeignKeyCollection mergedRoot mergedFKColl
  let mergedRoot := ops.UpdateSuperSchemasFromOther mergedRoot tblNames theirRoot
  let mergedRoot ← ops.AddForeignKeyViolations mergedRoot ancRoot theirRootIsh
  return (mergedRoot, tblToStats)

/-- The function `MergeRoots(ctx, theirRootIsh, ancRootIsh, ourRoot, theirRoot,
ancRoot, opts, isCherryPick)`. A panic of `mergeCVsWithStash` ends the merge
with an error in the embedding. -/
def MergeRoots (st : Store) (ops : RootOps) (theirRootIsh ancRootIsh : Hash)
    (ourRoot theirRoot ancRoot : RootValue) (isCherryPick : Bool) :
    Except MergeErr (RootValue × StatsMap) :=
  if st.IsFormat_DOLT_1 then
    match mergeTablesAndForeignKeys st ops theirRootIsh ancRootIsh ourRoot theirRoot ancRoot
        isCherryPick with
    | .error e => .error e
    | .ok (mergedRoot, tblToStats) =>
      .ok (mergedRoot, getConflictAndConstraintViolationStats mergedRoot tblToStats)
  else
    let ours := stashConflicts ourRoot
    let anc := stashViolations ancRoot
    match mergeTablesAndForeignKeys st ops theirRootIsh ancRootIsh ours.1 theirRoot anc.1
        isCherryPick with
    | .error e => .error e
    | .ok (mergedRoot, tblToStats) =>
      match mergeCVsWithStash mergedRoot anc.2 with
      | .error msg => .error (MergeErr.other msg)
      | .ok mergedRoot =>
        let tblToStats := getConflictAndConstraintViolationStats mergedRoot tblToStats
        let mergedHasConflicts := checkForConflicts tblToStats
        if !ours.2.Empty && mergedHasConflicts then
          .error MergeErr.ErrCantOverwriteConflicts
        else if !ours.2.Empty then
          .ok (applyConflictStash ours.2.Stash mergedRoot, tblToStats)
        else
          .ok (mergedRoot, tblToStats)

/-- Foreign-key collaborators for the scenarios: no foreign keys. -/
def scenarioRootOps : RootOps :=
  { ForeignKeysMerge := fun _ _ _ _ => .ok (0, 0)
    PutForeignKeyCollection := fun r _ => r
    UpdateSuperSchemasFromOther := fun r _ _ => r
    AddForeignKeyViolations := fun r _ _ => .ok r }

/-- Ours' root of the stash scenario: the table `t` with row `(1,11)` and one
unresolved conflict of an earlier merge at key 5. -/
def conflictedRoot : RootValue :=
  ⟨[("t", { sch := scenarioSchema, rowData := [(1, [(1, 11)])]
            conflictSchemas := some (scenarioSchema, scenarioSchema, scenarioSchema)
            conflicts := [(5, ⟨some [(1, 50)], some [(1, 51)], some [(1, 52)]⟩)] })]⟩

/-- A root with two tables `a` and `b` without constraint violations. -/
def twoTableRoot : RootValue :=
  ⟨[("a", { sch := scenarioSchema, rowData := [] }),
    ("b", { sch := scenarioSchema, rowData := [] })]⟩

/-! ### Reading the statistics map -/

/-- The read `tblToStats[name]` of the Go map; a missing key gives nil. -/
def StatsMap.get (m : StatsMap) (name : String) : Option MergeStats :=
  (m.find? (fun e => e.1 == name)).map (fun e => e.2)

/-- Ours' root of the table-loop scenario, which is also the ancestor's: the
one table `u`. -/
def loopOurRoot : RootValue :=
  ⟨[("u", { sch := scenarioSchema, rowData := [(7, [(1, 70)])] })]⟩

/-- Theirs' root of the table-loop scenario: `u` dropped and `t` created. -/
def loopTheirRoot : RootValue :=
  ⟨[("t", { sch := scenarioSchema, rowData := [(1, [(1, 11)])] })]⟩

/-! ### The reconciliation of one change, in the words of the specification -/

/-- The reconciliation of one change `mc` of theirs against ours' diff stream
`d1`, in the words of the specification. When ours has no change at the key:
"apply theirs' change to the output". When ours has the change `c` at the key:
"both sides touched this row", the row merger is called once on ours' row,
theirs' row and the base row, and its result is either recorded as a conflict
or applied as the merged change. A change that only ours made is "already
reflected in the output" and takes no step. -/
def reconcileTheirs (rowMerge : rowMerger) (applyChange : applicator) (sch : Schema)
    (rows : Index) (d1 : List ValueChanged) (st : WalkState) (mc : ValueChanged) :
    Except String WalkState :=
  match d1.find? (fun c => c.Key == mc.Key) with
  | none => do
    let e ← applyChange sch rows st.edit mc
    return { st with edit := e }
  | some c => do
    let res ← rowMerge sch c.NewValue mc.NewValue c.OldValue
    if res.isConflict then
      return { st with
        conflicts := st.conflicts ++ [(c.Key, ⟨c.OldValue, c.NewValue, mc.NewValue⟩)] }
    else do
      let vc : ValueChanged :=
        { ChangeType := c.ChangeType, Key := c.Key, NewValue := res.mergedRow,
          OldValue := if res.didCellMerge then c.NewValue else c.OldValue }
      let e ← applyChange sch rows st.edit vc
      return { st with edit := e }

/-- The index of scenario S6 before the insert, for the keyless schema `(v)`:
the rows `(a)` and `(b)` under their surrogate keys 1 and 2, each with the
cardinality 1 in the first place. -/
def keylessBase : Index :=
  [(1, [(0, 1), (1, 100)]), (2, [(0, 1), (1, 101)])]

/-- The index of scenario S6 after the insert of the row `(c)` under the
surrogate key 3, on either side. -/
def keylessWithC : Index :=
  [(1, [(0, 1), (1, 100)]), (2, [(0, 1), (1, 101)]), (3, [(0, 1), (1, 102)])]

/-! ### The in-memory table (`table/inmem_table.go`) -/

/-- The errors of the table package that the in-memory table returns:
`ErrInvalidRow` and `io.EOF`. -/
inductive TableError where
  | ErrInvalidRow
  | EOF
  deriving DecidableEq, Repr

/-- The struct `InMemTable`. The row type `row.Row` is not among the sources
and is a parameter of the embedding. -/
structure InMemTable (Row : Type) where
  sch : Schema
  rows : List Row

/-- The function `NewInMemTableWithDataAndValidationType(sch, rows)`. -/
def NewInMemTableWithDataAndValidationType {Row : Type} (sch : Schema) (rows : List Row) :
    InMemTable Row :=
  ⟨sch, rows⟩

/-- The function `NewInMemTableWithData(sch, rows)`. -/
def NewInMemTableWithData {Row : Type} (sch : Schema) (rows : List Row) : InMemTable Row :=
  NewInMemTableWithDataAndValidationType sch rows

/-- The function `NewInMemTable(sch)`. -/
def NewInMemTable {Row : Type} (sch : Schema) : InMemTable Row :=
  NewInMemTableWithData sch []

/-- The method `InMemTable.AppendRow(r)`: the table after the call and the
returned error. The validity test `row.IsValid(r, sch)` is not among the
sources and is a parameter. -/
def InMemTable.AppendRow {Row : Type} (IsValid : Row → Schema → Bool) (imt : InMemTable Row)
    (r : Row) : InMemTable Row × Option TableError :=
  if !IsValid r imt.sch then
    (imt, some TableError.ErrInvalidRow)
  else
    ({ imt with rows := imt.rows ++ [r] }, none)

/-- The method `InMemTable.NumRows()`, a Go `int`. -/
def InMemTable.NumRows {Row : Type} (imt : InMemTable Row) : Int :=
  imt.rows.length

/-- Go slice indexing `xs[i]` with an `int` index: a runtime panic when the
index is negative or not below the length. -/
def sliceAtInt {α : Type} (xs : List α) (i : Int) : Except String α :=
  if i < 0 then .error "index out of range" else sliceAt xs i.toNat

/-- The method `InMemTable.GetRow(index)`. -/
def InMemTable.GetRow {Row : Type} (imt : InMemTable Row) (index : Int) :
    Except String (Row × Option TableError) := do
  let r ← sliceAtInt imt.rows index
  return (r, none)

/-- The method `InMemTable.GetSchema()`. -/
def InMemTable.GetSchema {Row : Type} (imt : InMemTable Row) : Schema :=
  imt.sch

/-- The struct `InMemTableReader`. The reader points to its table; no row is
appended while a reader is in use here, so the reader holds the table as it
was when the reader was created. -/
structure InMemTableReader (Row : Type) where
  tt : InMemTable Row
  current : Int

/-- The function `NewInMemTableReader(imt)`. -/
def NewInMemTableReader {Row : Type} (imt : InMemTable Row) : InMemTableReader Row :=
  ⟨imt, 0⟩

/-- The method `InMemTableReader.ReadRow()`: the returned `(row, error)` and
the reader after the call; a runtime panic is `Except.error`. -/
def InMemTableReader.ReadRow {Row : Type} (rd : InMemTableReader Row) :
    Except String ((Option Row × Option TableError) × InMemTableReader Row) :=
  let numRows := rd.tt.NumRows
  if rd.current < numRows then do
    let r ← sliceAtInt rd.tt.rows rd.current
    return ((some r, none), { rd with current := rd.current + 1 })
  else
    return ((none, some TableError.EOF), rd)

/-- The method `InMemTableReader.Close()`: the reader after the call and the
returned error. -/
def InMemTableReader.Close {Row : Type} (rd : InMemTableReader Row) :
    InMemTableReader Row × Option TableError :=
  ({ rd with current := -1 }, none)

/-- The method `InMemTableReader.GetSchema()`. -/
def InMemTableReader.GetSchema {Row : Type} (rd : InMemTableReader Row) : Schema :=
  rd.tt.sch

/-- The struct `InMemTableWriter`. -/
structure InMemTableWriter (Row : Type) where
  tt : InMemTable Row

/-- The function `NewInMemTableWriter(imt)`. -/
def NewInMemTableWriter {Row : Type} (imt : InMemTable Row) : InMemTableWriter Row :=
  ⟨imt⟩

/-- The method `InMemTableWriter.WriteRow(r)`: the writer, with its table,
after the call and the returned error. -/
def InMemTableWriter.WriteRow {Row : Type} (IsValid : Row → Schema → Bool)
    (w : InMemTableWriter Row) (r : Row) : InMemTableWriter Row × Option TableError :=
  let res := w.tt.AppendRow IsValid r
  (⟨res.1⟩, res.2)

/-- The method `InMemTableWriter.Close()`. -/
def InMemTableWriter.Close {Row : Type} (_w : InMemTableWriter Row) : Option TableError :=
  none

/-- The method `InMemTableWriter.GetSchema()`. -/
def InMemTableWriter.GetSchema {Row : Type} (w : InMemTableWriter Row) : Schema :=
  w.tt.sch

/-- The write loop of `TestInMemTable`: `WriteRow` on each row in order; the
writer after the loop and the errors returned, in order. -/
def writeRows {Row : Type} (IsValid : Row → Schema → Bool) (w : InMemTableWriter Row) :
    List Row → InMemTableWriter Row × List (Option TableError)
  | [] => (w, [])
  | r :: rest =>
    let res := w.WriteRow IsValid r
    let tl := writeRows IsValid res.1 rest
    (tl.1, res.2 :: tl.2)

/-- The read loop of `TestInMemTable`: `n` calls of `ReadRow` in a row; what
the calls returned, in order, and the reader after the last call. -/
def readRows {Row : Type} (rd : InMemTableReader Row) :
    Nat → Except String (List (Option Row × Option TableError) × InMemTableReader Row)
  | 0 => .ok ([], rd)
  | n + 1 => do
    let (res, rd1) ← rd.ReadRow
    let (tl, rd2) ← readRows rd1 n
    return (res :: tl, rd2)

/-! ### Notions for the cardinality accounting of keyless tables -/

/-- The cardinality that `convertValueChanged` reads off an old or a new value:
that of the row, and `0` for a nil value. -/
def cardOf (v : Option NomsRow) : Except String Nat :=
  match v with
  | some r => keylessCard r
  | none => pure 0

/-- The statistics with the counter that matches a change type raised by `n`:
`Adds` for an added, `Modifications` for a modified and `Deletes` for a removed
key. -/
def MergeStats.raise (s : MergeStats) (ct : DiffChangeType) (n : Nat) : MergeStats :=
  match ct with
  | DiffChangeType.DiffChangeAdded => { s with Adds := s.Adds + n }
  | DiffChangeType.DiffChangeModified => { s with Modifications := s.Modifications + n }
  | DiffChangeType.DiffChangeRemoved => { s with Deletes := s.Deletes + n }

/-- Every row that the editor of a keyless table holds has its cardinality
field. -/
def Index.rowsHaveCard (ed : Index) : Prop :=
  ∀ k row, ed.MaybeGet k = some row → row ≠ []

/-! ### One row in the two storage formats -/

/-- The old-format row (`types.Tuple` of tags and values) that holds the value
`f tag` in the column of each tag of `tags`: the `(tag, value)` pairs of the
columns that are not NULL, in column order. -/
def nomsRowOf (tags : List Nat) (f : Nat → Option Nat) : NomsRow :=
  tags.filterMap (fun tag => (f tag).map (fun x => (tag, x)))

/-- The new-format value tuple (`val.Tuple`) that holds the value `f tag` in
the column of each tag of `tags`: one field per column, in column order, nil
for NULL and the one-element byte string of the value otherwise. -/
def tupleOf (tags : List Nat) (f : Nat → Option Nat) : Tuple :=
  tags.map (fun tag => (f tag).map (fun x => [x]))

/-- A comparator that orders fields by their length alone, NULL first. It is
reflexive, symmetric and transitive in its equality, and it compares different
fields of one length as equal, as a collation that ignores case does. -/
def lengthComparator : Comparator := fun a b _ =>
  match a, b with
  | none, none => 0
  | none, some _ => -1
  | some _, none => 1
  | some x, some y =>
    if x.length = y.length then 0 else if x.length < y.length then -1 else 1

/-! ## Part II: theorems -/

/-! ### The value merger -/

theorem sliceAt_of_getElem? {α : Type} {xs : List α} {i : Nat} {x : α}
    (h : xs[i]? = some x) : sliceAt xs i = .ok x := by
  simp [sliceAt, h]

/-- The decision of `processColumn` on the three values of a column. -/
theorem processColumn_eq (m : valueMerger) (i : Nat) (left right : Tuple)
    (base : Option Tuple) (l r : Int) (ty : ValType)
    (hl : m.leftMapping[i]? = some l) (hr : m.rightMapping[i]? = some r)
    (hty : m.vD.Types[i]? = some ty)
    (hb : base.isSome → ∃ b, m.baseMapping[i]? = some b) :
    m.processColumn i left right base =
      .ok (if m.vD.CompareValues (sideValue m.leftMapping i left)
              (sideValue m.rightMapping i right) ty = 0 then
             (sideValue m.leftMapping i left, false)
           else
             match base with
             | none => (none, true)
             | some b =>
               if m.vD.CompareValues (sideValue m.leftMapping i left)
                     (sideValue m.baseMapping i b) ty ≠ 0 ∧
                   m.vD.CompareValues (sideValue m.rightMapping i right)
                     (sideValue m.baseMapping i b) ty ≠ 0 then
                 (none, true)
               else if m.vD.CompareValues (sideValue m.leftMapping i left)
                     (sideValue m.baseMapping i b) ty ≠ 0 then
                 (sideValue m.leftMapping i left, false)
               else
                 (sideValue m.rightMapping i right, false)) := by
  have el : (if (l != -1) = true then Tuple.GetField left l else none)
      = sideValue m.leftMapping i left := by
    simp only [sideValue, hl]; by_cases h : l = -1 <;> simp [h]
  have er : (if (r != -1) = true then Tuple.GetField right r else none)
      = sideValue m.rightMapping i right := by
    simp only [sideValue, hr]; by_cases h : r = -1 <;> simp [h]
  simp only [valueMerger.processColumn, sliceAt_of_getElem? hl, sliceAt_of_getElem? hr,
    sliceAt_of_getElem? hty, bind, Except.bind, pure, Except.pure, el, er]
  by_cases h1 : m.vD.CompareValues (sideValue m.leftMapping i left)
      (sideValue m.rightMapping i right) ty = 0
  · simp [h1]
  · cases base with
    | none => simp [h1]
    | some b =>
      obtain ⟨bi, hbi⟩ := hb rfl
      have eb : (if (bi != -1) = true then Tuple.GetField b bi else none)
          = sideValue m.baseMapping i b := by
        simp only [sideValue, hbi]; by_cases h : bi = -1 <;> simp [h]
      simp only [sliceAt_of_getElem? hbi, eb]
      by_cases h2 : m.vD.CompareValues (sideValue m.leftMapping i left)
          (sideValue m.baseMapping i b) ty = 0 <;>
      by_cases h3 : m.vD.CompareValues (sideValue m.rightMapping i right)
          (sideValue m.baseMapping i b) ty = 0 <;>
      simp [h1, h2, h3]


theorem newValueMerger_numCols (cmp : Comparator) (merged leftSch rightSch baseSch : Schema) :
    (newValueMerger cmp merged leftSch rightSch baseSch).numCols = merged.GetNonPKCols.Size :=
  rfl

/-- For a column of the merged schema the three mappings and the descriptor of
a constructed merger have an entry. -/
theorem newValueMerger_entries (cmp : Comparator) (merged leftSch rightSch baseSch : Schema)
    (i : Nat) (hi : i < merged.GetNonPKCols.Size) :
    ∃ l r b,
      (newValueMerger cmp merged leftSch rightSch baseSch).leftMapping[i]? = some l ∧
      (newValueMerger cmp merged leftSch rightSch baseSch).rightMapping[i]? = some r ∧
      (newValueMerger cmp merged leftSch rightSch baseSch).baseMapping[i]? = some b ∧
      (newValueMerger cmp merged leftSch rightSch baseSch).vD.Types[i]?
        = some (columnType merged i) := by
  have hlen : i < merged.GetNonPKCols.cols.length := hi
  refine ⟨ordinalOf leftSch (merged.GetNonPKCols.cols[i]).Tag,
    ordinalOf rightSch (merged.GetNonPKCols.cols[i]).Tag,
    ordinalOf baseSch (merged.GetNonPKCols.cols[i]).Tag, ?_, ?_, ?_, ?_⟩ <;>
  simp [newValueMerger, ColCollection.Tags, ValueDescriptorFromSchema, columnType,
    List.getElem?_eq_getElem hlen]

/-- The column loop, given what `processColumn` returns on each column. -/
theorem mergeColumns_eq (m : valueMerger) (left right : Tuple) (base : Option Tuple)
    (f : Nat → Field × Bool) (cols : List Nat)
    (h : ∀ i ∈ cols, m.processColumn i left right base = .ok (f i)) :
    m.mergeColumns left right base cols =
      .ok (if ∃ i ∈ cols, (f i).2 = true then (none, true)
           else (some (cols.map (fun i => (f i).1)), false)) := by
  induction cols with
  | nil => simp [valueMerger.mergeColumns]
  | cons i rest ih =>
    have hi := h i (List.mem_cons_self _ _)
    have hrest := ih (fun j hj => h j (List.mem_cons_of_mem _ hj))
    rw [valueMerger.mergeColumns, hi, hrest]
    cases hf : f i with
    | mk v c =>
      cases c with
      | true => simp [bind, Except.bind, pure, Except.pure, hf]
      | false =>
        by_cases hex : ∃ j ∈ rest, (f j).2 = true
        · simp [bind, Except.bind, pure, Except.pure, hf, hex]
        · simp [bind, Except.bind, pure, Except.pure, hf, hex]


/-- On a column of the merged schema and three present rows, `processColumn` of
a constructed merger returns the three-way decision on the column's values. -/
theorem processColumn_newValueMerger (cmp : Comparator)
    (merged leftSch rightSch baseSch : Schema) (i : Nat)
    (hi : i < merged.GetNonPKCols.Size) (left right base : Tuple) :
    (newValueMerger cmp merged leftSch rightSch baseSch).processColumn i left right
        (some base) =
      .ok (columnDecision cmp (columnType merged i)
        (sideValue (newValueMerger cmp merged leftSch rightSch baseSch).leftMapping i left)
        (sideValue (newValueMerger cmp merged leftSch rightSch baseSch).rightMapping i right)
        (sideValue (newValueMerger cmp merged leftSch rightSch baseSch).baseMapping i base)) := by
  obtain ⟨l, r, b, hl, hr, hb, hty⟩ :=
    newValueMerger_entries cmp merged leftSch rightSch baseSch i hi
  rw [processColumn_eq _ i left right (some base) l r _ hl hr hty (fun _ => ⟨b, hb⟩)]
  rfl

/-- C1: for a column `i` of the merged schema and present left, right and base
rows, `processColumn` of a constructed merger returns the three-way decision
on the column's values `lv`, `rv`, `bv` (NULL where the side's mapping is
`-1`): `lv` if `lv` equals `rv` under the comparator, else a conflict if both
differ from `bv`, else `lv` if only `lv` differs from `bv`, else `rv`. -/
theorem processColumn_three_way (cmp : Comparator)
    (merged leftSch rightSch baseSch : Schema) (i : Nat)
    (hi : i < merged.GetNonPKCols.Size) (left right base : Tuple) :
    (newValueMerger cmp merged leftSch rightSch baseSch).processColumn i left right
        (some base) =
      .ok (columnDecision cmp (columnType merged i)
        (sideValue (newValueMerger cmp merged leftSch rightSch baseSch).leftMapping i left)
        (sideValue (newValueMerger cmp merged leftSch rightSch baseSch).rightMapping i right)
        (sideValue (newValueMerger cmp merged leftSch rightSch baseSch).baseMapping i base)) :=
  processColumn_newValueMerger cmp merged leftSch rightSch baseSch i hi left right base

/-- Witness of C1 on the scenario schema: ours changed `v` from 10 to 11 and
theirs left it, so column 0 merges to 11 without a conflict. -/
theorem processColumn_three_way_witness :
    0 < scenarioSchema.GetNonPKCols.Size ∧
    (newValueMerger bytesComparator scenarioSchema scenarioSchema scenarioSchema
        scenarioSchema).processColumn 0 [some [11]] [some [10]] (some [some [10]]) =
      .ok (some [11], false) :=
  ⟨by decide,
   (processColumn_three_way bytesComparator scenarioSchema scenarioSchema scenarioSchema
      scenarioSchema 0 (by decide) [some [11]] [some [10]] [some [10]]).trans rfl⟩

/-- C4: with the base row present and exactly one of the left and right rows
absent, `tryMerge` returns a conflict and no merged tuple. -/
theorem tryMerge_delete_modify (m : valueMerger) (left right : Option Tuple) (base : Tuple)
    (h : (left = none ∧ right ≠ none) ∨ (left ≠ none ∧ right = none)) :
    m.tryMerge left right (some base) = .ok (none, true) := by
  rcases h with ⟨h1, h2⟩ | ⟨h1, h2⟩
  · cases right with
    | none => exact absurd rfl h2
    | some r => subst h1; rfl
  · cases left with
    | none => exact absurd rfl h1
    | some l => subst h2; rfl

/-- Witness of C4, scenario S3: base `(1,10)`, ours deleted the row, theirs
changed it to `(1,11)`. -/
theorem tryMerge_delete_modify_witness :
    (newValueMerger bytesComparator scenarioSchema scenarioSchema scenarioSchema
        scenarioSchema).tryMerge none (some [some [11]]) (some [some [10]]) =
      .ok (none, true) :=
  tryMerge_delete_modify _ none (some [some [11]]) [some [10]]
    (Or.inl ⟨rfl, by simp⟩)

/-- C5, as stated, fails: with the base row present and both rows absent
`tryMerge` does not return an absent row without conflict. -/
theorem tryMerge_both_deleted_not_absent :
    (newValueMerger bytesComparator scenarioSchema scenarioSchema scenarioSchema
        scenarioSchema).tryMerge none none (some [some [10]]) ≠ .ok (none, false) := by
  intro h
  cases h

/-- C5, amended: with the base row present and both the left and the right row
absent, `tryMerge` does not return; it panics with "found nil left / right
which should never occur". -/
theorem tryMerge_both_deleted_panics (m : valueMerger) (base : Tuple) :
    m.tryMerge none none (some base) =
      .error "found nil left / right which should never occur" :=
  rfl


/-- What `processColumn` returns when the base row is absent. -/
theorem processColumn_no_base (cmp : Comparator) (merged leftSch rightSch baseSch : Schema)
    (i : Nat) (hi : i < merged.GetNonPKCols.Size) (left right : Tuple) :
    (newValueMerger cmp merged leftSch rightSch baseSch).processColumn i left right none =
      .ok (if cmp
              (sideValue (newValueMerger cmp merged leftSch rightSch baseSch).leftMapping i left)
              (sideValue (newValueMerger cmp merged leftSch rightSch baseSch).rightMapping i right)
              (columnType merged i) = 0
           then
             (sideValue (newValueMerger cmp merged leftSch rightSch baseSch).leftMapping i left,
              false)
           else (none, true)) := by
  obtain ⟨l, r, b, hl, hr, _, hty⟩ :=
    newValueMerger_entries cmp merged leftSch rightSch baseSch i hi
  rw [processColumn_eq _ i left right none l r _ hl hr hty (fun h => by cases h)]
  rfl

/-- C6: with the base row absent and both rows present, `tryMerge` of a
constructed merger returns, and it reports a conflict if and only if some
column of the merged schema has left and right values that are unequal under
the comparator; when no column differs the result is, without conflict, the
tuple of the left values. -/
theorem tryMerge_insert_insert (cmp : Comparator) (merged leftSch rightSch baseSch : Schema)
    (left right : Tuple) :
    ∃ res, (newValueMerger cmp merged leftSch rightSch baseSch).tryMerge
        (some left) (some right) none = .ok res ∧
      (res.2 = true ↔ ∃ i, i < merged.GetNonPKCols.Size ∧
        cmp (sideValue (newValueMerger cmp merged leftSch rightSch baseSch).leftMapping i left)
          (sideValue (newValueMerger cmp merged leftSch rightSch baseSch).rightMapping i right)
          (columnType merged i) ≠ 0) ∧
      (res.2 = false → res.1 = some ((List.range merged.GetNonPKCols.Size).map (fun i =>
        sideValue (newValueMerger cmp merged leftSch rightSch baseSch).leftMapping i left))) := by
  have hcols := mergeColumns_eq (newValueMerger cmp merged leftSch rightSch baseSch) left right
    none _ (List.range merged.GetNonPKCols.Size)
    (fun i hi => processColumn_no_base cmp merged leftSch rightSch baseSch i
      (List.mem_range.mp hi) left right)
  have htry : (newValueMerger cmp merged leftSch rightSch baseSch).tryMerge
      (some left) (some right) none =
      (newValueMerger cmp merged leftSch rightSch baseSch).mergeColumns left right none
        (List.range merged.GetNonPKCols.Size) := rfl
  refine ⟨_, htry.trans hcols, ?_, ?_⟩
  · constructor
    · intro h
      split at h
      · rename_i hex
        obtain ⟨i, hi, hc⟩ := hex
        refine ⟨i, List.mem_range.mp hi, ?_⟩
        intro h0
        simp [h0] at hc
      · simp at h
    · rintro ⟨i, hi, hne⟩
      rw [if_pos]
      exact ⟨i, List.mem_range.mpr hi, by simp [hne]⟩
  · intro h
    split at h
    · simp at h
    · rename_i hex
      rw [if_neg hex]
      simp only [Option.some.injEq]
      apply List.map_congr_left
      intro i hi
      by_cases h0 : cmp
          (sideValue (newValueMerger cmp merged leftSch rightSch baseSch).leftMapping i left)
          (sideValue (newValueMerger cmp merged leftSch rightSch baseSch).rightMapping i right)
          (columnType merged i) = 0
      · simp [h0]
      · exact absurd ⟨i, hi, by simp [h0]⟩ hex


/-- The byte comparator returns `0` exactly on identical fields. -/
theorem bytesComparator_eq_zero_iff (a b : Field) (ty : ValType) :
    bytesComparator a b ty = 0 ↔ a = b := by
  unfold bytesComparator
  by_cases h : a = b
  · simp [h]
  · simp only [h, if_false, iff_false]
    cases a <;> cases b <;> simp
    split <;> simp

/-- Under a comparator whose equality is an equivalence, the three-way decision
on a column with the two sides exchanged reports a conflict in the same cases,
and without conflict the two values are equal under the comparator; they are
identical when the comparator equates identical fields only. -/
theorem columnDecision_swap (cmp : Comparator)
    (hrefl : ∀ a ty, cmp a a ty = 0)
    (hsymm : ∀ a b ty, cmp a b ty = 0 → cmp b a ty = 0)
    (htrans : ∀ a b c ty, cmp a b ty = 0 → cmp b c ty = 0 → cmp a c ty = 0)
    (ty : ValType) (lv rv bv : Field) :
    (columnDecision cmp ty lv rv bv).2 = (columnDecision cmp ty rv lv bv).2 ∧
    ((columnDecision cmp ty lv rv bv).2 = false →
      cmp (columnDecision cmp ty lv rv bv).1 (columnDecision cmp ty rv lv bv).1 ty = 0 ∧
      ((∀ a b t, cmp a b t = 0 → a = b) →
        (columnDecision cmp ty lv rv bv).1 = (columnDecision cmp ty rv lv bv).1)) := by
  unfold columnDecision
  by_cases c1 : cmp lv rv ty = 0
  · have c2 := hsymm _ _ _ c1
    rw [if_pos c1, if_pos c2]
    exact ⟨rfl, fun _ => ⟨c1, fun hid => hid _ _ _ c1⟩⟩
  · have c2 : cmp rv lv ty ≠ 0 := fun h => c1 (hsymm _ _ _ h)
    by_cases c3 : cmp lv bv ty = 0
    · by_cases c4 : cmp rv bv ty = 0
      · exact absurd (htrans _ _ _ _ c3 (hsymm _ _ _ c4)) c1
      · simp [c1, c2, c3, c4, hrefl]
    · by_cases c4 : cmp rv bv ty = 0
      · simp [c1, c2, c3, c4, hrefl]
      · simp [c1, c2, c3, c4]

theorem getD_map_range (g : Nat → Field) (n i : Nat) (hi : i < n) :
    ((List.range n).map g).getD i none = g i := by
  simp [List.getD_eq_getElem?_getD, List.getElem?_map, List.getElem?_range hi]

/-- C3: the cell-wise merge is commutative. For a comparator whose equality is
an equivalence, all four schemas and all present rows, the merger built with
ours and theirs exchanged and applied to `(right, left, base)` returns, as does
the original merger on `(left, right, base)`; the two report a conflict in the
same cases, and without conflict the two merged tuples are equal under the
merged schema's comparator, and identical when the comparator equates identical
fields only. -/
theorem tryMerge_comm (cmp : Comparator)
    (hrefl : ∀ a ty, cmp a a ty = 0)
    (hsymm : ∀ a b ty, cmp a b ty = 0 → cmp b a ty = 0)
    (htrans : ∀ a b c ty, cmp a b ty = 0 → cmp b c ty = 0 → cmp a c ty = 0)
    (merged ours theirs baseSch : Schema) (left right base : Tuple) :
    ∃ res res1,
      (newValueMerger cmp merged ours theirs baseSch).tryMerge
          (some left) (some right) (some base) = .ok res ∧
      (newValueMerger cmp merged theirs ours baseSch).tryMerge
          (some right) (some left) (some base) = .ok res1 ∧
      (res.2 = true ↔ res1.2 = true) ∧
      (res.2 = false → ∃ t t1, res.1 = some t ∧ res1.1 = some t1 ∧
        (ValueDescriptorFromSchema cmp merged).tuplesEqual t t1 ∧
        ((∀ a b ty, cmp a b ty = 0 → a = b) → t = t1)) := by
  have h1 := mergeColumns_eq (newValueMerger cmp merged ours theirs baseSch) left right
    (some base) _ (List.range merged.GetNonPKCols.Size)
    (fun i hi => processColumn_newValueMerger cmp merged ours theirs baseSch i
      (List.mem_range.mp hi) left right base)
  have h2 := mergeColumns_eq (newValueMerger cmp merged theirs ours baseSch) right left
    (some base) _ (List.range merged.GetNonPKCols.Size)
    (fun i hi => processColumn_newValueMerger cmp merged theirs ours baseSch i
      (List.mem_range.mp hi) right left base)
  have hsw := fun i => columnDecision_swap cmp hrefl hsymm htrans (columnType merged i)
    (sideValue (newValueMerger cmp merged ours theirs baseSch).leftMapping i left)
    (sideValue (newValueMerger cmp merged ours theirs baseSch).rightMapping i right)
    (sideValue (newValueMerger cmp merged ours theirs baseSch).baseMapping i base)
  have hex : (∃ i ∈ List.range merged.GetNonPKCols.Size,
        (columnDecision cmp (columnType merged i)
          (sideValue (newValueMerger cmp merged ours theirs baseSch).leftMapping i left)
          (sideValue (newValueMerger cmp merged ours theirs baseSch).rightMapping i right)
          (sideValue (newValueMerger cmp merged ours theirs baseSch).baseMapping i base)).2
          = true) ↔
      (∃ i ∈ List.range merged.GetNonPKCols.Size,
        (columnDecision cmp (columnType merged i)
          (sideValue (newValueMerger cmp merged theirs ours baseSch).leftMapping i right)
          (sideValue (newValueMerger cmp merged theirs ours baseSch).rightMapping i left)
          (sideValue (newValueMerger cmp merged theirs ours baseSch).baseMapping i base)).2
          = true) := by
    constructor
    · rintro ⟨i, hi, hc⟩
      exact ⟨i, hi, (hsw i).1 ▸ hc⟩
    · rintro ⟨i, hi, hc⟩
      exact ⟨i, hi, (hsw i).1.symm ▸ hc⟩
  refine ⟨_, _, h1, h2, ?_, ?_⟩
  · by_cases hc : ∃ i ∈ List.range merged.GetNonPKCols.Size,
        (columnDecision cmp (columnType merged i)
          (sideValue (newValueMerger cmp merged ours theirs baseSch).leftMapping i left)
          (sideValue (newValueMerger cmp merged ours theirs baseSch).rightMapping i right)
          (sideValue (newValueMerger cmp merged ours theirs baseSch).baseMapping i base)).2
          = true
    · rw [if_pos hc, if_pos (hex.mp hc)]
    · rw [if_neg hc, if_neg (fun h => hc (hex.mpr h))]
  · intro hno
    by_cases hc : ∃ i ∈ List.range merged.GetNonPKCols.Size,
        (columnDecision cmp (columnType merged i)
          (sideValue (newValueMerger cmp merged ours theirs baseSch).leftMapping i left)
          (sideValue (newValueMerger cmp merged ours theirs baseSch).rightMapping i right)
          (sideValue (newValueMerger cmp merged ours theirs baseSch).baseMapping i base)).2
          = true
    · rw [if_pos hc] at hno
      cases hno
    · rw [if_neg hc, if_neg (fun h => hc (hex.mpr h))]
      have hnc : ∀ i, i < merged.GetNonPKCols.Size →
          (columnDecision cmp (columnType merged i)
            (sideValue (newValueMerger cmp merged ours theirs baseSch).leftMapping i left)
            (sideValue (newValueMerger cmp merged ours theirs baseSch).rightMapping i right)
            (sideValue (newValueMerger cmp merged ours theirs baseSch).baseMapping i base)).2
            = false := by
        intro i hi
        cases hv : (columnDecision cmp (columnType merged i)
            (sideValue (newValueMerger cmp merged ours theirs baseSch).leftMapping i left)
            (sideValue (newValueMerger cmp merged ours theirs baseSch).rightMapping i right)
            (sideValue (newValueMerger cmp merged ours theirs baseSch).baseMapping i base)).2
        · rfl
        · exact absurd ⟨i, List.mem_range.mpr hi, hv⟩ hc
      refine ⟨_, _, rfl, rfl, ⟨by simp, ?_⟩, ?_⟩
      · intro i hi
        have hi2 : i < merged.GetNonPKCols.Size := by simpa using hi
        rw [getD_map_range _ _ _ hi2, getD_map_range _ _ _ hi2]
        have hty : (ValueDescriptorFromSchema cmp merged).Types.getD i 0
            = columnType merged i := by
          simp [ValueDescriptorFromSchema, columnType, List.getD_eq_getElem?_getD]
        rw [hty]
        exact ((hsw i).2 (hnc i hi2)).1
      · intro hid
        apply List.map_congr_left
        intro i hi
        exact ((hsw i).2 (hnc i (List.mem_range.mp hi))).2 hid

/-- Witness of C3 with the byte comparator: ours changed `v` to 11 and theirs
left it; in either order the merge returns without conflict. -/
theorem tryMerge_comm_witness :
    ∃ res res1,
      (newValueMerger bytesComparator scenarioSchema scenarioSchema scenarioSchema
          scenarioSchema).tryMerge (some [some [11]]) (some [some [10]]) (some [some [10]])
        = .ok res ∧
      (newValueMerger bytesComparator scenarioSchema scenarioSchema scenarioSchema
          scenarioSchema).tryMerge (some [some [10]]) (some [some [11]]) (some [some [10]])
        = .ok res1 ∧
      (res.2 = true ↔ res1.2 = true) ∧
      (res.2 = false → ∃ t t1, res.1 = some t ∧ res1.1 = some t1 ∧
        (ValueDescriptorFromSchema bytesComparator scenarioSchema).tuplesEqual t t1 ∧
        ((∀ a b ty, bytesComparator a b ty = 0 → a = b) → t = t1)) :=
  tryMerge_comm bytesComparator
    (fun a ty => (bytesComparator_eq_zero_iff a a ty).mpr rfl)
    (fun a b ty h => (bytesComparator_eq_zero_iff b a ty).mpr
      ((bytesComparator_eq_zero_iff a b ty).mp h).symm)
    (fun a b c ty h1 h2 => (bytesComparator_eq_zero_iff a c ty).mpr
      (((bytesComparator_eq_zero_iff a b ty).mp h1).trans
        ((bytesComparator_eq_zero_iff b c ty).mp h2)))
    scenarioSchema scenarioSchema scenarioSchema scenarioSchema
    [some [11]] [some [10]] [some [10]]

/-! ### The short-circuit block of `MergeTable` -/

/-- The variables of `MergeTable` when all three roots have the table. -/
theorem initialVars_all_present (st : Store) (merger : Merger) (tblName : String)
    (tbl mergeTbl ancTbl : Table)
    (hr : merger.root.GetTable tblName = some tbl)
    (hm : merger.mergeRoot.GetTable tblName = some mergeTbl)
    (ha : merger.ancRoot.GetTable tblName = some ancTbl) :
    initialVars st merger tblName =
      { rootHasTable := true, mergeHasTable := true, ancHasTable := true
        tbl := some tbl, mergeTbl := some mergeTbl, ancTbl := some ancTbl
        rootSchema := some tbl.sch, mergeSchema := some mergeTbl.sch
        ancSchema := some ancTbl.sch
        rootHash := st.HashOf tbl, mergeHash := st.HashOf mergeTbl
        ancHash := st.HashOf ancTbl
        ancRows := some ancTbl.rowData } := by
  simp [initialVars, getTableInfoFromRoot, hr, hm, ha]

/-- C7: identity. When ours, theirs and the ancestor all have the table and
the three table hashes are equal, `MergeTable` returns ours' table, statistics
with operation `TableUnmodified` and all counters zero, and no error, for
either value of the cherry-pick flag. -/
theorem MergeTable_identity (st : Store) (merger : Merger) (tblName : String)
    (isCherryPick : Bool) (tbl mergeTbl ancTbl : Table)
    (hr : merger.root.GetTable tblName = some tbl)
    (hm : merger.mergeRoot.GetTable tblName = some mergeTbl)
    (ha : merger.ancRoot.GetTable tblName = some ancTbl)
    (h1 : st.HashOf tbl = st.HashOf mergeTbl) (h2 : st.HashOf tbl = st.HashOf ancTbl) :
    MergeTable st merger tblName isCherryPick =
      { table := some tbl
        stats := some { Operation := TableMergeOp.TableUnmodified, Adds := 0, Deletes := 0,
                        Modifications := 0, Conflicts := 0, ConstraintViolations := 0 }
        err := none } := by
  simp [MergeTable, initialVars_all_present st merger tblName tbl mergeTbl ancTbl hr hm ha,
    shortCircuit, ← h1, ← h2]

/-- C9: fast-forward right. When all three roots have the table and theirs'
hash equals the ancestor's hash, `MergeTable` returns ours' table with
`TableUnmodified` statistics and no error, whatever ours' hash and the
cherry-pick flag are. -/
theorem MergeTable_fast_forward_right (st : Store) (merger : Merger) (tblName : String)
    (isCherryPick : Bool) (tbl mergeTbl ancTbl : Table)
    (hr : merger.root.GetTable tblName = some tbl)
    (hm : merger.mergeRoot.GetTable tblName = some mergeTbl)
    (ha : merger.ancRoot.GetTable tblName = some ancTbl)
    (h : st.HashOf mergeTbl = st.HashOf ancTbl) :
    MergeTable st merger tblName isCherryPick =
      { table := some tbl
        stats := some { Operation := TableMergeOp.TableUnmodified }
        err := none } := by
  simp only [MergeTable,
    initialVars_all_present st merger tblName tbl mergeTbl ancTbl hr hm ha, shortCircuit]
  by_cases h1 : st.HashOf tbl = st.HashOf mergeTbl
  · simp [h1, h]
  · simp [h1, h, addedTable, deletedOrFastForward]


/-- Witness of C7: ours, theirs and the ancestor hold the same row `(1,10)`. -/
theorem MergeTable_identity_witness :
    MergeTable scenarioStore
        (scenarioMerger scenarioSchema [(1, [(1, 10)])] [(1, [(1, 10)])] [(1, [(1, 10)])])
        "t" true =
      { table := some { sch := scenarioSchema, rowData := [(1, [(1, 10)])] }
        stats := some { Operation := TableMergeOp.TableUnmodified, Adds := 0, Deletes := 0,
                        Modifications := 0, Conflicts := 0, ConstraintViolations := 0 }
        err := none } :=
  MergeTable_identity scenarioStore _ "t" true _ _ _ rfl rfl rfl rfl rfl

/-- Witness of C9: ours changed the row to `(1,11)`, theirs is the ancestor. -/
theorem MergeTable_fast_forward_right_witness :
    MergeTable scenarioStore
        (scenarioMerger scenarioSchema [(1, [(1, 11)])] [(1, [(1, 10)])] [(1, [(1, 10)])])
        "t" false =
      { table := some { sch := scenarioSchema, rowData := [(1, [(1, 11)])] }
        stats := some { Operation := TableMergeOp.TableUnmodified }
        err := none } :=
  MergeTable_fast_forward_right scenarioStore _ "t" false _ _ _ rfl rfl rfl rfl

/-- The totals that the loop of `calcTableMergeStats` accumulates. -/
theorem foldl_stats_totals (l : List DiffSummaryProgress) (ms : MergeStats) :
    (l.foldl (fun ms p =>
        { ms with Adds := ms.Adds + p.Adds, Deletes := ms.Deletes + p.Removes,
                  Modifications := ms.Modifications + p.Changes }) ms) =
      { ms with Adds := ms.Adds + (l.map (fun p => p.Adds)).sum
                Deletes := ms.Deletes + (l.map (fun p => p.Removes)).sum
                Modifications := ms.Modifications + (l.map (fun p => p.Changes)).sum } := by
  induction l generalizing ms with
  | nil => simp
  | cons p rest ih =>
    rw [List.foldl_cons, ih]
    simp [Nat.add_assoc]

/-- C8: fast-forward left. When the merge is not a cherry-pick, all three roots
have the table, ours' hash equals the ancestor's hash and theirs' hash differs
from it, `MergeTable` returns theirs' table, without error, with statistics
whose operation is `TableModified` and whose adds, deletes and modifications
are the totals of the diff summary from ours' rows to theirs' rows. -/
theorem MergeTable_fast_forward_left (st : Store) (merger : Merger) (tblName : String)
    (tbl mergeTbl ancTbl : Table)
    (hr : merger.root.GetTable tblName = some tbl)
    (hm : merger.mergeRoot.GetTable tblName = some mergeTbl)
    (ha : merger.ancRoot.GetTable tblName = some ancTbl)
    (h1 : st.HashOf tbl = st.HashOf ancTbl) (h2 : st.HashOf mergeTbl ≠ st.HashOf ancTbl) :
    ∃ stats, MergeTable st merger tblName false =
        { table := some mergeTbl, stats := some stats, err := none } ∧
      stats.Operation = TableMergeOp.TableModified ∧
      stats.Adds = ((st.Summary tbl.rowData mergeTbl.rowData tbl.sch mergeTbl.sch).map
        (fun p => p.Adds)).sum ∧
      stats.Deletes = ((st.Summary tbl.rowData mergeTbl.rowData tbl.sch mergeTbl.sch).map
        (fun p => p.Removes)).sum ∧
      stats.Modifications = ((st.Summary tbl.rowData mergeTbl.rowData tbl.sch mergeTbl.sch).map
        (fun p => p.Changes)).sum := by
  have h3 : ¬ st.HashOf ancTbl = st.HashOf mergeTbl := fun h => h2 h.symm
  refine ⟨calcTableMergeStats st tbl mergeTbl, ?_, ?_⟩
  · simp [MergeTable, initialVars_all_present st merger tblName tbl mergeTbl ancTbl hr hm ha,
      shortCircuit, addedTable, deletedOrFastForward, h1, h2, h3]
  · simp [calcTableMergeStats, foldl_stats_totals]

/-- Witness of C8: ours is the ancestor `(1,10),(2,20)`; theirs changed row 1,
removed row 2 and added row 3. -/
theorem MergeTable_fast_forward_left_witness :
    ∃ stats, MergeTable scenarioStore
        (scenarioMerger scenarioSchema [(1, [(1, 10)]), (2, [(1, 20)])]
          [(1, [(1, 11)]), (3, [(1, 30)])] [(1, [(1, 10)]), (2, [(1, 20)])]) "t" false =
        { table := some { sch := scenarioSchema, rowData := [(1, [(1, 11)]), (3, [(1, 30)])] }
          stats := some stats, err := none } ∧
      stats.Operation = TableMergeOp.TableModified ∧
      stats.Adds = 1 ∧ stats.Deletes = 1 ∧ stats.Modifications = 1 := by
  obtain ⟨stats, h, hop, hadd, hdel, hmod⟩ :=
    MergeTable_fast_forward_left scenarioStore
      (scenarioMerger scenarioSchema [(1, [(1, 10)]), (2, [(1, 20)])]
        [(1, [(1, 11)]), (3, [(1, 30)])] [(1, [(1, 10)]), (2, [(1, 20)])]) "t"
      { sch := scenarioSchema, rowData := [(1, [(1, 10)]), (2, [(1, 20)])] }
      { sch := scenarioSchema, rowData := [(1, [(1, 11)]), (3, [(1, 30)])] }
      { sch := scenarioSchema, rowData := [(1, [(1, 10)]), (2, [(1, 20)])] }
      rfl rfl rfl rfl (by decide)
  refine ⟨stats, h, hop, ?_, ?_, ?_⟩
  · rw [hadd]; simp [scenarioStore, Index.Diff]
  · rw [hdel]; simp [scenarioStore, Index.Diff]
  · rw [hmod]; simp [scenarioStore, Index.Diff]

/-- C10: when all three roots have the table and ours' hash equals theirs' hash
but differs from the ancestor's, the short-circuit block returns ours' table
with `TableUnmodified` statistics if and only if ours' schema is not keyless;
for a keyless schema the block falls through with the variables unchanged and
`MergeTable` is the three-way merge body. -/
theorem MergeTable_identical_changes (st : Store) (merger : Merger) (tblName : String)
    (isCherryPick : Bool) (tbl mergeTbl ancTbl : Table)
    (hr : merger.root.GetTable tblName = some tbl)
    (hm : merger.mergeRoot.GetTable tblName = some mergeTbl)
    (ha : merger.ancRoot.GetTable tblName = some ancTbl)
    (h1 : st.HashOf tbl = st.HashOf mergeTbl) (h2 : st.HashOf tbl ≠ st.HashOf ancTbl) :
    (shortCircuit st tblName isCherryPick (initialVars st merger tblName) =
        .returned { table := some tbl
                    stats := some { Operation := TableMergeOp.TableUnmodified }
                    err := none } ↔ IsKeyless tbl.sch = false) ∧
    (IsKeyless tbl.sch = false →
      MergeTable st merger tblName isCherryPick =
        { table := some tbl, stats := some { Operation := TableMergeOp.TableUnmodified }
          err := none }) ∧
    (IsKeyless tbl.sch = true →
      shortCircuit st tblName isCherryPick (initialVars st merger tblName) =
        .fallThrough (initialVars st merger tblName) ∧
      MergeTable st merger tblName isCherryPick =
        threeWayMerge st tblName isCherryPick (initialVars st merger tblName)) := by
  have h3 : ¬ st.HashOf mergeTbl = st.HashOf ancTbl := fun h => h2 (h1.trans h)
  have hv := initialVars_all_present st merger tblName tbl mergeTbl ancTbl hr hm ha
  cases hk : IsKeyless tbl.sch with
  | false =>
    simp [MergeTable, hv, shortCircuit, schemaIsKeyless, hk, h1, h3]
  | true =>
    simp [MergeTable, hv, shortCircuit, schemaIsKeyless, hk, h1, h3, addedTable,
      deletedOrFastForward]


/-- Witness of C10, scenario S6: a keyless table to which ours and theirs both
added the same row; the short-circuit block falls through to the merge body. -/
theorem MergeTable_identical_changes_witness :
    shortCircuit scenarioStore "t" false
        (initialVars scenarioStore
          (scenarioMerger keylessSchema
            [(1, [(0, 1), (1, 7)]), (2, [(0, 1), (1, 8)]), (3, [(0, 1), (1, 9)])]
            [(1, [(0, 1), (1, 7)]), (2, [(0, 1), (1, 8)]), (3, [(0, 1), (1, 9)])]
            [(1, [(0, 1), (1, 7)]), (2, [(0, 1), (1, 8)])]) "t") =
      .fallThrough
        (initialVars scenarioStore
          (scenarioMerger keylessSchema
            [(1, [(0, 1), (1, 7)]), (2, [(0, 1), (1, 8)]), (3, [(0, 1), (1, 9)])]
            [(1, [(0, 1), (1, 7)]), (2, [(0, 1), (1, 8)]), (3, [(0, 1), (1, 9)])]
            [(1, [(0, 1), (1, 7)]), (2, [(0, 1), (1, 8)])]) "t") ∧
    MergeTable scenarioStore
        (scenarioMerger keylessSchema
          [(1, [(0, 1), (1, 7)]), (2, [(0, 1), (1, 8)]), (3, [(0, 1), (1, 9)])]
          [(1, [(0, 1), (1, 7)]), (2, [(0, 1), (1, 8)]), (3, [(0, 1), (1, 9)])]
          [(1, [(0, 1), (1, 7)]), (2, [(0, 1), (1, 8)])]) "t" false =
      threeWayMerge scenarioStore "t" false
        (initialVars scenarioStore
          (scenarioMerger keylessSchema
            [(1, [(0, 1), (1, 7)]), (2, [(0, 1), (1, 8)]), (3, [(0, 1), (1, 9)])]
            [(1, [(0, 1), (1, 7)]), (2, [(0, 1), (1, 8)]), (3, [(0, 1), (1, 9)])]
            [(1, [(0, 1), (1, 7)]), (2, [(0, 1), (1, 8)])]) "t") :=
  (MergeTable_identical_changes scenarioStore
    (scenarioMerger keylessSchema
      [(1, [(0, 1), (1, 7)]), (2, [(0, 1), (1, 8)]), (3, [(0, 1), (1, 9)])]
      [(1, [(0, 1), (1, 7)]), (2, [(0, 1), (1, 8)]), (3, [(0, 1), (1, 9)])]
      [(1, [(0, 1), (1, 7)]), (2, [(0, 1), (1, 8)])]) "t" false
    { sch := keylessSchema
      rowData := [(1, [(0, 1), (1, 7)]), (2, [(0, 1), (1, 8)]), (3, [(0, 1), (1, 9)])] }
    { sch := keylessSchema
      rowData := [(1, [(0, 1), (1, 7)]), (2, [(0, 1), (1, 8)]), (3, [(0, 1), (1, 9)])] }
    { sch := keylessSchema, rowData := [(1, [(0, 1), (1, 7)]), (2, [(0, 1), (1, 8)])] }
    rfl rfl rfl rfl (by decide)).2.2 rfl


/-! ### Ordered indexes -/

theorem MaybeGet_nil (k : Key) : Index.MaybeGet [] k = none := rfl

theorem MaybeGet_cons (k1 : Key) (v : NomsRow) (m : Index) (k : Key) :
    Index.MaybeGet ((k1, v) :: m) k = if k1 = k then some v else Index.MaybeGet m k := by
  by_cases h : k1 = k <;> simp [Index.MaybeGet, List.find?_cons, h]

theorem MaybeGet_eq_none (m : Index) (k : Key) (h : ∀ e ∈ m, e.1 ≠ k) :
    Index.MaybeGet m k = none := by
  simp only [Index.MaybeGet, Option.map_eq_none', List.find?_eq_none]
  intro e he
  simpa using h e he

theorem MaybeGet_append (m1 m2 : Index) (k : Key) :
    Index.MaybeGet (m1 ++ m2) k = (Index.MaybeGet m1 k).or (Index.MaybeGet m2 k) := by
  simp only [Index.MaybeGet, List.find?_append]
  cases List.find? (fun e : Key × NomsRow => e.1 == k) m1 <;> simp

theorem MaybeGet_filter (f : Key → Bool) (m : Index) (k : Key) :
    Index.MaybeGet (m.filter (fun e => f e.1)) k = if f k then Index.MaybeGet m k else none := by
  induction m with
  | nil => simp [Index.MaybeGet]
  | cons e rest ih =>
    obtain ⟨k0, v0⟩ := e
    by_cases hf : f k0 = true
    · rw [List.filter_cons_of_pos (by simpa using hf), MaybeGet_cons, MaybeGet_cons, ih]
      by_cases h : k0 = k
      · subst h; simp [hf]
      · simp [h]
    · rw [List.filter_cons_of_neg (by simpa using hf), MaybeGet_cons, ih]
      by_cases h : k0 = k
      · subst h; simp [hf]
      · simp [h]

/-- Reading an index after `put`. -/
theorem MaybeGet_put (m : Index) (k : Key) (v : NomsRow) (k1 : Key) :
    Index.MaybeGet (m.put k v) k1 = if k1 = k then some v else Index.MaybeGet m k1 := by
  have h1 := MaybeGet_filter (fun x => decide (x < k)) m k1
  have h2 := MaybeGet_filter (fun x => decide (k < x)) m k1
  simp only [Index.put, MaybeGet_append, MaybeGet_cons, h1, h2]
  rcases Nat.lt_trichotomy k1 k with hlt | heq | hgt
  · have hne : ¬ k1 = k := Nat.ne_of_lt hlt
    have hne2 : ¬ k = k1 := Nat.ne_of_gt hlt
    have hnl : ¬ k < k1 := Nat.lt_asymm hlt
    simp only [hlt, hne, hne2, hnl, decide_True, decide_False, if_true, if_false]
    cases Index.MaybeGet m k1 <;> simp
  · subst heq
    simp
  · have hne : ¬ k1 = k := Nat.ne_of_gt hgt
    have hne2 : ¬ k = k1 := Nat.ne_of_lt hgt
    have hnl : ¬ k1 < k := Nat.lt_asymm hgt
    simp [hgt, hne, hne2, hnl]

/-- Reading an index after `del`. -/
theorem MaybeGet_del (m : Index) (k : Key) (k1 : Key) :
    Index.MaybeGet (m.del k) k1 = if k1 = k then none else Index.MaybeGet m k1 := by
  have h1 := MaybeGet_filter (fun x => x != k) m k1
  simp only [Index.del, h1]
  by_cases h : k1 = k <;> simp [h]


/-! ### The applicators change the editor only at the key of the change -/

theorem InsertRow_frame (ed ed1 : Index) (k : Key) (v : NomsRow) (k1 : Key)
    (h : InsertRow ed k v = .ok ed1) (hk : k1 ≠ k) :
    ed1.MaybeGet k1 = ed.MaybeGet k1 := by
  unfold InsertRow at h
  split at h
  · cases h
  · cases h
    simp [MaybeGet_put, hk]

theorem UpdateRow_frame (ed ed1 : Index) (k : Key) (v : NomsRow) (k1 : Key)
    (h : UpdateRow ed k v = .ok ed1) (hk : k1 ≠ k) :
    ed1.MaybeGet k1 = ed.MaybeGet k1 := by
  cases h
  simp [MaybeGet_put, hk]

theorem DeleteByKey_frame (ed ed1 : Index) (k : Key) (k1 : Key)
    (h : DeleteByKey ed k = .ok ed1) (hk : k1 ≠ k) :
    ed1.MaybeGet k1 = ed.MaybeGet k1 := by
  cases h
  simp [MaybeGet_del, hk]

/-- The primary-key applicator leaves every key other than the change's key
as it is. -/
theorem applyNomsPkChange_frame (sch : Schema) (rows : Index) (st st1 : EditState)
    (ch : ValueChanged) (k1 : Key)
    (h : applyNomsPkChange sch rows st ch = .ok st1) (hk : k1 ≠ ch.Key) :
    st1.tblEdit.MaybeGet k1 = st.tblEdit.MaybeGet k1 := by
  unfold applyNomsPkChange at h
  cases hct : ch.ChangeType with
  | DiffChangeAdded =>
    simp only [hct, bind, Except.bind, pure, Except.pure] at h
    cases hnv : asTuple ch.NewValue with
    | error e => simp [hnv] at h
    | ok newRow =>
      simp only [hnv] at h
      cases hget : Index.MaybeGet rows ch.Key with
      | some old =>
        simp only [hget] at h
        cases hu : UpdateRow st.tblEdit ch.Key newRow with
        | error e => simp [hu] at h
        | ok ed =>
          simp only [hu, Except.ok.injEq] at h
          subst h
          exact UpdateRow_frame _ _ _ _ _ hu hk
      | none =>
        simp only [hget] at h
        cases hu : InsertRow st.tblEdit ch.Key newRow with
        | error e => simp [hu] at h
        | ok ed =>
          simp only [hu, Except.ok.injEq] at h
          subst h
          exact InsertRow_frame _ _ _ _ _ hu hk
  | DiffChangeModified =>
    simp only [hct, bind, Except.bind, pure, Except.pure] at h
    cases hov : asTuple ch.OldValue with
    | error e => simp [hov] at h
    | ok oldRow =>
      simp only [hov] at h
      cases hnv : asTuple ch.NewValue with
      | error e => simp [hnv] at h
      | ok newRow =>
        simp only [hnv] at h
        cases hu : UpdateRow st.tblEdit ch.Key newRow with
        | error e => simp [hu] at h
        | ok ed =>
          simp only [hu, Except.ok.injEq] at h
          subst h
          exact UpdateRow_frame _ _ _ _ _ hu hk
  | DiffChangeRemoved =>
    simp only [hct, bind, Except.bind, pure, Except.pure] at h
    cases hov : asTuple ch.OldValue with
    | error e => simp [hov] at h
    | ok oldRow =>
      simp only [hov] at h
      cases hu : DeleteByKey st.tblEdit ch.Key with
      | error e => simp [hu] at h
      | ok ed =>
        simp only [hu, Except.ok.injEq] at h
        subst h
        exact DeleteByKey_frame _ _ _ _ hu hk


theorem KeylessInsertRow_frame (ed ed1 : Index) (k : Key) (v : NomsRow) (k1 : Key)
    (h : KeylessInsertRow ed k v = .ok ed1) (hk : k1 ≠ k) :
    ed1.MaybeGet k1 = ed.MaybeGet k1 := by
  unfold KeylessInsertRow at h
  split at h
  · rename_i old _
    cases hc : keylessCard old with
    | error e => simp [hc, bind, Except.bind] at h
    | ok c =>
      simp only [hc, bind, Except.bind, pure, Except.pure, Except.ok.injEq] at h
      subst h
      simp [MaybeGet_put, hk]
  · cases h
    simp [MaybeGet_put, hk]

theorem KeylessDeleteByKey_frame (ed ed1 : Index) (k : Key) (k1 : Key)
    (h : KeylessDeleteByKey ed k = .ok ed1) (hk : k1 ≠ k) :
    ed1.MaybeGet k1 = ed.MaybeGet k1 := by
  unfold KeylessDeleteByKey at h
  split at h
  · rename_i old _
    cases hc : keylessCard old with
    | error e => simp [hc, bind, Except.bind] at h
    | ok c =>
      simp only [hc, bind, Except.bind, pure, Except.pure] at h
      split at h
      · simp only [Except.ok.injEq] at h
        subst h
        simp [MaybeGet_del, hk]
      · simp only [Except.ok.injEq] at h
        subst h
        simp [MaybeGet_put, hk]
  · cases h
    rfl

theorem applyKeylessOnce_frame (st st1 : EditState) (ch : ValueChanged) (k1 : Key)
    (h : applyKeylessOnce st ch = .ok st1) (hk : k1 ≠ ch.Key) :
    st1.tblEdit.MaybeGet k1 = st.tblEdit.MaybeGet k1 := by
  unfold applyKeylessOnce at h
  cases hct : ch.ChangeType with
  | DiffChangeAdded =>
    simp only [hct, bind, Except.bind, pure, Except.pure] at h
    cases hnv : asTuple ch.NewValue with
    | error e => simp [hnv] at h
    | ok newRow =>
      simp only [hnv] at h
      cases hu : KeylessInsertRow st.tblEdit ch.Key newRow with
      | error e => simp [hu] at h
      | ok ed =>
        simp only [hu, Except.ok.injEq] at h
        subst h
        exact KeylessInsertRow_frame _ _ _ _ _ hu hk
  | DiffChangeModified =>
    simp only [hct, bind, Except.bind, pure, Except.pure] at h
    cases hov : asTuple ch.OldValue with
    | error e => simp [hov] at h
    | ok oldRow =>
      simp only [hov] at h
      cases hnv : asTuple ch.NewValue with
      | error e => simp [hnv] at h
      | ok newRow =>
        simp only [hnv] at h
        cases hu : UpdateRow st.tblEdit ch.Key newRow with
        | error e => simp [hu] at h
        | ok ed =>
          simp only [hu, Except.ok.injEq] at h
          subst h
          exact UpdateRow_frame _ _ _ _ _ hu hk
  | DiffChangeRemoved =>
    simp only [hct, bind, Except.bind, pure, Except.pure] at h
    cases hov : asTuple ch.OldValue with
    | error e => simp [hov] at h
    | ok oldRow =>
      simp only [hov] at h
      cases hu : KeylessDeleteByKey st.tblEdit ch.Key with
      | error e => simp [hu] at h
      | ok ed =>
        simp only [hu, Except.ok.injEq] at h
        subst h
        exact KeylessDeleteByKey_frame _ _ _ _ hu hk

theorem applyTimes_frame (ch : ValueChanged) (k1 : Key) (hk : k1 ≠ ch.Key) (card : Nat) :
    ∀ st st1 : EditState, applyTimes ch card st = .ok st1 →
      st1.tblEdit.MaybeGet k1 = st.tblEdit.MaybeGet k1 := by
  induction card with
  | zero =>
    intro st st1 h
    cases h
    rfl
  | succ n ih =>
    intro st st1 h
    rw [applyTimes] at h
    cases h1 : applyKeylessOnce st ch with
    | error e => simp [h1, bind, Except.bind] at h
    | ok st2 =>
      simp only [h1, bind, Except.bind] at h
      rw [ih st2 st1 h, applyKeylessOnce_frame st st2 ch k1 h1 hk]

/-- The change that `convertValueChanged` returns has the key of its input. -/
theorem convertValueChanged_key (vc vc1 : ValueChanged) (card : Nat)
    (h : convertValueChanged vc = .ok (vc1, card)) : vc1.Key = vc.Key := by
  unfold convertValueChanged at h
  simp only [bind, Except.bind, pure, Except.pure, throw, throwThe, MonadExceptOf.throw] at h
  repeat' split at h
  all_goals first
    | (cases h; done)
    | (cases h; rfl)

/-- The keyless applicator leaves every key other than the change's key as it
is. -/
theorem applyKeylessChange_frame (sch : Schema) (rows : Index) (st st1 : EditState)
    (ch : ValueChanged) (k1 : Key)
    (h : applyKeylessChange sch rows st ch = .ok st1) (hk : k1 ≠ ch.Key) :
    st1.tblEdit.MaybeGet k1 = st.tblEdit.MaybeGet k1 := by
  unfold applyKeylessChange at h
  cases hc : convertValueChanged ch with
  | error e => simp [hc, bind, Except.bind] at h
  | ok p =>
    obtain ⟨ch1, card⟩ := p
    simp only [hc, bind, Except.bind] at h
    have hkey := convertValueChanged_key ch ch1 card hc
    exact applyTimes_frame ch1 k1 (by rw [hkey]; exact hk) card st st1 h


/-! ### The diff of two ordered indexes -/

theorem MaybeGet_none_of_lt (m : Index) (k : Key) (h : ∀ x ∈ m.keys, k < x) :
    Index.MaybeGet m k = none := by
  apply MaybeGet_eq_none
  intro e he hek
  have := h e.1 (List.mem_map_of_mem _ he)
  rw [hek] at this
  exact Nat.lt_irrefl _ this

theorem Ordered_cons (k : Key) (v : NomsRow) (t : Index) :
    Index.Ordered ((k, v) :: t) ↔ (∀ x ∈ t.keys, k < x) ∧ Index.Ordered t := by
  simp [Index.Ordered, Index.keys, List.pairwise_cons]

/-- Every key of a diff is a key of one of the two indexes. -/
theorem Diff_key_mem (a b : Index) :
    ∀ c ∈ Index.Diff a b, c.Key ∈ a.keys ∨ c.Key ∈ b.keys := by
  induction a, b using Index.Diff.induct with
  | case1 => simp [Index.Diff]
  | case2 k v t ih =>
    intro c hc
    rw [Index.Diff] at hc
    rcases List.mem_cons.mp hc with h | h
    · subst h; simp [Index.keys]
    · rcases ih c h with h1 | h1
      · left; simp only [Index.keys, List.map_cons, List.mem_cons]; right; exact h1
      · right; exact h1
  | case3 k v f ih =>
    intro c hc
    rw [Index.Diff] at hc
    rcases List.mem_cons.mp hc with h | h
    · subst h; simp [Index.keys]
    · rcases ih c h with h1 | h1
      · left; exact h1
      · right; simp only [Index.keys, List.map_cons, List.mem_cons]; right; exact h1
  | case4 k1 v1 t k2 v2 f hlt ih =>
    intro c hc
    rw [Index.Diff, if_pos hlt] at hc
    rcases List.mem_cons.mp hc with h | h
    · subst h; simp [Index.keys]
    · rcases ih c h with h1 | h1
      · left; simp only [Index.keys, List.map_cons, List.mem_cons]; right; exact h1
      · right; exact h1
  | case5 k1 v1 t k2 v2 f hnlt hgt ih =>
    intro c hc
    rw [Index.Diff, if_neg hnlt, if_pos hgt] at hc
    rcases List.mem_cons.mp hc with h | h
    · subst h; simp [Index.keys]
    · rcases ih c h with h1 | h1
      · left; exact h1
      · right; simp only [Index.keys, List.map_cons, List.mem_cons]; right; exact h1
  | case6 k1 t k2 v2 f hnlt hngt ih =>
    intro c hc
    rw [Index.Diff, if_neg hnlt, if_neg hngt, if_pos rfl] at hc
    rcases ih c hc with h1 | h1
    · left; simp only [Index.keys, List.map_cons, List.mem_cons]; right; exact h1
    · right; simp only [Index.keys, List.map_cons, List.mem_cons]; right; exact h1
  | case7 k1 v1 t k2 v2 f hnlt hngt hne ih =>
    intro c hc
    rw [Index.Diff, if_neg hnlt, if_neg hngt, if_neg hne] at hc
    rcases List.mem_cons.mp hc with h | h
    · subst h; simp [Index.keys]
    · rcases ih c h with h1 | h1
      · left; simp only [Index.keys, List.map_cons, List.mem_cons]; right; exact h1
      · right; simp only [Index.keys, List.map_cons, List.mem_cons]; right; exact h1

/-- A key below all keys of both indexes is below every key of their diff. -/
theorem Diff_key_gt (a b : Index) (k : Key) (ha : ∀ x ∈ a.keys, k < x)
    (hb : ∀ x ∈ b.keys, k < x) : ∀ c ∈ Index.Diff a b, k < c.Key := by
  intro c hc
  rcases Diff_key_mem a b c hc with h | h
  · exact ha _ h
  · exact hb _ h


theorem keys_cons_gt (k : Key) (k2 : Key) (v2 : NomsRow) (f : Index) (hk : k < k2)
    (hf : ∀ x ∈ f.keys, k2 < x) : ∀ x ∈ Index.keys ((k2, v2) :: f), k < x := by
  intro x hx
  simp only [Index.keys, List.map_cons, List.mem_cons] at hx
  rcases hx with h | h
  · rw [h]; exact hk
  · exact Nat.lt_trans hk (hf x h)

/-- The diff of two ordered indexes is in strictly increasing key order. -/
theorem Diff_ordered (a b : Index) :
    Index.Ordered a → Index.Ordered b → changesOrdered (Index.Diff a b) := by
  induction a, b using Index.Diff.induct with
  | case1 => intro _ _; simp [Index.Diff, changesOrdered]
  | case2 k v t ih =>
    intro ha hb
    rw [Ordered_cons] at ha
    rw [Index.Diff]
    simp only [changesOrdered, List.map_cons, List.pairwise_cons, List.mem_map]
    refine ⟨?_, ih ha.2 hb⟩
    rintro x ⟨c, hc, rfl⟩
    exact Diff_key_gt t [] k ha.1 (by simp [Index.keys]) c hc
  | case3 k v f ih =>
    intro ha hb
    rw [Ordered_cons] at hb
    rw [Index.Diff]
    simp only [changesOrdered, List.map_cons, List.pairwise_cons, List.mem_map]
    refine ⟨?_, ih ha hb.2⟩
    rintro x ⟨c, hc, rfl⟩
    exact Diff_key_gt [] f k (by simp [Index.keys]) hb.1 c hc
  | case4 k1 v1 t k2 v2 f hlt ih =>
    intro ha hb
    have hb1 := hb
    rw [Ordered_cons] at ha hb1
    rw [Index.Diff, if_pos hlt]
    simp only [changesOrdered, List.map_cons, List.pairwise_cons, List.mem_map]
    refine ⟨?_, ih ha.2 hb⟩
    rintro x ⟨c, hc, rfl⟩
    exact Diff_key_gt t _ k1 ha.1 (keys_cons_gt k1 k2 v2 f hlt hb1.1) c hc
  | case5 k1 v1 t k2 v2 f hnlt hgt ih =>
    intro ha hb
    have ha1 := ha
    rw [Ordered_cons] at ha1 hb
    rw [Index.Diff, if_neg hnlt, if_pos hgt]
    simp only [changesOrdered, List.map_cons, List.pairwise_cons, List.mem_map]
    refine ⟨?_, ih ha hb.2⟩
    rintro x ⟨c, hc, rfl⟩
    exact Diff_key_gt _ f k2 (keys_cons_gt k2 k1 v1 t hgt ha1.1) hb.1 c hc
  | case6 k1 t k2 v2 f hnlt hngt ih =>
    intro ha hb
    rw [Ordered_cons] at ha hb
    rw [Index.Diff, if_neg hnlt, if_neg hngt, if_pos rfl]
    exact ih ha.2 hb.2
  | case7 k1 v1 t k2 v2 f hnlt hngt hne ih =>
    intro ha hb
    rw [Ordered_cons] at ha hb
    have hk : k1 = k2 := Nat.le_antisymm (Nat.le_of_not_lt hngt) (Nat.le_of_not_lt hnlt)
    rw [Index.Diff, if_neg hnlt, if_neg hngt, if_neg hne]
    simp only [changesOrdered, List.map_cons, List.pairwise_cons, List.mem_map]
    refine ⟨?_, ih ha.2 hb.2⟩
    rintro x ⟨c, hc, rfl⟩
    exact Diff_key_gt t f k1 ha.1 (by rw [hk]; exact hb.1) c hc

/-- A change of the diff of two ordered indexes carries, as old and new value,
the rows that the two indexes hold at its key. -/
theorem Diff_values (a b : Index) :
    Index.Ordered a → Index.Ordered b → ∀ c ∈ Index.Diff a b,
      c.OldValue = Index.MaybeGet b c.Key ∧ c.NewValue = Index.MaybeGet a c.Key := by
  induction a, b using Index.Diff.induct with
  | case1 => intro _ _ c hc; simp [Index.Diff] at hc
  | case2 k v t ih =>
    intro ha hb c hc
    rw [Ordered_cons] at ha
    rw [Index.Diff] at hc
    rcases List.mem_cons.mp hc with h | h
    · subst h; simp [MaybeGet_cons, MaybeGet_nil]
    · have hgt := Diff_key_gt t [] k ha.1 (by simp [Index.keys]) c h
      have := ih ha.2 hb c h
      rw [MaybeGet_cons, if_neg (Nat.ne_of_lt hgt)]
      exact this
  | case3 k v f ih =>
    intro ha hb c hc
    rw [Ordered_cons] at hb
    rw [Index.Diff] at hc
    rcases List.mem_cons.mp hc with h | h
    · subst h; simp [MaybeGet_cons, MaybeGet_nil]
    · have hgt := Diff_key_gt [] f k (by simp [Index.keys]) hb.1 c h
      have := ih ha hb.2 c h
      rw [MaybeGet_cons, if_neg (Nat.ne_of_lt hgt)]
      exact this
  | case4 k1 v1 t k2 v2 f hlt ih =>
    intro ha hb c hc
    have hb1 := hb
    rw [Ordered_cons] at ha hb1
    rw [Index.Diff, if_pos hlt] at hc
    rcases List.mem_cons.mp hc with h | h
    · subst h
      simp only [MaybeGet_cons, if_true, and_true]
      rw [if_neg (Nat.ne_of_gt hlt), MaybeGet_none_of_lt f k1
        (fun x hx => Nat.lt_trans hlt (hb1.1 x hx))]
    · have hgt := Diff_key_gt t _ k1 ha.1 (keys_cons_gt k1 k2 v2 f hlt hb1.1) c h
      have := ih ha.2 hb c h
      rw [MaybeGet_cons k1, if_neg (Nat.ne_of_lt hgt)]
      exact this
  | case5 k1 v1 t k2 v2 f hnlt hgt ih =>
    intro ha hb c hc
    have ha1 := ha
    rw [Ordered_cons] at ha1 hb
    rw [Index.Diff, if_neg hnlt, if_pos hgt] at hc
    rcases List.mem_cons.mp hc with h | h
    · subst h
      simp only [MaybeGet_cons, if_true, true_and]
      rw [if_neg (Nat.ne_of_gt hgt), MaybeGet_none_of_lt t k2
        (fun x hx => Nat.lt_trans hgt (ha1.1 x hx))]
    · have hgt2 := Diff_key_gt _ f k2 (keys_cons_gt k2 k1 v1 t hgt ha1.1) hb.1 c h
      have := ih ha hb.2 c h
      rw [MaybeGet_cons k2, if_neg (Nat.ne_of_lt hgt2)]
      exact this
  | case6 k1 t k2 v2 f hnlt hngt ih =>
    intro ha hb c hc
    rw [Ordered_cons] at ha hb
    have hk : k1 = k2 := Nat.le_antisymm (Nat.le_of_not_lt hngt) (Nat.le_of_not_lt hnlt)
    rw [Index.Diff, if_neg hnlt, if_neg hngt, if_pos rfl] at hc
    have hgt := Diff_key_gt t f k1 ha.1 (by rw [hk]; exact hb.1) c hc
    have := ih ha.2 hb.2 c hc
    rw [MaybeGet_cons k1, MaybeGet_cons k2, if_neg (Nat.ne_of_lt hgt),
      if_neg (by rw [← hk]; exact Nat.ne_of_lt hgt)]
    exact this
  | case7 k1 v1 t k2 v2 f hnlt hngt hne ih =>
    intro ha hb c hc
    rw [Ordered_cons] at ha hb
    have hk : k1 = k2 := Nat.le_antisymm (Nat.le_of_not_lt hngt) (Nat.le_of_not_lt hnlt)
    rw [Index.Diff, if_neg hnlt, if_neg hngt, if_neg hne] at hc
    rcases List.mem_cons.mp hc with h | h
    · subst h
      simp [MaybeGet_cons, hk]
    · have hgt := Diff_key_gt t f k1 ha.1 (by rw [hk]; exact hb.1) c h
      have := ih ha.2 hb.2 c h
      rw [MaybeGet_cons k1, MaybeGet_cons k2, if_neg (Nat.ne_of_lt hgt),
        if_neg (by rw [← hk]; exact Nat.ne_of_lt hgt)]
      exact this


/-! ### The row reconciliation walk -/

/-- A walk over two streams without the key `k` emits no conflict at `k` and
leaves the editor's row at `k` as it is. -/
theorem mergeWalk_frame (rm : rowMerger) (ap : applicator) (sch : Schema) (rows : Index)
    (hap : ∀ e e1 ch k1, ap sch rows e ch = .ok e1 → k1 ≠ ch.Key →
      e1.tblEdit.MaybeGet k1 = e.tblEdit.MaybeGet k1)
    (k : Key) (d1 d2 : List ValueChanged) (st : WalkState) :
    (∀ c ∈ d1, c.Key ≠ k) → (∀ mc ∈ d2, mc.Key ≠ k) →
    ∀ st1, mergeWalk rm ap sch rows d1 d2 st = .ok st1 →
      st1.conflicts.filter (fun e => e.1 == k) = st.conflicts.filter (fun e => e.1 == k) ∧
      st1.edit.tblEdit.MaybeGet k = st.edit.tblEdit.MaybeGet k := by
  induction d1, d2, st using mergeWalk.induct rm ap sch rows with
  | case1 st =>
    intro _ _ st1 h
    rw [mergeWalk] at h
    cases h
    exact ⟨rfl, rfl⟩
  | case2 c cs st ih =>
    intro h1 h2 st1 h
    rw [mergeWalk] at h
    exact ih (fun x hx => h1 x (List.mem_cons_of_mem _ hx)) h2 st1 h
  | case3 mc ms st ih =>
    intro h1 h2 st1 h
    rw [mergeWalk] at h
    cases he : ap sch rows st.edit mc with
    | error e => simp [he, bind, Except.bind] at h
    | ok e =>
      simp only [he, bind, Except.bind] at h
      have := ih e h1 (fun x hx => h2 x (List.mem_cons_of_mem _ hx)) st1 h
      refine ⟨this.1, this.2.trans ?_⟩
      exact hap _ _ _ _ he (fun hk => h2 mc (List.mem_cons_self _ _) hk.symm)
  | case4 c cs mc ms st hlt ih =>
    intro h1 h2 st1 h
    rw [mergeWalk, if_pos hlt] at h
    exact ih (fun x hx => h1 x (List.mem_cons_of_mem _ hx)) h2 st1 h
  | case5 c cs mc ms st hnlt hgt ih =>
    intro h1 h2 st1 h
    rw [mergeWalk, if_neg hnlt, if_pos hgt] at h
    cases he : ap sch rows st.edit mc with
    | error e => simp [he, bind, Except.bind] at h
    | ok e =>
      simp only [he, bind, Except.bind] at h
      have := ih e h1 (fun x hx => h2 x (List.mem_cons_of_mem _ hx)) st1 h
      refine ⟨this.1, this.2.trans ?_⟩
      exact hap _ _ _ _ he (fun hk => h2 mc (List.mem_cons_self _ _) hk.symm)
  | case6 c cs mc ms st hnlt hngt ih1 ih2 =>
    intro h1 h2 st1 h
    rw [mergeWalk, if_neg hnlt, if_neg hngt] at h
    have hck : c.Key ≠ k := h1 c (List.mem_cons_self _ _)
    have hcs : ∀ x ∈ cs, x.Key ≠ k := fun x hx => h1 x (List.mem_cons_of_mem _ hx)
    have hms : ∀ x ∈ ms, x.Key ≠ k := fun x hx => h2 x (List.mem_cons_of_mem _ hx)
    cases hr : rm sch c.NewValue mc.NewValue c.OldValue with
    | error e => simp [hr, bind, Except.bind] at h
    | ok res =>
      simp only [hr, bind, Except.bind] at h
      cases hconf : res.isConflict with
      | true =>
        simp only [hconf, if_true] at h
        have := ih1 hcs hms st1 h
        refine ⟨this.1.trans ?_, this.2⟩
        simp [List.filter_append, hck]
      | false =>
        simp only [hconf] at h
        cases he : ap sch rows st.edit
            { ChangeType := c.ChangeType, Key := c.Key,
              OldValue := if res.didCellMerge = true then c.NewValue else c.OldValue,
              NewValue := res.mergedRow } with
        | error e => simp [he] at h
        | ok e =>
          simp only [he] at h
          have := ih2 e hcs hms st1 h
          refine ⟨this.1, this.2.trans ?_⟩
          exact hap _ _ _ _ he (fun hk => hck hk.symm)


theorem changesOrdered_cons (c : ValueChanged) (cs : List ValueChanged) :
    changesOrdered (c :: cs) ↔ (∀ x ∈ cs, c.Key < x.Key) ∧ changesOrdered cs := by
  simp [changesOrdered, List.pairwise_cons]

/-- In a walk over two ordered streams that both hold a change at the key `k`,
for which the row merger reports a conflict, exactly one conflict is emitted at
`k`, with the three rows of the two changes, and the editor's row at `k` stays
as it is. -/
theorem mergeWalk_conflict (rm : rowMerger) (ap : applicator) (sch : Schema) (rows : Index)
    (hap : ∀ e e1 ch k1, ap sch rows e ch = .ok e1 → k1 ≠ ch.Key →
      e1.tblEdit.MaybeGet k1 = e.tblEdit.MaybeGet k1)
    (k : Key) (c0 mc0 : ValueChanged) (hc0 : c0.Key = k) (hmc0 : mc0.Key = k)
    (r : rowMergeResult) (hr : rm sch c0.NewValue mc0.NewValue c0.OldValue = .ok r)
    (hconf : r.isConflict = true) (d1 d2 : List ValueChanged) (st : WalkState) :
    changesOrdered d1 → changesOrdered d2 → c0 ∈ d1 → mc0 ∈ d2 →
    ∀ st1, mergeWalk rm ap sch rows d1 d2 st = .ok st1 →
      st1.conflicts.filter (fun e => e.1 == k) =
        st.conflicts.filter (fun e => e.1 == k) ++
          [(k, ⟨c0.OldValue, c0.NewValue, mc0.NewValue⟩)] ∧
      st1.edit.tblEdit.MaybeGet k = st.edit.tblEdit.MaybeGet k := by
  induction d1, d2, st using mergeWalk.induct rm ap sch rows with
  | case1 st => intro _ _ h1; cases h1
  | case2 c cs st ih => intro _ _ _ h2; cases h2
  | case3 mc ms st ih => intro _ _ h1; cases h1
  | case4 c cs mc ms st hlt ih =>
    intro o1 o2 m1 m2 st1 h
    rw [mergeWalk, if_pos hlt] at h
    rw [changesOrdered_cons] at o1
    have hle : mc.Key ≤ k := by
      rcases List.mem_cons.mp m2 with h2 | h2
      · rw [← hmc0, h2]
      · rw [← hmc0]; exact Nat.le_of_lt (((changesOrdered_cons mc ms).mp o2).1 mc0 h2)
    have hin : c0 ∈ cs := by
      rcases List.mem_cons.mp m1 with h1 | h1
      · exfalso
        rw [← h1, hc0] at hlt
        exact Nat.lt_irrefl _ (Nat.lt_of_lt_of_le hlt hle)
      · exact h1
    exact ih o1.2 o2 hin m2 st1 h
  | case5 c cs mc ms st hnlt hgt ih =>
    intro o1 o2 m1 m2 st1 h
    rw [mergeWalk, if_neg hnlt, if_pos hgt] at h
    have o2c := (changesOrdered_cons mc ms).mp o2
    have hle : c.Key ≤ k := by
      rcases List.mem_cons.mp m1 with h1 | h1
      · rw [← hc0, h1]
      · rw [← hc0]; exact Nat.le_of_lt (((changesOrdered_cons c cs).mp o1).1 c0 h1)
    have hmk : mc.Key < k := Nat.lt_of_lt_of_le hgt hle
    have hin : mc0 ∈ ms := by
      rcases List.mem_cons.mp m2 with h2 | h2
      · exfalso
        rw [← h2, hmc0] at hmk
        exact Nat.lt_irrefl _ hmk
      · exact h2
    cases he : ap sch rows st.edit mc with
    | error e => simp [he, bind, Except.bind] at h
    | ok e =>
      simp only [he, bind, Except.bind] at h
      have := ih e o1 o2c.2 m1 hin st1 h
      refine ⟨this.1, this.2.trans ?_⟩
      exact hap _ _ _ _ he (Nat.ne_of_gt hmk)
  | case6 c cs mc ms st hnlt hngt ih1 ih2 =>
    intro o1 o2 m1 m2 st1 h
    rw [mergeWalk, if_neg hnlt, if_neg hngt] at h
    have hk : c.Key = mc.Key := Nat.le_antisymm (Nat.le_of_not_lt hngt) (Nat.le_of_not_lt hnlt)
    have o1c := (changesOrdered_cons c cs).mp o1
    have o2c := (changesOrdered_cons mc ms).mp o2
    by_cases hck : c.Key = k
    · -- the heads are the two changes at `k`
      have hc : c0 = c := by
        rcases List.mem_cons.mp m1 with h1 | h1
        · exact h1
        · exfalso
          have := o1c.1 c0 h1
          rw [hc0, hck] at this
          exact Nat.lt_irrefl _ this
      have hmc : mc0 = mc := by
        rcases List.mem_cons.mp m2 with h2 | h2
        · exact h2
        · exfalso
          have := o2c.1 mc0 h2
          rw [hmc0, ← hk, hck] at this
          exact Nat.lt_irrefl _ this
      subst hc hmc
      simp only [hr, bind, Except.bind, hconf, if_true] at h
      have hcs : ∀ x ∈ cs, x.Key ≠ k := fun x hx =>
        Nat.ne_of_gt (by rw [← hck]; exact o1c.1 x hx)
      have hms : ∀ x ∈ ms, x.Key ≠ k := fun x hx =>
        Nat.ne_of_gt (by rw [← hck, hk]; exact o2c.1 x hx)
      have := mergeWalk_frame rm ap sch rows hap k cs ms _ hcs hms st1 h
      refine ⟨this.1.trans ?_, this.2⟩
      simp [List.filter_append, hck]
    · have hin1 : c0 ∈ cs := by
        rcases List.mem_cons.mp m1 with h1 | h1
        · exact absurd (h1 ▸ hc0) hck
        · exact h1
      have hin2 : mc0 ∈ ms := by
        rcases List.mem_cons.mp m2 with h2 | h2
        · exact absurd (hk.trans (h2 ▸ hmc0)) hck
        · exact h2
      cases hres : rm sch c.NewValue mc.NewValue c.OldValue with
      | error e => simp [hres, bind, Except.bind] at h
      | ok res =>
        simp only [hres, bind, Except.bind] at h
        cases hcf : res.isConflict with
        | true =>
          simp only [hcf, if_true] at h
          have := ih1 o1c.2 o2c.2 hin1 hin2 st1 h
          refine ⟨this.1.trans ?_, this.2⟩
          simp [List.filter_append, hck]
        | false =>
          simp only [hcf] at h
          cases he : ap sch rows st.edit
              { ChangeType := c.ChangeType, Key := c.Key,
                OldValue := if res.didCellMerge = true then c.NewValue else c.OldValue,
                NewValue := res.mergedRow } with
          | error e => simp [he] at h
          | ok e =>
            simp only [he] at h
            have := ih2 e o1c.2 o2c.2 hin1 hin2 st1 h
            refine ⟨this.1, this.2.trans ?_⟩
            exact hap _ _ _ _ he (fun hk2 => hck hk2.symm)


/-- Every change of a diff is well formed. -/
theorem Diff_wellFormed (a b : Index) : ∀ c ∈ Index.Diff a b, c.wellFormed := by
  induction a, b using Index.Diff.induct with
  | case1 => simp [Index.Diff]
  | case2 k v t ih =>
    intro c hc
    rw [Index.Diff] at hc
    rcases List.mem_cons.mp hc with h | h
    · subst h; simp [ValueChanged.wellFormed]
    · exact ih c h
  | case3 k v f ih =>
    intro c hc
    rw [Index.Diff] at hc
    rcases List.mem_cons.mp hc with h | h
    · subst h; simp [ValueChanged.wellFormed]
    · exact ih c h
  | case4 k1 v1 t k2 v2 f hlt ih =>
    intro c hc
    rw [Index.Diff, if_pos hlt] at hc
    rcases List.mem_cons.mp hc with h | h
    · subst h; simp [ValueChanged.wellFormed]
    · exact ih c h
  | case5 k1 v1 t k2 v2 f hnlt hgt ih =>
    intro c hc
    rw [Index.Diff, if_neg hnlt, if_pos hgt] at hc
    rcases List.mem_cons.mp hc with h | h
    · subst h; simp [ValueChanged.wellFormed]
    · exact ih c h
  | case6 k1 t k2 v2 f hnlt hngt ih =>
    intro c hc
    rw [Index.Diff, if_neg hnlt, if_neg hngt, if_pos rfl] at hc
    exact ih c hc
  | case7 k1 v1 t k2 v2 f hnlt hngt hne ih =>
    intro c hc
    rw [Index.Diff, if_neg hnlt, if_neg hngt, if_neg hne] at hc
    rcases List.mem_cons.mp hc with h | h
    · subst h; simp [ValueChanged.wellFormed]
    · exact ih c h

theorem applicable_of_wellFormed (c : ValueChanged) (h : c.wellFormed) : c.applicable := by
  obtain ⟨ct, key, old, new⟩ := c
  cases ct <;> simp_all [ValueChanged.wellFormed, ValueChanged.applicable]

/-- The primary-key applicator succeeds on a change whose values it can read
and whose key the editor holds exactly when ours' rows hold it. -/
theorem applyNomsPkChange_ok (sch : Schema) (rows : Index) (e : EditState)
    (mc : ValueChanged) (hmc : mc.applicable)
    (hed : e.tblEdit.MaybeGet mc.Key = rows.MaybeGet mc.Key) :
    ∃ e1, applyNomsPkChange sch rows e mc = .ok e1 := by
  obtain ⟨ct, key, old, new⟩ := mc
  cases ct <;> cases old <;> cases new <;>
    simp [ValueChanged.applicable] at hmc <;>
    simp only [applyNomsPkChange, asTuple, bind, Except.bind, pure, Except.pure,
      UpdateRow, DeleteByKey]
  all_goals first
    | exact ⟨_, rfl⟩
    | (cases hget : Index.MaybeGet rows key with
       | some old => exact ⟨_, rfl⟩
       | none =>
         simp only [InsertRow]
         simp only [hget] at hed
         simp [hed])

/-- On two present rows the primary-key row merger returns, and without
conflict it returns a merged row. -/
theorem nomsPkRowMerge_present (sch : Schema) (r m : NomsRow) (base : Option NomsRow) :
    ∃ res, nomsPkRowMerge sch (some r) (some m) base = .ok res ∧
      (res.isConflict = false → res.mergedRow.isSome = true) := by
  cases base with
  | none =>
    simp only [nomsPkRowMerge]
    by_cases h : some m = some r
    · rw [if_pos h]
      exact ⟨_, rfl, fun _ => rfl⟩
    · rw [if_neg h]
      cases hm : mergeTags [] r m sch.GetNonPKCols.Tags with
      | none => exact ⟨_, rfl, fun hc => by simp at hc⟩
      | some p => exact ⟨_, rfl, fun _ => rfl⟩
  | some b =>
    simp only [nomsPkRowMerge, Option.isNone_some, Bool.and_self, Bool.or_self,
      Bool.false_eq_true, if_false]
    cases hm : mergeTags b r m sch.GetNonPKCols.Tags with
    | none => exact ⟨_, rfl, fun hc => by simp at hc⟩
    | some p => exact ⟨_, rfl, fun _ => rfl⟩

/-- At a key that both streams changed, the primary-key row merger returns, and
when it reports no conflict the applicator succeeds on the merged change. -/
theorem merged_change_ok (sch : Schema) (rows : Index) (c mc : ValueChanged)
    (hc : c.wellFormed) (hmc : mc.wellFormed) (hold : c.OldValue = mc.OldValue)
    (e : EditState) (hed : e.tblEdit.MaybeGet c.Key = rows.MaybeGet c.Key) :
    ∃ res, nomsPkRowMerge sch c.NewValue mc.NewValue c.OldValue = .ok res ∧
      (res.isConflict = false →
        ∃ e1, applyNomsPkChange sch rows e
          { ChangeType := c.ChangeType, Key := c.Key,
            OldValue := if res.didCellMerge = true then c.NewValue else c.OldValue,
            NewValue := res.mergedRow } = .ok e1) := by
  obtain ⟨ct, key, old, new⟩ := c
  obtain ⟨mct, mkey, mold, mnew⟩ := mc
  simp only at hold hed
  subst hold
  cases old with
  | none =>
    -- added on both sides
    cases ct <;> simp [ValueChanged.wellFormed] at hc
    cases mct <;> simp [ValueChanged.wellFormed] at hmc
    cases new with
    | none => simp at hc
    | some r =>
      cases mnew with
      | none => simp at hmc
      | some m =>
        obtain ⟨res, hres, hsome⟩ := nomsPkRowMerge_present sch r m none
        refine ⟨res, hres, fun hcf => ?_⟩
        apply applyNomsPkChange_ok
        · have := hsome hcf
          simpa [ValueChanged.applicable] using this
        · exact hed
  | some b =>
    cases new with
    | none =>
      cases mnew with
      | none =>
        refine ⟨⟨none, false, false⟩, rfl, fun _ => ?_⟩
        cases ct <;> simp [ValueChanged.wellFormed] at hc
        exact ⟨_, rfl⟩
      | some m =>
        exact ⟨⟨none, false, true⟩, rfl, fun hcf => by simp at hcf⟩
    | some r =>
      cases mnew with
      | none =>
        exact ⟨⟨none, false, true⟩, rfl, fun hcf => by simp at hcf⟩
      | some m =>
        obtain ⟨res, hres, hsome⟩ := nomsPkRowMerge_present sch r m (some b)
        refine ⟨res, hres, fun hcf => ?_⟩
        cases ct <;> simp [ValueChanged.wellFormed] at hc
        apply applyNomsPkChange_ok
        · have := hsome hcf
          cases hd : res.didCellMerge <;> simp [ValueChanged.applicable, this]
        · exact hed


/-- The walk of a primary-key table over two ordered streams of well-formed
changes against one ancestor returns: no step panics or fails. -/
theorem mergeWalk_pk_total (sch : Schema) (rows : Index) (d1 d2 : List ValueChanged)
    (st : WalkState) :
    changesOrdered d1 → changesOrdered d2 →
    (∀ c ∈ d1, c.wellFormed) → (∀ mc ∈ d2, mc.wellFormed) →
    (∀ c ∈ d1, ∀ mc ∈ d2, c.Key = mc.Key → c.OldValue = mc.OldValue) →
    (∀ mc ∈ d2, st.edit.tblEdit.MaybeGet mc.Key = rows.MaybeGet mc.Key) →
    ∃ st1, mergeWalk nomsPkRowMerge applyNomsPkChange sch rows d1 d2 st = .ok st1 := by
  induction d1, d2, st using mergeWalk.induct nomsPkRowMerge applyNomsPkChange sch rows with
  | case1 st =>
    intro _ _ _ _ _ _
    exact ⟨st, by rw [mergeWalk]⟩
  | case2 c cs st ih =>
    intro o1 o2 w1 w2 hold hed
    rw [mergeWalk]
    exact ih ((changesOrdered_cons c cs).mp o1).2 o2
      (fun x hx => w1 x (List.mem_cons_of_mem _ hx)) w2
      (fun x hx y hy => hold x (List.mem_cons_of_mem _ hx) y hy) hed
  | case3 mc ms st ih =>
    intro o1 o2 w1 w2 hold hed
    rw [mergeWalk]
    have o2c := (changesOrdered_cons mc ms).mp o2
    obtain ⟨e, he⟩ := applyNomsPkChange_ok sch rows st.edit mc
      (applicable_of_wellFormed mc (w2 mc (List.mem_cons_self _ _)))
      (hed mc (List.mem_cons_self _ _))
    simp only [he, bind, Except.bind]
    apply ih e o1 o2c.2 w1 (fun x hx => w2 x (List.mem_cons_of_mem _ hx))
      (fun x hx y hy => hold x hx y (List.mem_cons_of_mem _ hy))
    intro x hx
    rw [← hed x (List.mem_cons_of_mem _ hx)]
    exact applyNomsPkChange_frame sch rows st.edit e mc x.Key he (Nat.ne_of_gt (o2c.1 x hx))
  | case4 c cs mc ms st hlt ih =>
    intro o1 o2 w1 w2 hold hed
    rw [mergeWalk, if_pos hlt]
    exact ih ((changesOrdered_cons c cs).mp o1).2 o2
      (fun x hx => w1 x (List.mem_cons_of_mem _ hx)) w2
      (fun x hx y hy => hold x (List.mem_cons_of_mem _ hx) y hy) hed
  | case5 c cs mc ms st hnlt hgt ih =>
    intro o1 o2 w1 w2 hold hed
    rw [mergeWalk, if_neg hnlt, if_pos hgt]
    have o2c := (changesOrdered_cons mc ms).mp o2
    obtain ⟨e, he⟩ := applyNomsPkChange_ok sch rows st.edit mc
      (applicable_of_wellFormed mc (w2 mc (List.mem_cons_self _ _)))
      (hed mc (List.mem_cons_self _ _))
    simp only [he, bind, Except.bind]
    apply ih e o1 o2c.2 w1 (fun x hx => w2 x (List.mem_cons_of_mem _ hx))
      (fun x hx y hy => hold x hx y (List.mem_cons_of_mem _ hy))
    intro x hx
    rw [← hed x (List.mem_cons_of_mem _ hx)]
    exact applyNomsPkChange_frame sch rows st.edit e mc x.Key he (Nat.ne_of_gt (o2c.1 x hx))
  | case6 c cs mc ms st hnlt hngt ih1 ih2 =>
    intro o1 o2 w1 w2 hold hed
    rw [mergeWalk, if_neg hnlt, if_neg hngt]
    have hk : c.Key = mc.Key := Nat.le_antisymm (Nat.le_of_not_lt hngt) (Nat.le_of_not_lt hnlt)
    have o1c := (changesOrdered_cons c cs).mp o1
    have o2c := (changesOrdered_cons mc ms).mp o2
    have w1t : ∀ x ∈ cs, x.wellFormed := fun x hx => w1 x (List.mem_cons_of_mem _ hx)
    have w2t : ∀ x ∈ ms, x.wellFormed := fun x hx => w2 x (List.mem_cons_of_mem _ hx)
    have holdt : ∀ x ∈ cs, ∀ y ∈ ms, x.Key = y.Key → x.OldValue = y.OldValue :=
      fun x hx y hy => hold x (List.mem_cons_of_mem _ hx) y (List.mem_cons_of_mem _ hy)
    have hedc : st.edit.tblEdit.MaybeGet c.Key = rows.MaybeGet c.Key := by
      rw [hk]; exact hed mc (List.mem_cons_self _ _)
    obtain ⟨res, hres, happ⟩ := merged_change_ok sch rows c mc
      (w1 c (List.mem_cons_self _ _)) (w2 mc (List.mem_cons_self _ _))
      (hold c (List.mem_cons_self _ _) mc (List.mem_cons_self _ _) hk) st.edit hedc
    simp only [hres, bind, Except.bind]
    cases hcf : res.isConflict with
    | true =>
      simp only [if_true]
      exact ih1 o1c.2 o2c.2 w1t w2t holdt (fun x hx => hed x (List.mem_cons_of_mem _ hx))
    | false =>
      obtain ⟨e, he⟩ := happ hcf
      simp only [Bool.false_eq_true, if_false, he]
      apply ih2 e o1c.2 o2c.2 w1t w2t holdt
      intro x hx
      rw [← hed x (List.mem_cons_of_mem _ hx)]
      exact applyNomsPkChange_frame sch rows st.edit e _ x.Key he
        (Nat.ne_of_gt (by rw [hk]; exact o2c.1 x hx))


/-- What `mergeNomsTableData` returns, in terms of the walk. -/
theorem mergeNomsTableData_eq_ok (sch : Schema) (rows mergeRows ancRows tblEdit : Index)
    (res : NomsMergeResult)
    (h : mergeNomsTableData sch rows mergeRows ancRows tblEdit = .ok res) :
    ∃ st, mergeWalk (if IsKeyless sch then keylessRowMerge else nomsPkRowMerge)
        (if IsKeyless sch then applyKeylessChange else applyNomsPkChange) sch rows
        (Index.Diff rows ancRows) (Index.Diff mergeRows ancRows)
        { edit := { tblEdit := tblEdit, stats := { Operation := TableMergeOp.TableModified } },
          conflicts := [] } = .ok st ∧
      res = { mergedRows := st.edit.tblEdit, conflicts := st.conflicts, stats := st.edit.stats } := by
  unfold mergeNomsTableData at h
  simp only [bind, Except.bind, pure, Except.pure] at h
  split at h
  · cases h
  · rename_i st hst
    cases h
    exact ⟨st, hst, rfl⟩

/-- The applicator that `mergeNomsTableData` selects changes the editor only at
the key of the change. -/
theorem selected_applicator_frame (sch : Schema) (rows : Index) :
    ∀ e e1 ch k1,
      (if IsKeyless sch then applyKeylessChange else applyNomsPkChange) sch rows e ch = .ok e1 →
      k1 ≠ ch.Key → e1.tblEdit.MaybeGet k1 = e.tblEdit.MaybeGet k1 := by
  intro e e1 ch k1 h hk
  cases hkl : IsKeyless sch with
  | true =>
    simp only [hkl, if_true] at h
    exact applyKeylessChange_frame sch rows e e1 ch k1 h hk
  | false =>
    simp only [hkl, Bool.false_eq_true, if_false] at h
    exact applyNomsPkChange_frame sch rows e e1 ch k1 h hk

/-- C2: conflict preservation. Old format: in the row walk of
`mergeNomsTableData` over ordered indexes, for every key `k` that both diff
streams change and at which the row merger reports a conflict, the returned
conflict map holds exactly one record at `k`, carrying the (base, ours, theirs)
rows, and the merged row at `k` is ours' row; for a primary-key schema the walk
returns. New format: when `tryMerge` reports a conflict the collision callback
of `mergeProllyRowData` sends exactly one conflict record with the key and the
(ours, theirs, base) rows, one index edit that reverts theirs, and returns no
change to apply. -/
theorem conflict_preservation (sch : Schema) (rows mergeRows ancRows : Index)
    (hrows : rows.Ordered) (hmerge : mergeRows.Ordered) (hanc : ancRows.Ordered) :
    (∀ res, mergeNomsTableData sch rows mergeRows ancRows rows = .ok res →
      ∀ k r, k ∈ (Index.Diff rows ancRows).map (fun c => c.Key) →
        k ∈ (Index.Diff mergeRows ancRows).map (fun c => c.Key) →
        (if IsKeyless sch then keylessRowMerge else nomsPkRowMerge) sch (rows.MaybeGet k)
          (mergeRows.MaybeGet k) (ancRows.MaybeGet k) = .ok r →
        r.isConflict = true →
        res.conflicts.filter (fun e => e.1 == k) =
          [(k, ⟨ancRows.MaybeGet k, rows.MaybeGet k, mergeRows.MaybeGet k⟩)] ∧
        res.mergedRows.MaybeGet k = rows.MaybeGet k) ∧
    (IsKeyless sch = false →
      ∃ res, mergeNomsTableData sch rows mergeRows ancRows rows = .ok res) ∧
    (∀ (vMerger : valueMerger) (left right : Diff) (t : Option Tuple),
      vMerger.tryMerge left.To right.To left.From = .ok (t, true) →
      collide vMerger left right =
        .ok { diff := Diff.zero, ok := false
              conflicts := [⟨left.Key, left.To, right.To, left.From⟩]
              indexEdits := [indexEdit.conflictEdit right] }) := by
  refine ⟨?_, ?_, ?_⟩
  · intro res hres k r hk1 hk2 hr hconf
    obtain ⟨st, hst, rfl⟩ := mergeNomsTableData_eq_ok sch rows mergeRows ancRows rows res hres
    obtain ⟨c0, hc0, hck⟩ := List.mem_map.mp hk1
    obtain ⟨mc0, hmc0, hmck⟩ := List.mem_map.mp hk2
    have hv1 := Diff_values rows ancRows hrows hanc c0 hc0
    have hv2 := Diff_values mergeRows ancRows hmerge hanc mc0 hmc0
    rw [hck] at hv1
    rw [hmck] at hv2
    have hr0 : (if IsKeyless sch then keylessRowMerge else nomsPkRowMerge) sch c0.NewValue
        mc0.NewValue c0.OldValue = .ok r := by
      rw [hv1.1, hv1.2, hv2.2]; exact hr
    have := mergeWalk_conflict _ _ sch rows (selected_applicator_frame sch rows) k c0 mc0
      hck hmck r hr0 hconf _ _ _ (Diff_ordered rows ancRows hrows hanc)
      (Diff_ordered mergeRows ancRows hmerge hanc) hc0 hmc0 st hst
    rw [hv1.1, hv1.2, hv2.2] at this
    simpa using this
  · intro hkl
    obtain ⟨st, hst⟩ := mergeWalk_pk_total sch rows (Index.Diff rows ancRows)
      (Index.Diff mergeRows ancRows)
      { edit := { tblEdit := rows, stats := { Operation := TableMergeOp.TableModified } },
        conflicts := [] }
      (Diff_ordered rows ancRows hrows hanc) (Diff_ordered mergeRows ancRows hmerge hanc)
      (Diff_wellFormed rows ancRows) (Diff_wellFormed mergeRows ancRows)
      (fun c hc mc hmc hk => by
        rw [(Diff_values rows ancRows hrows hanc c hc).1,
          (Diff_values mergeRows ancRows hmerge hanc mc hmc).1, hk])
      (fun _ _ => rfl)
    refine ⟨{ mergedRows := st.edit.tblEdit, conflicts := st.conflicts,
              stats := st.edit.stats }, ?_⟩
    simp only [mergeNomsTableData, hkl, Bool.false_eq_true, if_false, hst, bind, Except.bind,
      pure, Except.pure]
  · intro vMerger left right t h
    simp [collide, h, bind, Except.bind, pure, Except.pure]

/-- Witness of C2, scenario S2: base `(1,10)`, ours `(1,11)`, theirs `(1,12)`;
one conflict at key 1 with the three rows, and the merged row stays `(1,11)`. -/
theorem conflict_preservation_witness :
    ∃ res, mergeNomsTableData scenarioSchema [(1, [(1, 11)])] [(1, [(1, 12)])]
        [(1, [(1, 10)])] [(1, [(1, 11)])] = .ok res ∧
      res.conflicts.filter (fun e => e.1 == 1) =
        [(1, ⟨some [(1, 10)], some [(1, 11)], some [(1, 12)]⟩)] ∧
      res.mergedRows.MaybeGet 1 = some [(1, 11)] := by
  obtain ⟨h1, h2, _⟩ := conflict_preservation scenarioSchema [(1, [(1, 11)])]
    [(1, [(1, 12)])] [(1, [(1, 10)])] (by decide) (by decide) (by decide)
  obtain ⟨res, hres⟩ := h2 (by decide)
  have h := h1 res hres 1 ⟨none, false, true⟩ (by simp [Index.Diff]) (by simp [Index.Diff])
    rfl rfl
  exact ⟨res, hres, h.1, h.2⟩


/-! ### The error rules of the short-circuit block -/

/-- The variables of `MergeTable` in terms of the three lookups. -/
theorem initialVars_eq (st : Store) (merger : Merger) (tblName : String)
    (tbl mergeTbl ancTbl : Option Table)
    (hr : merger.root.GetTable tblName = tbl)
    (hm : merger.mergeRoot.GetTable tblName = mergeTbl)
    (ha : merger.ancRoot.GetTable tblName = ancTbl) :
    initialVars st merger tblName =
      { rootHasTable := tbl.isSome, mergeHasTable := mergeTbl.isSome
        ancHasTable := ancTbl.isSome
        tbl := tbl, mergeTbl := mergeTbl, ancTbl := ancTbl
        rootSchema := tbl.map (fun t => t.sch), mergeSchema := mergeTbl.map (fun t => t.sch)
        ancSchema := ancTbl.map (fun t => t.sch)
        rootHash := (tbl.map st.HashOf).getD Hash.zero
        mergeHash := (mergeTbl.map st.HashOf).getD Hash.zero
        ancHash := (ancTbl.map st.HashOf).getD Hash.zero
        ancRows := ancTbl.map (fun t => t.rowData) } := by
  subst hr hm ha
  simp only [initialVars, getTableInfoFromRoot]
  cases merger.root.GetTable tblName <;> cases merger.mergeRoot.GetTable tblName <;>
    cases merger.ancRoot.GetTable tblName <;> rfl

/-- C11: when the ancestor lacks the table, ours and theirs both have it, their
schemas are not equal and their table hashes differ, `MergeTable` fails with
`ErrSameTblAddedTwice` and returns neither a table nor statistics. -/
theorem MergeTable_same_table_added_twice (st : Store) (merger : Merger) (tblName : String)
    (isCherryPick : Bool) (tbl mergeTbl : Table)
    (hr : merger.root.GetTable tblName = some tbl)
    (hm : merger.mergeRoot.GetTable tblName = some mergeTbl)
    (ha : merger.ancRoot.GetTable tblName = none)
    (hsch : tbl.sch ≠ mergeTbl.sch) (hh : st.HashOf tbl ≠ st.HashOf mergeTbl) :
    MergeTable st merger tblName isCherryPick =
      { table := none, stats := none, err := some MergeErr.ErrSameTblAddedTwice } := by
  simp [MergeTable, initialVars_eq st merger tblName _ _ _ hr hm ha, shortCircuit,
    addedTable, SchemasAreEqual, hsch, hh]

/-- Witness of C11: ours added `t` with the column `w`, theirs without it. -/
theorem MergeTable_same_table_added_twice_witness :
    MergeTable scenarioStore
        (mergerOf (scenarioRoot scenarioSchemaW [(1, [(1, 10)])])
          (scenarioRoot scenarioSchema [(1, [(1, 10)])]) emptyRoot) "t" false =
      { table := none, stats := none, err := some MergeErr.ErrSameTblAddedTwice } :=
  MergeTable_same_table_added_twice scenarioStore _ "t" false
    { sch := scenarioSchemaW, rowData := [(1, [(1, 10)])] }
    { sch := scenarioSchema, rowData := [(1, [(1, 10)])] } rfl rfl rfl (by decide) (by decide)

/-- C12, as stated, fails for a cherry-pick: the ancestor has `t` with row
`(1,10)`, ours changed it to `(1,11)` and theirs dropped the table; the error
is not `ErrTableDeletedAndModified`. -/
theorem MergeTable_cherry_pick_drop_not_deleted_and_modified :
    (scenarioRoot scenarioSchema [(1, [(1, 10)])]).GetTable "t" ≠ none ∧
    emptyRoot.GetTable "t" = none ∧
    scenarioStore.HashOf { sch := scenarioSchema, rowData := [(1, [(1, 11)])] } ≠
      scenarioStore.HashOf { sch := scenarioSchema, rowData := [(1, [(1, 10)])] } ∧
    (MergeTable scenarioStore
        (mergerOf (scenarioRoot scenarioSchema [(1, [(1, 11)])]) emptyRoot
          (scenarioRoot scenarioSchema [(1, [(1, 10)])])) "t" true).err ≠
      some MergeErr.ErrTableDeletedAndModified := by
  refine ⟨by decide, by decide, by decide, ?_⟩
  decide

/-- C12, amended: when the ancestor has the table, exactly one of ours and
theirs lacks it and the table hash on the side that still has it differs from
the ancestor's hash, `MergeTable` fails with `ErrTableDeletedAndModified`, for
either value of the cherry-pick flag when ours lacks the table, and for a merge
that is not a cherry-pick when theirs lacks it; a cherry-pick in which theirs
lacks the table fails with the error "schema changes not supported: .. table
was renamed or dropped in cherry-pick commit" and `TableModified` statistics,
whatever ours' hash is. -/
theorem MergeTable_deleted_and_modified (st : Store) (merger : Merger) (tblName : String)
    (ancTbl : Table) (ha : merger.ancRoot.GetTable tblName = some ancTbl) :
    (∀ isCherryPick mergeTbl, merger.root.GetTable tblName = none →
      merger.mergeRoot.GetTable tblName = some mergeTbl →
      st.HashOf mergeTbl ≠ st.HashOf ancTbl →
      MergeTable st merger tblName isCherryPick =
        { table := none, stats := none, err := some MergeErr.ErrTableDeletedAndModified }) ∧
    (∀ tbl, merger.root.GetTable tblName = some tbl →
      merger.mergeRoot.GetTable tblName = none →
      st.HashOf tbl ≠ st.HashOf ancTbl →
      MergeTable st merger tblName false =
        { table := none, stats := none, err := some MergeErr.ErrTableDeletedAndModified }) ∧
    (∀ tbl, merger.root.GetTable tblName = some tbl →
      merger.mergeRoot.GetTable tblName = none →
      MergeTable st merger tblName true =
        { table := none, stats := some { Operation := TableMergeOp.TableModified }
          err := some (MergeErr.other ("schema changes not supported: " ++ tblName ++
            " table was renamed or dropped in cherry-pick commit")) }) := by
  refine ⟨?_, ?_, ?_⟩
  · intro isCherryPick mergeTbl hr hm hh
    simp [MergeTable, initialVars_eq st merger tblName _ _ _ hr hm ha, shortCircuit,
      addedTable, deletedOrFastForward, hh]
  · intro tbl hr hm hh
    simp [MergeTable, initialVars_eq st merger tblName _ _ _ hr hm ha, shortCircuit,
      addedTable, deletedOrFastForward, hh]
  · intro tbl hr hm
    simp [MergeTable, initialVars_eq st merger tblName _ _ _ hr hm ha, shortCircuit,
      addedTable, deletedOrFastForward]

/-- Witness of C12, amended: the merge of the counterexample without the
cherry-pick flag fails with `ErrTableDeletedAndModified`. -/
theorem MergeTable_deleted_and_modified_witness :
    MergeTable scenarioStore
        (mergerOf (scenarioRoot scenarioSchema [(1, [(1, 11)])]) emptyRoot
          (scenarioRoot scenarioSchema [(1, [(1, 10)])])) "t" false =
      { table := none, stats := none, err := some MergeErr.ErrTableDeletedAndModified } :=
  (MergeTable_deleted_and_modified scenarioStore
    (mergerOf (scenarioRoot scenarioSchema [(1, [(1, 11)])]) emptyRoot
      (scenarioRoot scenarioSchema [(1, [(1, 10)])])) "t"
    { sch := scenarioSchema, rowData := [(1, [(1, 10)])] } rfl).2.1
    { sch := scenarioSchema, rowData := [(1, [(1, 11)])] } rfl rfl (by decide)

/-- C13: when the merge is not a cherry-pick and the ancestor has the table, if
both ours and theirs lack it, or exactly one lacks it and the table hash on the
other side equals the ancestor's hash, `MergeTable` returns no table,
statistics with operation `TableRemoved`, and no error. -/
theorem MergeTable_removed (st : Store) (merger : Merger) (tblName : String)
    (ancTbl : Table) (ha : merger.ancRoot.GetTable tblName = some ancTbl)
    (h : (merger.root.GetTable tblName = none ∧ merger.mergeRoot.GetTable tblName = none) ∨
      (∃ mergeTbl, merger.root.GetTable tblName = none ∧
        merger.mergeRoot.GetTable tblName = some mergeTbl ∧
        st.HashOf mergeTbl = st.HashOf ancTbl) ∨
      (∃ tbl, merger.root.GetTable tblName = some tbl ∧
        merger.mergeRoot.GetTable tblName = none ∧ st.HashOf tbl = st.HashOf ancTbl)) :
    MergeTable st merger tblName false =
      { table := none, stats := some { Operation := TableMergeOp.TableRemoved }
        err := none } := by
  rcases h with ⟨hr, hm⟩ | ⟨mergeTbl, hr, hm, hh⟩ | ⟨tbl, hr, hm, hh⟩
  · simp [MergeTable, initialVars_eq st merger tblName _ _ _ hr hm ha, shortCircuit,
      addedTable, deletedOrFastForward]
  · simp [MergeTable, initialVars_eq st merger tblName _ _ _ hr hm ha, shortCircuit,
      addedTable, deletedOrFastForward, hh]
  · simp [MergeTable, initialVars_eq st merger tblName _ _ _ hr hm ha, shortCircuit,
      addedTable, deletedOrFastForward, hh]

/-- Witness of C13: theirs dropped the table that ours left as in the
ancestor. -/
theorem MergeTable_removed_witness :
    MergeTable scenarioStore
        (mergerOf (scenarioRoot scenarioSchema [(1, [(1, 10)])]) emptyRoot
          (scenarioRoot scenarioSchema [(1, [(1, 10)])])) "t" false =
      { table := none, stats := some { Operation := TableMergeOp.TableRemoved }
        err := none } :=
  MergeTable_removed scenarioStore
    (mergerOf (scenarioRoot scenarioSchema [(1, [(1, 10)])]) emptyRoot
      (scenarioRoot scenarioSchema [(1, [(1, 10)])])) "t"
    { sch := scenarioSchema, rowData := [(1, [(1, 10)])] } rfl
    (Or.inr (Or.inr ⟨{ sch := scenarioSchema, rowData := [(1, [(1, 10)])] }, rfl, rfl, rfl⟩))

/-- C14, as stated, fails: in a cherry-pick where ours added the column `w`
and theirs is the ancestor, the schemas of ours and theirs are unequal and
`MergeTable` returns ours' table with `TableUnmodified` statistics and no
error. -/
theorem MergeTable_cherry_pick_schema_change_unmodified :
    scenarioSchemaW ≠ scenarioSchema ∧
    MergeTable scenarioStore
        (mergerOf (scenarioRoot scenarioSchemaW [(1, [(1, 10)])])
          (scenarioRoot scenarioSchema [(1, [(1, 10)])])
          (scenarioRoot scenarioSchema [(1, [(1, 10)])])) "t" true =
      { table := some { sch := scenarioSchemaW, rowData := [(1, [(1, 10)])] }
        stats := some { Operation := TableMergeOp.TableUnmodified }
        err := none } := by
  refine ⟨by decide, ?_⟩
  decide

/-- C14, amended: for every cherry-pick merge of a table that exists in ours,
in theirs and in the ancestor, whose hash in theirs differs from the ancestor's
hash and from ours' hash, and whose schemas in ours and theirs are unequal,
`MergeTable` fails with the error "schema changes not supported: .. table
schema does not match in current HEAD and cherry-pick commit.". -/
theorem MergeTable_cherry_pick_schema_change (st : Store) (merger : Merger)
    (tblName : String) (tbl mergeTbl ancTbl : Table)
    (hr : merger.root.GetTable tblName = some tbl)
    (hm : merger.mergeRoot.GetTable tblName = some mergeTbl)
    (ha : merger.ancRoot.GetTable tblName = some ancTbl)
    (h1 : st.HashOf mergeTbl ≠ st.HashOf ancTbl) (h2 : st.HashOf tbl ≠ st.HashOf mergeTbl)
    (hsch : tbl.sch ≠ mergeTbl.sch) :
    MergeTable st merger tblName true =
      { table := none, stats := none
        err := some (MergeErr.other ("schema changes not supported: " ++ tblName ++
          " table schema does not match in current HEAD and cherry-pick commit.")) } := by
  simp [MergeTable, initialVars_eq st merger tblName _ _ _ hr hm ha, shortCircuit,
    addedTable, deletedOrFastForward, threeWayMerge, SchemasAreEqual, h1, h2, hsch]

/-- Witness of C14, amended: ours added the column `w`, theirs changed row 1. -/
theorem MergeTable_cherry_pick_schema_change_witness :
    MergeTable scenarioStore
        (mergerOf (scenarioRoot scenarioSchemaW [(1, [(1, 10)])])
          (scenarioRoot scenarioSchema [(1, [(1, 11)])])
          (scenarioRoot scenarioSchema [(1, [(1, 10)])])) "t" true =
      { table := none, stats := none
        err := some (MergeErr.other ("schema changes not supported: " ++ "t" ++
          " table schema does not match in current HEAD and cherry-pick commit.")) } :=
  MergeTable_cherry_pick_schema_change scenarioStore _ "t"
    { sch := scenarioSchemaW, rowData := [(1, [(1, 10)])] }
    { sch := scenarioSchema, rowData := [(1, [(1, 11)])] }
    { sch := scenarioSchema, rowData := [(1, [(1, 10)])] } rfl rfl rfl
    (by decide) (by decide) (by decide)

/-! ### The auto-increment counter -/

/-- C17: when ours' schema has an auto-increment column,
`mergeAutoIncrementValues` returns the result table with its auto-increment
value set to the maximum of ours' and theirs' values, which is at least each of
them and the same with ours and theirs exchanged (when theirs' schema has the
column too); when ours' schema has no auto-increment column it returns the
result table unchanged. -/
theorem mergeAutoIncrementValues_max (tbl otherTbl resultTbl : Table) :
    (HasAutoIncrement tbl.sch = true →
      mergeAutoIncrementValues tbl otherTbl resultTbl =
        { resultTbl with
          autoIncrementValue := max tbl.autoIncrementValue otherTbl.autoIncrementValue } ∧
      tbl.autoIncrementValue ≤
        (mergeAutoIncrementValues tbl otherTbl resultTbl).autoIncrementValue ∧
      otherTbl.autoIncrementValue ≤
        (mergeAutoIncrementValues tbl otherTbl resultTbl).autoIncrementValue ∧
      (HasAutoIncrement otherTbl.sch = true →
        mergeAutoIncrementValues otherTbl tbl resultTbl =
          mergeAutoIncrementValues tbl otherTbl resultTbl)) ∧
    (HasAutoIncrement tbl.sch = false →
      mergeAutoIncrementValues tbl otherTbl resultTbl = resultTbl) := by
  constructor
  · intro h
    have e : mergeAutoIncrementValues tbl otherTbl resultTbl =
        { resultTbl with
          autoIncrementValue := max tbl.autoIncrementValue otherTbl.autoIncrementValue } := by
      simp only [mergeAutoIncrementValues, h, Bool.not_true, Bool.false_eq_true, if_false]
      by_cases hlt : tbl.autoIncrementValue < otherTbl.autoIncrementValue
      · rw [if_pos hlt, Nat.max_eq_right (Nat.le_of_lt hlt)]
      · rw [if_neg hlt, Nat.max_eq_left (Nat.le_of_not_lt hlt)]
    refine ⟨e, ?_, ?_, ?_⟩
    · rw [e]; exact Nat.le_max_left _ _
    · rw [e]; exact Nat.le_max_right _ _
    · intro h2
      rw [e]
      simp only [mergeAutoIncrementValues, h2, Bool.not_true, Bool.false_eq_true, if_false]
      by_cases hlt : otherTbl.autoIncrementValue < tbl.autoIncrementValue
      · rw [if_pos hlt, Nat.max_eq_left (Nat.le_of_lt hlt)]
      · rw [if_neg hlt, Nat.max_eq_right (Nat.le_of_not_lt hlt)]
  · intro h
    simp [mergeAutoIncrementValues, h]

/-- Witness of C17: ours' counter is 5 and theirs' is 9; the merged table gets
9, in either order. -/
theorem mergeAutoIncrementValues_max_witness :
    mergeAutoIncrementValues
        { sch := autoIncSchema, rowData := [], autoIncrementValue := 5 }
        { sch := autoIncSchema, rowData := [], autoIncrementValue := 9 }
        { sch := autoIncSchema, rowData := [(1, [(1, 10)])], autoIncrementValue := 5 } =
      { sch := autoIncSchema, rowData := [(1, [(1, 10)])], autoIncrementValue := 9 } ∧
    mergeAutoIncrementValues
        { sch := autoIncSchema, rowData := [], autoIncrementValue := 9 }
        { sch := autoIncSchema, rowData := [], autoIncrementValue := 5 }
        { sch := autoIncSchema, rowData := [(1, [(1, 10)])], autoIncrementValue := 5 } =
      { sch := autoIncSchema, rowData := [(1, [(1, 10)])], autoIncrementValue := 9 } :=
  ⟨((mergeAutoIncrementValues_max
      { sch := autoIncSchema, rowData := [], autoIncrementValue := 5 }
      { sch := autoIncSchema, rowData := [], autoIncrementValue := 9 }
      { sch := autoIncSchema, rowData := [(1, [(1, 10)])], autoIncrementValue := 5 }).1
      rfl).1.trans rfl,
   ((mergeAutoIncrementValues_max
      { sch := autoIncSchema, rowData := [], autoIncrementValue := 9 }
      { sch := autoIncSchema, rowData := [], autoIncrementValue := 5 }
      { sch := autoIncSchema, rowData := [(1, [(1, 10)])], autoIncrementValue := 5 }).1
      rfl).1.trans rfl⟩

/-! ### The statistics of the row walk -/

/-- Each successful call of the primary-key applicator counts one change. -/
theorem applyNomsPkChange_changes (sch : Schema) (rows : Index) (e e1 : EditState)
    (ch : ValueChanged) (h : applyNomsPkChange sch rows e ch = .ok e1) :
    e1.stats.changes = e.stats.changes + 1 := by
  unfold applyNomsPkChange at h
  cases hct : ch.ChangeType <;>
    simp only [hct, bind, Except.bind, pure, Except.pure] at h <;>
    (repeat' split at h) <;>
    first
      | (cases h; done)
      | (cases h; simp only [MergeStats.changes]; omega)

/-- In a walk of a primary-key table every change of theirs' stream is either
counted by the statistics or recorded as a conflict. -/
theorem mergeWalk_pk_changes (rm : rowMerger) (sch : Schema) (rows : Index)
    (d1 d2 : List ValueChanged) (st : WalkState) :
    ∀ st1, mergeWalk rm applyNomsPkChange sch rows d1 d2 st = .ok st1 →
      st1.edit.stats.changes + st1.conflicts.length =
        st.edit.stats.changes + st.conflicts.length + d2.length := by
  induction d1, d2, st using mergeWalk.induct rm applyNomsPkChange sch rows with
  | case1 st =>
    intro st1 h
    rw [mergeWalk] at h
    cases h
    rfl
  | case2 c cs st ih =>
    intro st1 h
    rw [mergeWalk] at h
    exact ih st1 h
  | case3 mc ms st ih =>
    intro st1 h
    rw [mergeWalk] at h
    cases he : applyNomsPkChange sch rows st.edit mc with
    | error e => simp [he, bind, Except.bind] at h
    | ok e =>
      simp only [he, bind, Except.bind] at h
      have h1 := ih e st1 h
      have h2 := applyNomsPkChange_changes sch rows st.edit e mc he
      simp only [List.length_cons] at h1 ⊢
      omega
  | case4 c cs mc ms st hlt ih =>
    intro st1 h
    rw [mergeWalk, if_pos hlt] at h
    exact ih st1 h
  | case5 c cs mc ms st hnlt hgt ih =>
    intro st1 h
    rw [mergeWalk, if_neg hnlt, if_pos hgt] at h
    cases he : applyNomsPkChange sch rows st.edit mc with
    | error e => simp [he, bind, Except.bind] at h
    | ok e =>
      simp only [he, bind, Except.bind] at h
      have h1 := ih e st1 h
      have h2 := applyNomsPkChange_changes sch rows st.edit e mc he
      simp only [List.length_cons] at h1 ⊢
      omega
  | case6 c cs mc ms st hnlt hngt ih1 ih2 =>
    intro st1 h
    rw [mergeWalk, if_neg hnlt, if_neg hngt] at h
    cases hr : rm sch c.NewValue mc.NewValue c.OldValue with
    | error e => simp [hr, bind, Except.bind] at h
    | ok res =>
      simp only [hr, bind, Except.bind] at h
      cases hconf : res.isConflict with
      | true =>
        simp only [hconf, if_true] at h
        have h1 := ih1 st1 h
        simp only [List.length_append, List.length_cons, List.length_nil] at h1 ⊢
        omega
      | false =>
        simp only [hconf] at h
        cases he : applyNomsPkChange sch rows st.edit
            { ChangeType := c.ChangeType, Key := c.Key,
              OldValue := if res.didCellMerge = true then c.NewValue else c.OldValue,
              NewValue := res.mergedRow } with
        | error e => simp [he] at h
        | ok e =>
          simp only [he] at h
          have h1 := ih2 e st1 h
          have h2 := applyNomsPkChange_changes sch rows st.edit e _ he
          simp only [List.length_cons] at h1 ⊢
          omega

/-- A walk leaves the editor's row as it is at every key that theirs' stream
does not change. -/
theorem mergeWalk_frame_theirs (rm : rowMerger) (ap : applicator) (sch : Schema)
    (rows : Index)
    (hap : ∀ e e1 ch k1, ap sch rows e ch = .ok e1 → k1 ≠ ch.Key →
      e1.tblEdit.MaybeGet k1 = e.tblEdit.MaybeGet k1)
    (k : Key) (d1 d2 : List ValueChanged) (st : WalkState) :
    (∀ mc ∈ d2, mc.Key ≠ k) →
    ∀ st1, mergeWalk rm ap sch rows d1 d2 st = .ok st1 →
      st1.edit.tblEdit.MaybeGet k = st.edit.tblEdit.MaybeGet k := by
  induction d1, d2, st using mergeWalk.induct rm ap sch rows with
  | case1 st =>
    intro _ st1 h
    rw [mergeWalk] at h
    cases h
    rfl
  | case2 c cs st ih =>
    intro h2 st1 h
    rw [mergeWalk] at h
    exact ih h2 st1 h
  | case3 mc ms st ih =>
    intro h2 st1 h
    rw [mergeWalk] at h
    cases he : ap sch rows st.edit mc with
    | error e => simp [he, bind, Except.bind] at h
    | ok e =>
      simp only [he, bind, Except.bind] at h
      have := ih e (fun x hx => h2 x (List.mem_cons_of_mem _ hx)) st1 h
      exact this.trans (hap _ _ _ _ he (fun hk => h2 mc (List.mem_cons_self _ _) hk.symm))
  | case4 c cs mc ms st hlt ih =>
    intro h2 st1 h
    rw [mergeWalk, if_pos hlt] at h
    exact ih h2 st1 h
  | case5 c cs mc ms st hnlt hgt ih =>
    intro h2 st1 h
    rw [mergeWalk, if_neg hnlt, if_pos hgt] at h
    cases he : ap sch rows st.edit mc with
    | error e => simp [he, bind, Except.bind] at h
    | ok e =>
      simp only [he, bind, Except.bind] at h
      have := ih e (fun x hx => h2 x (List.mem_cons_of_mem _ hx)) st1 h
      exact this.trans (hap _ _ _ _ he (fun hk => h2 mc (List.mem_cons_self _ _) hk.symm))
  | case6 c cs mc ms st hnlt hngt ih1 ih2 =>
    intro h2 st1 h
    rw [mergeWalk, if_neg hnlt, if_neg hngt] at h
    have hk : c.Key = mc.Key := Nat.le_antisymm (Nat.le_of_not_lt hngt) (Nat.le_of_not_lt hnlt)
    have hck : c.Key ≠ k := by rw [hk]; exact h2 mc (List.mem_cons_self _ _)
    have hms : ∀ x ∈ ms, x.Key ≠ k := fun x hx => h2 x (List.mem_cons_of_mem _ hx)
    cases hr : rm sch c.NewValue mc.NewValue c.OldValue with
    | error e => simp [hr, bind, Except.bind] at h
    | ok res =>
      simp only [hr, bind, Except.bind] at h
      cases hconf : res.isConflict with
      | true =>
        simp only [hconf, if_true] at h
        exact ih1 hms st1 h
      | false =>
        simp only [hconf] at h
        cases he : ap sch rows st.edit
            { ChangeType := c.ChangeType, Key := c.Key,
              OldValue := if res.didCellMerge = true then c.NewValue else c.OldValue,
              NewValue := res.mergedRow } with
        | error e => simp [he] at h
        | ok e =>
          simp only [he] at h
          have := ih2 e hms st1 h
          exact this.trans (hap _ _ _ _ he (fun hk2 => hck hk2.symm))

/-- Two indexes that agree at every key outside the list `ks` differ at no
more keys than `ks` has. -/
theorem differingKeys_le (a b : Index) (ks : List Key)
    (h : ∀ k, k ∉ ks → a.MaybeGet k = b.MaybeGet k) : differingKeys a b ≤ ks.length := by
  unfold differingKeys
  apply List.Subperm.length_le
  apply List.subperm_of_subset
  · exact (List.nodup_dedup _).filter _
  · intro k hk
    have hne := (List.mem_filter.mp hk).2
    by_contra hnot
    simp [h k hnot] at hne

/-- C15, as stated, fails: the ancestor is `(1,10),(2,20)`, ours and theirs
both changed row 1 to `(1,11)` and theirs changed row 2 to `(2,21)`. The merge
has no conflict and counts two modifications, while the merged index differs
from ours' at one key. -/
theorem mergeNomsTableData_stats_exceed_difference :
    ∃ res, mergeNomsTableData scenarioSchema [(1, [(1, 11)]), (2, [(1, 20)])]
        [(1, [(1, 11)]), (2, [(1, 21)])] [(1, [(1, 10)]), (2, [(1, 20)])]
        [(1, [(1, 11)]), (2, [(1, 20)])] = .ok res ∧
      res.conflicts = [] ∧
      res.stats.Adds + res.stats.Modifications + res.stats.Deletes = 2 ∧
      differingKeys res.mergedRows [(1, [(1, 11)]), (2, [(1, 20)])] = 1 := by
  refine ⟨⟨[(1, [(1, 11)]), (2, [(1, 21)])], [],
    { Operation := TableMergeOp.TableModified, Modifications := 2 }⟩, ?_, rfl, rfl, by decide⟩
  simp [mergeNomsTableData, Index.Diff, mergeWalk, IsKeyless, scenarioSchema,
    Schema.GetPKCols, ColCollection.Size, nomsPkRowMerge, mergeTags, Schema.GetNonPKCols,
    ColCollection.Tags, processTagFunc, TaggedValues.Get, applyNomsPkChange, asTuple,
    UpdateRow, Index.put, bind, Except.bind, pure, Except.pure]

/-- C15, amended: for every three-way row merge of a primary-key table over
ordered indexes, `mergeNomsTableData` returns, and when it produces no conflict
the returned statistics satisfy adds + modifications + deletes = the number of
changes in theirs' diff against the ancestor, which is at least the number of
keys at which the merged row index differs from ours' row index. -/
theorem mergeNomsTableData_stats (sch : Schema) (rows mergeRows ancRows : Index)
    (hrows : rows.Ordered) (hmerge : mergeRows.Ordered) (hanc : ancRows.Ordered)
    (hpk : IsKeyless sch = false) :
    ∃ res, mergeNomsTableData sch rows mergeRows ancRows rows = .ok res ∧
      (res.conflicts = [] →
        res.stats.Adds + res.stats.Modifications + res.stats.Deletes =
          (Index.Diff mergeRows ancRows).length ∧
        differingKeys res.mergedRows rows ≤
          res.stats.Adds + res.stats.Modifications + res.stats.Deletes) := by
  obtain ⟨st, hst⟩ := mergeWalk_pk_total sch rows (Index.Diff rows ancRows)
    (Index.Diff mergeRows ancRows)
    { edit := { tblEdit := rows, stats := { Operation := TableMergeOp.TableModified } },
      conflicts := [] }
    (Diff_ordered rows ancRows hrows hanc) (Diff_ordered mergeRows ancRows hmerge hanc)
    (Diff_wellFormed rows ancRows) (Diff_wellFormed mergeRows ancRows)
    (fun c hc mc hmc hk => by
      rw [(Diff_values rows ancRows hrows hanc c hc).1,
        (Diff_values mergeRows ancRows hmerge hanc mc hmc).1, hk])
    (fun _ _ => rfl)
  refine ⟨{ mergedRows := st.edit.tblEdit, conflicts := st.conflicts,
            stats := st.edit.stats }, ?_, ?_⟩
  · simp only [mergeNomsTableData, hpk, Bool.false_eq_true, if_false, hst, bind, Except.bind,
      pure, Except.pure]
  · intro hnc
    simp only at hnc
    have hcount := mergeWalk_pk_changes nomsPkRowMerge sch rows _ _ _ st hst
    simp only [hnc, List.length_nil, MergeStats.changes, Nat.add_zero, Nat.zero_add] at hcount
    have hsum : st.edit.stats.Adds + st.edit.stats.Modifications + st.edit.stats.Deletes =
        (Index.Diff mergeRows ancRows).length := hcount
    refine ⟨hsum, ?_⟩
    rw [hsum]
    have hle := differingKeys_le st.edit.tblEdit rows
      ((Index.Diff mergeRows ancRows).map (fun c => c.Key))
      (fun k hk => mergeWalk_frame_theirs nomsPkRowMerge applyNomsPkChange sch rows
        (fun e e1 ch k1 => applyNomsPkChange_frame sch rows e e1 ch k1) k _ _ _
        (fun mc hmc hkey => hk (List.mem_map.mpr ⟨mc, hmc, hkey⟩)) st hst)
    simpa using hle

/-- Witness of C15, amended: the ancestor is `(1,10)`, ours is the ancestor
and theirs added row 3. -/
theorem mergeNomsTableData_stats_witness :
    ∃ res, mergeNomsTableData scenarioSchema [(1, [(1, 10)])]
        [(1, [(1, 10)]), (3, [(1, 30)])] [(1, [(1, 10)])] [(1, [(1, 10)])] = .ok res ∧
      (res.conflicts = [] →
        res.stats.Adds + res.stats.Modifications + res.stats.Deletes =
          (Index.Diff [(1, [(1, 10)]), (3, [(1, 30)])] [(1, [(1, 10)])]).length ∧
        differingKeys res.mergedRows [(1, [(1, 10)])] ≤
          res.stats.Adds + res.stats.Modifications + res.stats.Deletes) :=
  mergeNomsTableData_stats scenarioSchema [(1, [(1, 10)])] [(1, [(1, 10)]), (3, [(1, 30)])]
    [(1, [(1, 10)])] (by decide) (by decide) (by decide) (by decide)

/-- The primary-key applicator counts a modified key as one modification and
nothing else. -/
theorem applyNomsPkChange_modified (sch : Schema) (rows : Index) (e e1 : EditState)
    (ch : ValueChanged) (hct : ch.ChangeType = DiffChangeType.DiffChangeModified)
    (h : applyNomsPkChange sch rows e ch = .ok e1) :
    e1.stats = { e.stats with Modifications := e.stats.Modifications + 1 } := by
  unfold applyNomsPkChange at h
  simp only [hct, bind, Except.bind, pure, Except.pure] at h
  repeat' split at h
  all_goals first
    | (cases h; done)
    | (cases h; rfl)

/-- A walk over two streams without a common key, theirs holding modified keys
only, records no conflict and counts one modification for each change of
theirs. -/
theorem mergeWalk_disjoint_modified (rm : rowMerger) (sch : Schema) (rows : Index)
    (d1 d2 : List ValueChanged) (st : WalkState) :
    (∀ c ∈ d1, ∀ mc ∈ d2, c.Key ≠ mc.Key) →
    (∀ mc ∈ d2, mc.ChangeType = DiffChangeType.DiffChangeModified) →
    ∀ st1, mergeWalk rm applyNomsPkChange sch rows d1 d2 st = .ok st1 →
      st1.conflicts = st.conflicts ∧
      st1.edit.stats =
        { st.edit.stats with Modifications := st.edit.stats.Modifications + d2.length } := by
  induction d1, d2, st using mergeWalk.induct rm applyNomsPkChange sch rows with
  | case1 st =>
    intro _ _ st1 h
    rw [mergeWalk] at h
    cases h
    exact ⟨rfl, rfl⟩
  | case2 c cs st ih =>
    intro hd hm st1 h
    rw [mergeWalk] at h
    exact ih (fun x hx y hy => hd x (List.mem_cons_of_mem _ hx) y hy) hm st1 h
  | case3 mc ms st ih =>
    intro hd hm st1 h
    rw [mergeWalk] at h
    cases he : applyNomsPkChange sch rows st.edit mc with
    | error e => simp [he, bind, Except.bind] at h
    | ok e =>
      simp only [he, bind, Except.bind] at h
      have h1 := ih e (fun x hx y _ => absurd hx (List.not_mem_nil x))
        (fun x hx => hm x (List.mem_cons_of_mem _ hx)) st1 h
      have h2 := applyNomsPkChange_modified sch rows st.edit e mc
        (hm mc (List.mem_cons_self _ _)) he
      refine ⟨h1.1, ?_⟩
      rw [h1.2]
      simp only [h2, List.length_cons]
      congr 1
      omega
  | case4 c cs mc ms st hlt ih =>
    intro hd hm st1 h
    rw [mergeWalk, if_pos hlt] at h
    exact ih (fun x hx y hy => hd x (List.mem_cons_of_mem _ hx) y hy) hm st1 h
  | case5 c cs mc ms st hnlt hgt ih =>
    intro hd hm st1 h
    rw [mergeWalk, if_neg hnlt, if_pos hgt] at h
    cases he : applyNomsPkChange sch rows st.edit mc with
    | error e => simp [he, bind, Except.bind] at h
    | ok e =>
      simp only [he, bind, Except.bind] at h
      have h1 := ih e (fun x hx y hy => hd x hx y (List.mem_cons_of_mem _ hy))
        (fun x hx => hm x (List.mem_cons_of_mem _ hx)) st1 h
      have h2 := applyNomsPkChange_modified sch rows st.edit e mc
        (hm mc (List.mem_cons_self _ _)) he
      refine ⟨h1.1, ?_⟩
      rw [h1.2]
      simp only [h2, List.length_cons]
      congr 1
      omega
  | case6 c cs mc ms st hnlt hngt ih1 ih2 =>
    intro hd hm st1 h
    exact absurd (Nat.le_antisymm (Nat.le_of_not_lt hngt) (Nat.le_of_not_lt hnlt))
      (hd c (List.mem_cons_self _ _) mc (List.mem_cons_self _ _))

/-- C16, as stated, fails on scenario S1: the ancestor is `(1,10),(2,20)`, ours
changed row 2 and theirs changed row 1. The merge has no conflict and reports
one modification, while two keys were modified on either side. -/
theorem mergeNomsTableData_independent_edits_one_modification :
    ∃ res, mergeNomsTableData scenarioSchema [(1, [(1, 10)]), (2, [(1, 21)])]
        [(1, [(1, 11)]), (2, [(1, 20)])] [(1, [(1, 10)]), (2, [(1, 20)])]
        [(1, [(1, 10)]), (2, [(1, 21)])] = .ok res ∧
      res.conflicts = [] ∧
      res.stats.Modifications = 1 ∧
      (Index.Diff [(1, [(1, 10)]), (2, [(1, 21)])] [(1, [(1, 10)]), (2, [(1, 20)])]).length +
        (Index.Diff [(1, [(1, 11)]), (2, [(1, 20)])] [(1, [(1, 10)]), (2, [(1, 20)])]).length
        = 2 := by
  refine ⟨⟨[(1, [(1, 11)]), (2, [(1, 21)])], [],
    { Operation := TableMergeOp.TableModified, Modifications := 1 }⟩, ?_, rfl, rfl, ?_⟩
  · simp [mergeNomsTableData, Index.Diff, mergeWalk, IsKeyless, scenarioSchema,
      Schema.GetPKCols, ColCollection.Size, applyNomsPkChange, asTuple,
      UpdateRow, Index.put, bind, Except.bind, pure, Except.pure]
  · simp [Index.Diff]

/-- C16, amended: when theirs only modifies existing rows of a primary-key
table, at keys that ours did not change (so also when ours and theirs each
modify existing rows at disjoint sets of keys, without inserts or deletes), the
old-format merge returns, produces no conflict, and its statistics report no
adds, no deletes and a modifications count equal to the number of keys modified
by theirs; the keys changed by ours are not counted. -/
theorem mergeNomsTableData_independent_edits (sch : Schema)
    (rows mergeRows ancRows : Index)
    (hrows : rows.Ordered) (hmerge : mergeRows.Ordered) (hanc : ancRows.Ordered)
    (hpk : IsKeyless sch = false)
    (h2 : ∀ mc ∈ Index.Diff mergeRows ancRows,
      mc.ChangeType = DiffChangeType.DiffChangeModified)
    (hd : ∀ c ∈ Index.Diff rows ancRows, ∀ mc ∈ Index.Diff mergeRows ancRows,
      c.Key ≠ mc.Key) :
    ∃ res, mergeNomsTableData sch rows mergeRows ancRows rows = .ok res ∧
      res.conflicts = [] ∧
      res.stats = { Operation := TableMergeOp.TableModified
                    Modifications := (Index.Diff mergeRows ancRows).length } := by
  obtain ⟨st, hst⟩ := mergeWalk_pk_total sch rows (Index.Diff rows ancRows)
    (Index.Diff mergeRows ancRows)
    { edit := { tblEdit := rows, stats := { Operation := TableMergeOp.TableModified } },
      conflicts := [] }
    (Diff_ordered rows ancRows hrows hanc) (Diff_ordered mergeRows ancRows hmerge hanc)
    (Diff_wellFormed rows ancRows) (Diff_wellFormed mergeRows ancRows)
    (fun c hc mc hmc hk => absurd hk (hd c hc mc hmc))
    (fun _ _ => rfl)
  have hw := mergeWalk_disjoint_modified nomsPkRowMerge sch rows _ _ _ hd h2 st hst
  refine ⟨{ mergedRows := st.edit.tblEdit, conflicts := st.conflicts,
            stats := st.edit.stats }, ?_, hw.1, ?_⟩
  · simp only [mergeNomsTableData, hpk, Bool.false_eq_true, if_false, hst, bind, Except.bind,
      pure, Except.pure]
  · simp only [hw.2, Nat.zero_add]

/-- Witness of C16, amended, on scenario S1: one modification, that of
theirs. -/
theorem mergeNomsTableData_independent_edits_witness :
    ∃ res, mergeNomsTableData scenarioSchema [(1, [(1, 10)]), (2, [(1, 21)])]
        [(1, [(1, 11)]), (2, [(1, 20)])] [(1, [(1, 10)]), (2, [(1, 20)])]
        [(1, [(1, 10)]), (2, [(1, 21)])] = .ok res ∧
      res.conflicts = [] ∧
      res.stats = { Operation := TableMergeOp.TableModified
                    Modifications := (Index.Diff [(1, [(1, 11)]), (2, [(1, 20)])]
                      [(1, [(1, 10)]), (2, [(1, 20)])]).length } :=
  mergeNomsTableData_independent_edits scenarioSchema [(1, [(1, 10)]), (2, [(1, 21)])]
    [(1, [(1, 11)]), (2, [(1, 20)])] [(1, [(1, 10)]), (2, [(1, 20)])]
    (by decide) (by decide) (by decide) (by decide)
    (by simp [Index.Diff]) (by simp [Index.Diff])


/-! ### Conflict compatibility gating -/

/-- C18: conflict compatibility gating. If ours' table already has conflicts
and the column collection of one of its stored (base, ours, theirs) conflict
schemas differs from that of the current (ancestor, ours, theirs) schema, then
`isNewConflictsCompatible` returns false, `mergeTableData` fails with
`ErrConflictsIncompatible` as soon as the row merge has sent a conflict record,
and the aborting processor then adds no artifact and leaves the statistics as
they are; when the conflict channel is closed without a record the processor
returns no error, and so does `mergeTableData`. -/
theorem conflict_compatibility_gating (tbl : Table) (eBase eOurs eTheirs : Schema)
    (ancSchema rootSchema mergeSchema : Schema)
    (hhas : tbl.HasConflicts = true)
    (hsch : tbl.conflictSchemas = some (eBase, eOurs, eTheirs))
    (hdiff : eBase.GetAllCols ≠ ancSchema.GetAllCols ∨
      eOurs.GetAllCols ≠ rootSchema.GetAllCols ∨
      eTheirs.GetAllCols ≠ mergeSchema.GetAllCols) :
    isNewConflictsCompatible tbl ancSchema rootSchema mergeSchema = .ok false ∧
    (∀ c cs updatedTable cmHash mergeTblHash ancTblHash,
      mergeTableData (c :: cs) updatedTable rootSchema mergeSchema ancSchema tbl cmHash
        mergeTblHash ancTblHash = .error MergeErr.ErrConflictsIncompatible) ∧
    (∀ stats c cs artEditor,
      abortingProcessor.process stats (c :: cs) artEditor =
        { stats := stats, artEditor := artEditor
          err := some MergeErr.ErrConflictsIncompatible }) ∧
    (∀ stats artEditor,
      abortingProcessor.process stats [] artEditor =
        { stats := stats, artEditor := artEditor, err := none }) ∧
    (∀ updatedTable cmHash mergeTblHash ancTblHash,
      mergeTableData [] updatedTable rootSchema mergeSchema ancSchema tbl cmHash
        mergeTblHash ancTblHash =
        .ok ({ updatedTable with artifacts := tbl.artifacts },
          { Operation := TableMergeOp.TableModified })) := by
  have hcan : isNewConflictsCompatible tbl ancSchema rootSchema mergeSchema = .ok false := by
    simp only [isNewConflictsCompatible, hhas, Bool.not_true, Bool.false_eq_true, if_false,
      Table.GetConflictSchemas, hsch, ColCollsAreEqual]
    rw [if_neg]
    intro h
    simp only [Bool.and_eq_true, beq_iff_eq] at h
    rcases hdiff with h1 | h1 | h1
    · exact h1 h.1.1
    · exact h1 h.1.2
    · exact h1 h.2
  refine ⟨hcan, ?_, ?_, ?_, ?_⟩
  · intro c cs updatedTable cmHash mergeTblHash ancTblHash
    simp [mergeTableData, hcan, conflictProcessor.process, abortingProcessor.process]
  · intro stats c cs artEditor
    rfl
  · intro stats artEditor
    rfl
  · intro updatedTable cmHash mergeTblHash ancTblHash
    simp [mergeTableData, hcan, conflictProcessor.process, abortingProcessor.process]

/-- Witness of C18: ours' table holds a conflict of an earlier merge under the
scenario schema and has since got the column `w`; a merge that sends one
conflict record fails. -/
theorem conflict_compatibility_gating_witness :
    mergeTableData [⟨some [some [1]], some [some [11]], some [some [12]], some [some [10]]⟩]
        conflictedTable scenarioSchemaW scenarioSchema scenarioSchema conflictedTable
        Hash.zero Hash.zero Hash.zero =
      .error MergeErr.ErrConflictsIncompatible :=
  (conflict_compatibility_gating conflictedTable scenarioSchema scenarioSchema scenarioSchema
    scenarioSchema scenarioSchemaW scenarioSchema (by decide) rfl
    (Or.inr (Or.inl (by decide)))).2.1 _ _ _ _ _ _

/-! ### The stashes of `MergeRoots` -/

/-- C19: in the old storage format, once the tables and the foreign keys have
merged without error (and the stashed constraint violations have been merged
in), `MergeRoots` fails with `ErrCantOverwriteConflicts` if and only if the
conflict stash taken from ours is not empty and the statistics of at least one
table report `Conflicts > 0`; if the stash is not empty and no table reports a
conflict, the stashed conflicts are re-applied to the merged root. -/
theorem MergeRoots_conflict_stash (st : Store) (ops : RootOps)
    (theirRootIsh ancRootIsh : Hash) (ourRoot theirRoot ancRoot : RootValue)
    (isCherryPick : Bool) (hfmt : st.IsFormat_DOLT_1 = false)
    (mergedRoot : RootValue) (tblToStats : StatsMap)
    (hphase : mergeTablesAndForeignKeys st ops theirRootIsh ancRootIsh
      (stashConflicts ourRoot).1 theirRoot (stashViolations ancRoot).1 isCherryPick =
        .ok (mergedRoot, tblToStats))
    (withCVs : RootValue)
    (hcv : mergeCVsWithStash mergedRoot (stashViolations ancRoot).2 = .ok withCVs) :
    (MergeRoots st ops theirRootIsh ancRootIsh ourRoot theirRoot ancRoot isCherryPick =
        .error MergeErr.ErrCantOverwriteConflicts ↔
      (stashConflicts ourRoot).2.Empty = false ∧
        ∃ e ∈ getConflictAndConstraintViolationStats withCVs tblToStats, e.2.Conflicts > 0) ∧
    ((stashConflicts ourRoot).2.Empty = false →
      (∀ e ∈ getConflictAndConstraintViolationStats withCVs tblToStats, e.2.Conflicts = 0) →
      MergeRoots st ops theirRootIsh ancRootIsh ourRoot theirRoot ancRoot isCherryPick =
        .ok (applyConflictStash (stashConflicts ourRoot).2.Stash withCVs,
          getConflictAndConstraintViolationStats withCVs tblToStats)) := by
  have hcheck : checkForConflicts (getConflictAndConstraintViolationStats withCVs tblToStats)
      = true ↔
      ∃ e ∈ getConflictAndConstraintViolationStats withCVs tblToStats, e.2.Conflicts > 0 := by
    simp [checkForConflicts, List.any_eq_true]
  simp only [MergeRoots, hfmt, Bool.false_eq_true, if_false, hphase, hcv]
  cases hempty : (stashConflicts ourRoot).2.Empty with
  | true =>
    simp
  | false =>
    by_cases hc : checkForConflicts
        (getConflictAndConstraintViolationStats withCVs tblToStats) = true
    · constructor
      · simp [hc, hcheck.mp hc]
      · intro _ hnone
        obtain ⟨e, he, hpos⟩ := hcheck.mp hc
        have := hnone e he
        omega
    · have hno : ¬ ∃ e ∈ getConflictAndConstraintViolationStats withCVs tblToStats,
          e.2.Conflicts > 0 := fun h => hc (hcheck.mpr h)
      constructor
      · simp [hc, hno]
      · intro _ _
        simp [hc]

/-- Witness of C19: ours' table holds a stashed conflict, theirs is the
ancestor; no table reports a conflict and the stashed conflict is back in the
merged root. -/
theorem MergeRoots_conflict_stash_witness :
    MergeRoots scenarioStore scenarioRootOps Hash.zero Hash.zero conflictedRoot
        (scenarioRoot scenarioSchema [(1, [(1, 10)])])
        (scenarioRoot scenarioSchema [(1, [(1, 10)])]) false =
      .ok (conflictedRoot, [("t", { Operation := TableMergeOp.TableUnmodified })]) :=
  ((MergeRoots_conflict_stash scenarioStore scenarioRootOps Hash.zero Hash.zero
      conflictedRoot (scenarioRoot scenarioSchema [(1, [(1, 10)])])
      (scenarioRoot scenarioSchema [(1, [(1, 10)])]) false rfl
      (scenarioRoot scenarioSchema [(1, [(1, 11)])])
      [("t", { Operation := TableMergeOp.TableUnmodified })] rfl
      (scenarioRoot scenarioSchema [(1, [(1, 11)])]) rfl).2 rfl (by decide)).trans rfl

/-- C20, the code at the failing input: the root has the tables `a` and `b`,
and the stash holds a violation for each. The root that `mergeCVsWithStash`
returns has the stashed violation of `b`, the entry processed last, and none
for `a`. -/
theorem mergeCVsWithStash_keeps_last_only :
    mergeCVsWithStash twoTableRoot ⟨[("a", [(1, 100)]), ("b", [(2, 200)])]⟩ =
      .ok ⟨[("a", { sch := scenarioSchema, rowData := [] }),
            ("b", { sch := scenarioSchema, rowData := [], constraintViolations := [(2, 200)] })]⟩ :=
  rfl


/-! ### The table loop of `MergeRoots` -/

theorem beq_false_of_ne_str {a b : String} (h : a ≠ b) : (a == b) = false := by
  simp [h]

theorem find?_map_update {β : Type} (l : List (String × β)) (n n1 : String) (t : β) :
    (l.map (fun e => if e.1 == n then (n, t) else e)).find? (fun e => e.1 == n1) =
      if n1 = n then (l.find? (fun e => e.1 == n)).map (fun _ => (n, t))
      else l.find? (fun e => e.1 == n1) := by
  induction l with
  | nil => simp
  | cons e rest ih =>
    simp only [List.map_cons, List.find?_cons]
    by_cases he : e.1 = n
    · have hb : (e.1 == n) = true := by simp [he]
      simp only [hb, if_true]
      by_cases hn : n1 = n
      · subst hn
        simp only [beq_self_eq_true, if_true, Option.map_some']
      · have hb2 : (n == n1) = false := beq_false_of_ne_str (fun x => hn x.symm)
        have hb3 : (e.1 == n1) = false := beq_false_of_ne_str (fun x => hn (x.symm.trans he))
        simp only [hb2, hb3, ih, hn, if_false]
    · have hb : (e.1 == n) = false := beq_false_of_ne_str he
      simp only [hb, Bool.false_eq_true, if_false, ih]
      by_cases h3 : e.1 = n1
      · have hb3 : (e.1 == n1) = true := by simp [h3]
        have hn : ¬ n1 = n := fun x => he (h3.trans x)
        simp only [hb3, hn, if_false]
      · have hb3 : (e.1 == n1) = false := beq_false_of_ne_str h3
        simp only [hb3]

theorem find?_append_new {β : Type} (l : List (String × β)) (n n1 : String) (t : β)
    (h : l.find? (fun e => e.1 == n) = none) :
    (l ++ [(n, t)]).find? (fun e => e.1 == n1) =
      if n1 = n then some (n, t) else l.find? (fun e => e.1 == n1) := by
  rw [List.find?_append]
  by_cases hn : n1 = n
  · subst hn
    rw [h, if_pos rfl]
    simp
  · rw [if_neg hn]
    have hb2 : (n == n1) = false := beq_false_of_ne_str (fun x => hn x.symm)
    cases hf : l.find? (fun e => e.1 == n1) with
    | none => simp [List.find?_cons, hb2]
    | some x => simp

/-- Reading a root after `PutTable`. -/
theorem GetTable_PutTable (r : RootValue) (n n1 : String) (t : Table) :
    (r.PutTable n t).GetTable n1 = if n1 = n then some t else r.GetTable n1 := by
  unfold RootValue.PutTable RootValue.HasTable RootValue.GetTable
  cases hf : r.tables.find? (fun e => e.1 == n) with
  | some x =>
    simp only [Option.map_some', Option.isSome_some, if_true]
    rw [find?_map_update, hf]
    by_cases hn : n1 = n
    · simp [hn]
    · simp [hn]
  | none =>
    simp only [Option.map_none', Option.isSome_none, Bool.false_eq_true, if_false]
    rw [find?_append_new _ _ _ _ hf]
    by_cases hn : n1 = n
    · simp [hn]
    · simp [hn]

/-- Reading a root after `RemoveTables`. -/
theorem GetTable_RemoveTables (r : RootValue) (n n1 : String) :
    (r.RemoveTables n).GetTable n1 = if n1 = n then none else r.GetTable n1 := by
  unfold RootValue.RemoveTables RootValue.GetTable
  generalize r.tables = l
  induction l with
  | nil => simp
  | cons e rest ih =>
    simp only [List.filter_cons, List.find?_cons]
    by_cases he : e.1 = n
    · have hb : (e.1 != n) = false := by simp [he]
      simp only [hb, Bool.false_eq_true, if_false, ih]
      by_cases hn : n1 = n
      · simp only [hn, if_true]
      · have hb3 : (e.1 == n1) = false := beq_false_of_ne_str (fun x => hn (x.symm.trans he))
        simp only [hn, if_false, hb3]
    · have hb : (e.1 != n) = true := by simp [he]
      simp only [hb, if_true, List.find?_cons]
      by_cases h3 : e.1 = n1
      · have hb3 : (e.1 == n1) = true := by simp [h3]
        have hn : ¬ n1 = n := fun x => he (h3.trans x)
        simp only [hb3, hn, if_false]
      · have hb3 : (e.1 == n1) = false := beq_false_of_ne_str h3
        simp only [hb3]
        exact ih

/-- Reading the statistics map after an assignment. -/
theorem StatsMap_get_set (m : StatsMap) (n n1 : String) (s : MergeStats) :
    StatsMap.get (StatsMap.set m n s) n1 = if n1 = n then some s else StatsMap.get m n1 := by
  unfold StatsMap.set StatsMap.get
  cases hf : m.find? (fun e => e.1 == n) with
  | some x =>
    have hany : m.any (fun e => e.1 == n) = true := by
      rw [List.any_eq_true]
      have hx := List.find?_some hf
      exact ⟨x, List.mem_of_find?_eq_some hf, hx⟩
    rw [if_pos hany, find?_map_update, hf]
    by_cases hn : n1 = n
    · simp [hn]
    · simp [hn]
  | none =>
    have hany : ¬ m.any (fun e => e.1 == n) = true := by
      rw [List.any_eq_true]
      rintro ⟨x, hx, hxn⟩
      exact (List.find?_eq_none.mp hf) x hx hxn
    rw [if_neg hany, find?_append_new _ _ _ _ hf]
    by_cases hn : n1 = n
    · simp [hn]
    · simp [hn]

theorem eraseDups_loop_nodup (as bs : List String) (h : bs.Nodup) :
    (List.eraseDups.loop as bs).Nodup := by
  induction as generalizing bs with
  | nil => simpa [List.eraseDups.loop] using h
  | cons a rest ih =>
    rw [List.eraseDups.loop]
    cases he : bs.elem a with
    | true => exact ih bs h
    | false =>
      apply ih
      rw [List.nodup_cons]
      refine ⟨?_, h⟩
      intro hm
      rw [List.elem_eq_mem, decide_eq_false_iff_not] at he
      exact he hm

theorem eraseDups_loop_mem (as bs : List String) (x : String) :
    x ∈ List.eraseDups.loop as bs ↔ x ∈ as ∨ x ∈ bs := by
  induction as generalizing bs with
  | nil => simp [List.eraseDups.loop]
  | cons a rest ih =>
    rw [List.eraseDups.loop]
    cases he : bs.elem a with
    | true =>
      rw [List.elem_eq_mem, decide_eq_true_iff] at he
      simp only [ih, List.mem_cons]
      constructor
      · rintro (h | h)
        · exact Or.inl (Or.inr h)
        · exact Or.inr h
      · rintro ((h | h) | h)
        · exact Or.inr (h ▸ he)
        · exact Or.inl h
        · exact Or.inr h
    | false =>
      simp only [ih, List.mem_cons]
      constructor
      · rintro (h | h | h)
        · exact Or.inl (Or.inr h)
        · exact Or.inl (Or.inl h)
        · exact Or.inr h
      · rintro ((h | h) | h)
        · exact Or.inr (Or.inl h)
        · exact Or.inl h
        · exact Or.inr (Or.inr h)

/-- The names of the union are pairwise different. -/
theorem UnionTableNames_nodup (a b : RootValue) : (UnionTableNames a b).Nodup :=
  eraseDups_loop_nodup _ [] List.nodup_nil

/-- A name is in the union exactly when one of the roots lists it. -/
theorem mem_UnionTableNames (a b : RootValue) (x : String) :
    x ∈ UnionTableNames a b ↔
      x ∈ a.tables.map (fun e => e.1) ∨ x ∈ b.tables.map (fun e => e.1) := by
  unfold UnionTableNames List.eraseDups
  rw [eraseDups_loop_mem]
  simp

/-- The table loop over pairwise different names, started at the root `r0` and
the statistics `s0`: what the merged root and the statistics hold afterwards. -/
theorem mergeTablesLoop_effect (st : Store) (merger : Merger) (isCherryPick : Bool)
    (names : List String) :
    names.Nodup → ∀ (r0 : RootValue) (s0 : StatsMap) (mergedRoot : RootValue)
      (tblToStats : StatsMap),
    mergeTablesLoop st merger isCherryPick names r0 s0 = .ok (mergedRoot, tblToStats) →
    (∀ n ∈ names,
      (∀ t, (MergeTable st merger n isCherryPick).table = some t →
        mergedRoot.GetTable n = some t ∧
        StatsMap.get tblToStats n = (MergeTable st merger n isCherryPick).stats) ∧
      ((MergeTable st merger n isCherryPick).table = none → r0.HasTable n = true →
        mergedRoot.GetTable n = none ∧
        StatsMap.get tblToStats n = some { Operation := TableMergeOp.TableRemoved })) ∧
    (∀ n, n ∉ names →
      mergedRoot.GetTable n = r0.GetTable n ∧ StatsMap.get tblToStats n = StatsMap.get s0 n) := by
  induction names with
  | nil =>
    intro _ r0 s0 mergedRoot tblToStats h
    rw [mergeTablesLoop] at h
    cases h
    exact ⟨fun n hn => (by cases hn), fun n _ => ⟨rfl, rfl⟩⟩
  | cons tblName rest ih =>
    intro hnd r0 s0 mergedRoot tblToStats h
    rw [List.nodup_cons] at hnd
    obtain ⟨hnotin, hrest⟩ := hnd
    rw [mergeTablesLoop] at h
    cases herr : (MergeTable st merger tblName isCherryPick).err with
    | some e => simp [herr] at h
    | none =>
      simp only [herr] at h
      cases htab : (MergeTable st merger tblName isCherryPick).table with
      | some mergedTable =>
        cases hstats : (MergeTable st merger tblName isCherryPick).stats with
        | none => simp [htab, hstats] at h
        | some stats =>
          simp only [htab, hstats] at h
          obtain ⟨ih1, ih2⟩ := ih hrest _ _ _ _ h
          have hself := ih2 tblName hnotin
          rw [GetTable_PutTable, StatsMap_get_set, if_pos rfl, if_pos rfl] at hself
          refine ⟨?_, ?_⟩
          · intro n hn
            rcases List.mem_cons.mp hn with hn | hn
            · subst hn
              refine ⟨fun t ht => ?_, fun hnone _ => ?_⟩
              · rw [htab] at ht
                cases ht
                exact ⟨hself.1, by rw [hstats]; exact hself.2⟩
              · rw [htab] at hnone
                cases hnone
            · have hne : n ≠ tblName := fun x => hnotin (x ▸ hn)
              refine ⟨(ih1 n hn).1, fun hnone hhas => (ih1 n hn).2 hnone ?_⟩
              simp only [RootValue.HasTable, GetTable_PutTable, if_neg hne]
              exact hhas
          · intro n hn
            have hne : n ≠ tblName := fun x => hn (x ▸ List.mem_cons_self _ _)
            have := ih2 n (fun x => hn (List.mem_cons_of_mem _ x))
            rw [GetTable_PutTable, StatsMap_get_set, if_neg hne, if_neg hne] at this
            exact this
      | none =>
        simp only [htab] at h
        cases hhas : r0.HasTable tblName with
        | true =>
          simp only [hhas, if_true] at h
          obtain ⟨ih1, ih2⟩ := ih hrest _ _ _ _ h
          have hself := ih2 tblName hnotin
          rw [GetTable_RemoveTables, StatsMap_get_set, if_pos rfl, if_pos rfl] at hself
          refine ⟨?_, ?_⟩
          · intro n hn
            rcases List.mem_cons.mp hn with hn | hn
            · subst hn
              refine ⟨fun t ht => ?_, fun _ _ => hself⟩
              rw [htab] at ht
              cases ht
            · have hne : n ≠ tblName := fun x => hnotin (x ▸ hn)
              refine ⟨(ih1 n hn).1, fun hnone hh => (ih1 n hn).2 hnone ?_⟩
              simp only [RootValue.HasTable, GetTable_RemoveTables, if_neg hne]
              exact hh
          · intro n hn
            have hne : n ≠ tblName := fun x => hn (x ▸ List.mem_cons_self _ _)
            have := ih2 n (fun x => hn (List.mem_cons_of_mem _ x))
            rw [GetTable_RemoveTables, StatsMap_get_set, if_neg hne, if_neg hne] at this
            exact this
        | false =>
          simp only [hhas, Bool.false_eq_true, if_false] at h
          cases hstats : (MergeTable st merger tblName isCherryPick).stats with
          | none => simp [hstats] at h
          | some s =>
            simp only [hstats] at h
            split at h
            · cases h
            · obtain ⟨ih1, ih2⟩ := ih hrest _ _ _ _ h
              refine ⟨?_, ?_⟩
              · intro n hn
                rcases List.mem_cons.mp hn with hn | hn
                · subst hn
                  refine ⟨fun t ht => ?_, fun _ hh => ?_⟩
                  · rw [htab] at ht
                    cases ht
                  · rw [hhas] at hh
                    cases hh
                · exact ih1 n hn
              · intro n hn
                exact ih2 n (fun x => hn (List.mem_cons_of_mem _ x))

/-- C21: after the table loop of `MergeRoots` has run without error over the
union of ours' and theirs' table names, for every name of the union: if
`MergeTable` returned a table, the merged root maps the name to that table and
the statistics map holds the returned statistics; if it returned no table and
the merged root had the table, the merged root no longer has it and its
statistics are `TableRemoved`; every other name reads as in ours' root. -/
theorem MergeRoots_table_loop (st : Store) (theirRootIsh ancRootIsh : Hash)
    (ourRoot theirRoot ancRoot : RootValue) (isCherryPick : Bool)
    (mergedRoot : RootValue) (tblToStats : StatsMap)
    (h : mergeTablesLoop st ⟨theirRootIsh, ancRootIsh, ourRoot, theirRoot, ancRoot⟩ isCherryPick
      (UnionTableNames ourRoot theirRoot) ourRoot [] = .ok (mergedRoot, tblToStats)) :
    (∀ n ∈ UnionTableNames ourRoot theirRoot,
      (∀ t, (MergeTable st ⟨theirRootIsh, ancRootIsh, ourRoot, theirRoot, ancRoot⟩ n
          isCherryPick).table = some t →
        mergedRoot.GetTable n = some t ∧
        StatsMap.get tblToStats n =
          (MergeTable st ⟨theirRootIsh, ancRootIsh, ourRoot, theirRoot, ancRoot⟩ n
            isCherryPick).stats) ∧
      ((MergeTable st ⟨theirRootIsh, ancRootIsh, ourRoot, theirRoot, ancRoot⟩ n
          isCherryPick).table = none → ourRoot.HasTable n = true →
        mergedRoot.GetTable n = none ∧
        StatsMap.get tblToStats n = some { Operation := TableMergeOp.TableRemoved })) ∧
    (∀ n, n ∉ UnionTableNames ourRoot theirRoot →
      mergedRoot.GetTable n = ourRoot.GetTable n ∧ StatsMap.get tblToStats n = none) :=
  mergeTablesLoop_effect st _ isCherryPick _ (UnionTableNames_nodup ourRoot theirRoot)
    ourRoot [] mergedRoot tblToStats h

/-- Witness of C21: ours and the ancestor hold the table `u`, theirs dropped
it and created `t`. After the loop the merged root maps `t` to theirs' table
with `TableAdded` statistics and has no `u`, whose statistics are
`TableRemoved`. -/
theorem MergeRoots_table_loop_witness :
    mergeTablesLoop scenarioStore ⟨Hash.zero, Hash.zero, loopOurRoot, loopTheirRoot, loopOurRoot⟩
        false (UnionTableNames loopOurRoot loopTheirRoot) loopOurRoot [] =
      .ok (loopTheirRoot,
           [("u", { Operation := TableMergeOp.TableRemoved }),
            ("t", { Operation := TableMergeOp.TableAdded })]) ∧
    (loopTheirRoot.GetTable "t" =
        some { sch := scenarioSchema, rowData := [(1, [(1, 11)])] } ∧
      StatsMap.get [("u", { Operation := TableMergeOp.TableRemoved }),
          ("t", { Operation := TableMergeOp.TableAdded })] "t" =
        some { Operation := TableMergeOp.TableAdded }) ∧
    (loopTheirRoot.GetTable "u" = none ∧
      StatsMap.get [("u", { Operation := TableMergeOp.TableRemoved }),
          ("t", { Operation := TableMergeOp.TableAdded })] "u" =
        some { Operation := TableMergeOp.TableRemoved }) :=
  have h := MergeRoots_table_loop scenarioStore Hash.zero Hash.zero loopOurRoot loopTheirRoot
    loopOurRoot false loopTheirRoot
    [("u", { Operation := TableMergeOp.TableRemoved }),
     ("t", { Operation := TableMergeOp.TableAdded })] rfl
  ⟨rfl,
   (h.1 "t" (by decide)).1 { sch := scenarioSchema, rowData := [(1, [(1, 11)])] } rfl,
   (h.1 "u" (by decide)).2 rfl rfl⟩


/-! ### The walk as a pass over theirs' changes -/

theorem foldlM_congr_mem {α β : Type} (f g : β → α → Except String β) (l : List α)
    (h : ∀ a ∈ l, ∀ b, f b a = g b a) (b : β) :
    l.foldlM f b = l.foldlM g b := by
  induction l generalizing b with
  | nil => rfl
  | cons a rest ih =>
    rw [List.foldlM_cons, List.foldlM_cons, h a (List.mem_cons_self _ _) b]
    congr 1
    funext b1
    exact ih (fun x hx => h x (List.mem_cons_of_mem _ hx)) b1

theorem reconcileTheirs_cons_ne (rm : rowMerger) (ap : applicator) (sch : Schema)
    (rows : Index) (c : ValueChanged) (cs : List ValueChanged) (st : WalkState)
    (mc : ValueChanged) (h : c.Key ≠ mc.Key) :
    reconcileTheirs rm ap sch rows (c :: cs) st mc = reconcileTheirs rm ap sch rows cs st mc := by
  have hb : (c.Key == mc.Key) = false := by simp [h]
  simp only [reconcileTheirs, List.find?_cons, hb]

/-- The walk over two ordered streams is one pass over theirs' changes, each
reconciled against ours' stream. -/
theorem mergeWalk_eq_foldlM (rm : rowMerger) (ap : applicator) (sch : Schema) (rows : Index)
    (d1 d2 : List ValueChanged) (st : WalkState) :
    changesOrdered d1 → changesOrdered d2 →
    mergeWalk rm ap sch rows d1 d2 st = d2.foldlM (reconcileTheirs rm ap sch rows d1) st := by
  induction d1, d2, st using mergeWalk.induct rm ap sch rows with
  | case1 st =>
    intro _ _
    rw [mergeWalk]
    rfl
  | case2 c cs st ih =>
    intro o1 o2
    rw [mergeWalk, ih ((changesOrdered_cons c cs).mp o1).2 o2]
    rfl
  | case3 mc ms st ih =>
    intro o1 o2
    rw [mergeWalk, List.foldlM_cons]
    have hstep : reconcileTheirs rm ap sch rows [] st mc =
        (do let e ← ap sch rows st.edit mc; return { st with edit := e }) := rfl
    rw [hstep]
    cases he : ap sch rows st.edit mc with
    | error e => rfl
    | ok e =>
      simp only [bind, Except.bind, pure, Except.pure]
      exact ih e o1 ((changesOrdered_cons mc ms).mp o2).2
  | case4 c cs mc ms st hlt ih =>
    intro o1 o2
    rw [mergeWalk, if_pos hlt, ih ((changesOrdered_cons c cs).mp o1).2 o2]
    apply foldlM_congr_mem
    intro x hx b
    symm
    apply reconcileTheirs_cons_ne
    rcases List.mem_cons.mp hx with hx | hx
    · rw [hx]; exact Nat.ne_of_lt hlt
    · exact Nat.ne_of_lt (Nat.lt_trans hlt (((changesOrdered_cons mc ms).mp o2).1 x hx))
  | case5 c cs mc ms st hnlt hgt ih =>
    intro o1 o2
    rw [mergeWalk, if_neg hnlt, if_pos hgt, List.foldlM_cons]
    have hfind : (c :: cs).find? (fun x => x.Key == mc.Key) = none := by
      rw [List.find?_eq_none]
      intro x hx
      have hle : mc.Key < x.Key := by
        rcases List.mem_cons.mp hx with hx | hx
        · rw [hx]; exact hgt
        · exact Nat.lt_trans hgt (((changesOrdered_cons c cs).mp o1).1 x hx)
      simp [Nat.ne_of_gt hle]
    have hstep : reconcileTheirs rm ap sch rows (c :: cs) st mc =
        (do let e ← ap sch rows st.edit mc; return { st with edit := e }) := by
      simp only [reconcileTheirs, hfind]
    rw [hstep]
    cases he : ap sch rows st.edit mc with
    | error e => rfl
    | ok e =>
      simp only [bind, Except.bind, pure, Except.pure]
      exact ih e o1 ((changesOrdered_cons mc ms).mp o2).2
  | case6 c cs mc ms st hnlt hngt ih1 ih2 =>
    intro o1 o2
    have hk : c.Key = mc.Key := Nat.le_antisymm (Nat.le_of_not_lt hngt) (Nat.le_of_not_lt hnlt)
    have hb : (c.Key == mc.Key) = true := by simp [hk]
    have hcs := ((changesOrdered_cons c cs).mp o1).2
    have hms := ((changesOrdered_cons mc ms).mp o2).2
    have hcongr : ∀ b, ms.foldlM (reconcileTheirs rm ap sch rows cs) b =
        ms.foldlM (reconcileTheirs rm ap sch rows (c :: cs)) b := by
      intro b
      apply foldlM_congr_mem
      intro x hx b1
      symm
      apply reconcileTheirs_cons_ne
      rw [hk]
      exact Nat.ne_of_lt (((changesOrdered_cons mc ms).mp o2).1 x hx)
    rw [mergeWalk, if_neg hnlt, if_neg hngt, List.foldlM_cons]
    simp only [reconcileTheirs, List.find?_cons, hb]
    cases hr : rm sch c.NewValue mc.NewValue c.OldValue with
    | error e => rfl
    | ok res =>
      simp only [bind, Except.bind, pure, Except.pure]
      cases hconf : res.isConflict with
      | true =>
        simp only [if_true]
        rw [ih1 hcs hms]
        exact hcongr _
      | false =>
        simp only [Bool.false_eq_true, if_false]
        cases he : ap sch rows st.edit
            { ChangeType := c.ChangeType, Key := c.Key,
              OldValue := if res.didCellMerge = true then c.NewValue else c.OldValue,
              NewValue := res.mergedRow } with
        | error e => rfl
        | ok e =>
          simp only []
          rw [ih2 e hcs hms]
          exact hcongr _

/-- In an ordered stream the search by key finds the change that has the key. -/
theorem find?_key_of_mem (d : List ValueChanged) (c : ValueChanged) (k : Key)
    (ho : changesOrdered d) (hc : c ∈ d) (hk : c.Key = k) :
    d.find? (fun x => x.Key == k) = some c := by
  induction d with
  | nil => cases hc
  | cons x rest ih =>
    obtain ⟨hlt, hrest⟩ := (changesOrdered_cons x rest).mp ho
    rcases List.mem_cons.mp hc with hx | hx
    · subst hx
      have hb : (c.Key == k) = true := by simp [hk]
      simp only [List.find?_cons, hb]
    · have hne : x.Key ≠ k := by
        rw [← hk]
        exact Nat.ne_of_lt (hlt c hx)
      have hb : (x.Key == k) = false := by simp [hne]
      simp only [List.find?_cons, hb]
      exact ih hrest hx

theorem find?_key_none (d : List ValueChanged) (k : Key) (h : ∀ c ∈ d, c.Key ≠ k) :
    d.find? (fun x => x.Key == k) = none := by
  rw [List.find?_eq_none]
  intro x hx
  simp [h x hx]

/-- C24: the reconciliation walk over two key-ordered diff streams `d1` (ours
against the ancestor) and `d2` (theirs against the ancestor) is a total
function, and it is one pass over theirs' changes in key order: (a) a change
that only ours made takes no step, so nothing is applied for its key; (b) for
a key that only theirs changed the step is the applicator on theirs' change,
unchanged; (c) for a key that both changed the step is one call of the row
merger on ours' row, theirs' row and the base row, followed by the record of
the conflict or the application of the merged change. With no key in common
the walk applies theirs' changes, in order, to the editor opened on ours'
index. -/
theorem mergeWalk_reconciliation (rm : rowMerger) (ap : applicator) (sch : Schema)
    (rows : Index) (d1 d2 : List ValueChanged) (st : WalkState)
    (o1 : changesOrdered d1) (o2 : changesOrdered d2) :
    mergeWalk rm ap sch rows d1 d2 st = d2.foldlM (reconcileTheirs rm ap sch rows d1) st ∧
    (∀ mc ∈ d2, (∀ c ∈ d1, c.Key ≠ mc.Key) → ∀ s : WalkState,
      reconcileTheirs rm ap sch rows d1 s mc =
        (ap sch rows s.edit mc).map (fun e => { s with edit := e })) ∧
    (∀ mc ∈ d2, ∀ c ∈ d1, c.Key = mc.Key → ∀ s : WalkState,
      reconcileTheirs rm ap sch rows d1 s mc =
        (rm sch c.NewValue mc.NewValue c.OldValue).bind (fun res =>
          if res.isConflict then
            .ok { s with
              conflicts := s.conflicts ++ [(c.Key, ⟨c.OldValue, c.NewValue, mc.NewValue⟩)] }
          else
            (ap sch rows s.edit
              { ChangeType := c.ChangeType, Key := c.Key, NewValue := res.mergedRow,
                OldValue := if res.didCellMerge then c.NewValue else c.OldValue }).map
              (fun e => { s with edit := e }))) ∧
    ((∀ c ∈ d1, ∀ mc ∈ d2, c.Key ≠ mc.Key) →
      mergeWalk rm ap sch rows d1 d2 st =
        d2.foldlM (fun s mc => (ap sch rows s.edit mc).map (fun e => { s with edit := e }))
          st) := by
  have hstep : ∀ mc, (∀ c ∈ d1, c.Key ≠ mc.Key) → ∀ s : WalkState,
      reconcileTheirs rm ap sch rows d1 s mc =
        (ap sch rows s.edit mc).map (fun e => { s with edit := e }) := by
    intro mc hmc s
    simp only [reconcileTheirs, find?_key_none d1 mc.Key hmc]
    cases ap sch rows s.edit mc <;> rfl
  refine ⟨mergeWalk_eq_foldlM rm ap sch rows d1 d2 st o1 o2, fun mc _ h s => hstep mc h s,
    ?_, ?_⟩
  · intro mc _ c hc hk s
    simp only [reconcileTheirs, find?_key_of_mem d1 c mc.Key o1 hc hk]
    cases rm sch c.NewValue mc.NewValue c.OldValue with
    | error e => rfl
    | ok res =>
      simp only [bind, Except.bind, pure, Except.pure]
      cases res.isConflict with
      | true => rfl
      | false =>
        simp only [Bool.false_eq_true, if_false]
        cases ap sch rows s.edit
            { ChangeType := c.ChangeType, Key := c.Key,
              OldValue := if res.didCellMerge = true then c.NewValue else c.OldValue,
              NewValue := res.mergedRow } <;> rfl
  · intro hd
    rw [mergeWalk_eq_foldlM rm ap sch rows d1 d2 st o1 o2]
    apply foldlM_congr_mem
    intro mc hmc s
    exact hstep mc (fun c hc => hd c hc mc hmc) s

/-- Witness of C24, scenario S1: the ancestor is `(1,10),(2,20)`, ours changed
row 2 to `(2,21)` and theirs changed row 1 to `(1,11)`; the walk ends with the
index `(1,11),(2,21)` and no conflict. -/
theorem mergeWalk_reconciliation_witness :
    Index.Diff [(1, [(1, 10)]), (2, [(1, 21)])] [(1, [(1, 10)]), (2, [(1, 20)])] =
      [⟨DiffChangeType.DiffChangeModified, 2, some [(1, 20)], some [(1, 21)]⟩] ∧
    Index.Diff [(1, [(1, 11)]), (2, [(1, 20)])] [(1, [(1, 10)]), (2, [(1, 20)])] =
      [⟨DiffChangeType.DiffChangeModified, 1, some [(1, 10)], some [(1, 11)]⟩] ∧
    mergeWalk nomsPkRowMerge applyNomsPkChange scenarioSchema [(1, [(1, 10)]), (2, [(1, 21)])]
        [⟨DiffChangeType.DiffChangeModified, 2, some [(1, 20)], some [(1, 21)]⟩]
        [⟨DiffChangeType.DiffChangeModified, 1, some [(1, 10)], some [(1, 11)]⟩]
        { edit := { tblEdit := [(1, [(1, 10)]), (2, [(1, 21)])]
                    stats := { Operation := TableMergeOp.TableModified } }
          conflicts := [] } =
      .ok { edit := { tblEdit := [(1, [(1, 11)]), (2, [(1, 21)])]
                      stats := { Operation := TableMergeOp.TableModified, Modifications := 1 } }
            conflicts := [] } :=
  ⟨by simp [Index.Diff], by simp [Index.Diff],
   ((mergeWalk_reconciliation nomsPkRowMerge applyNomsPkChange scenarioSchema
      [(1, [(1, 10)]), (2, [(1, 21)])]
      [⟨DiffChangeType.DiffChangeModified, 2, some [(1, 20)], some [(1, 21)]⟩]
      [⟨DiffChangeType.DiffChangeModified, 1, some [(1, 10)], some [(1, 11)]⟩]
      { edit := { tblEdit := [(1, [(1, 10)]), (2, [(1, 21)])]
                  stats := { Operation := TableMergeOp.TableModified } }
        conflicts := [] }
      (by decide) (by decide)).2.2.2 (by decide)).trans rfl⟩

/-! ### Keyless tables: every co-change is a conflict -/

/-- When ours changed every key that theirs changed, the pass with the keyless
row merger records one conflict for each change of theirs and leaves the editor
and the statistics as they are. -/
theorem foldlM_keyless_all_conflict (ap : applicator) (sch : Schema) (rows : Index)
    (d1 d2 : List ValueChanged) (st : WalkState)
    (h : ∀ mc ∈ d2, ∃ c ∈ d1, c.Key = mc.Key) :
    ∃ st1, d2.foldlM (reconcileTheirs keylessRowMerge ap sch rows d1) st = .ok st1 ∧
      st1.edit = st.edit ∧
      st1.conflicts.map (fun e => e.1) = st.conflicts.map (fun e => e.1) ++
        d2.map (fun mc => mc.Key) := by
  induction d2 generalizing st with
  | nil => exact ⟨st, rfl, rfl, by simp⟩
  | cons mc ms ih =>
    obtain ⟨c, hc, hk⟩ := h mc (List.mem_cons_self _ _)
    cases hf : d1.find? (fun x => x.Key == mc.Key) with
    | none =>
      have := (List.find?_eq_none.mp hf) c hc
      simp [hk] at this
    | some c1 =>
      have hk1 : c1.Key = mc.Key := by
        have := List.find?_some hf
        simpa using this
      obtain ⟨st1, h1, h2, h3⟩ := ih
        { st with conflicts := st.conflicts ++
            [(c1.Key, ⟨c1.OldValue, c1.NewValue, mc.NewValue⟩)] }
        (fun x hx => h x (List.mem_cons_of_mem _ hx))
      refine ⟨st1, ?_, h2, ?_⟩
      · rw [List.foldlM_cons]
        simp only [reconcileTheirs, hf, keylessRowMerge, bind, Except.bind, pure, Except.pure,
          if_true]
        exact h1
      · rw [h3]
        simp [hk1]

/-- C22: for a keyless schema the row walk of `mergeNomsTableData` runs with
`keylessRowMerge`, which reports a conflict on every input. Hence, over ordered
indexes, every key that both diff streams change yields exactly one conflict
record, with the (base, ours, theirs) rows, and no applied change: the editor's
row at the key stays as it was. When ours changed every key that theirs
changed, the merge returns with the editor and the statistics untouched and
one conflict for each change of theirs. -/
theorem keyless_always_conflict (sch : Schema) (hkl : IsKeyless sch = true)
    (rows mergeRows ancRows tblEdit : Index)
    (hrows : rows.Ordered) (hmerge : mergeRows.Ordered) (hanc : ancRows.Ordered) :
    (mergeNomsTableData sch rows mergeRows ancRows tblEdit =
      (mergeWalk keylessRowMerge applyKeylessChange sch rows (Index.Diff rows ancRows)
        (Index.Diff mergeRows ancRows)
        { edit := { tblEdit := tblEdit, stats := { Operation := TableMergeOp.TableModified } },
          conflicts := [] }).map
        (fun st => { mergedRows := st.edit.tblEdit, conflicts := st.conflicts,
                     stats := st.edit.stats })) ∧
    (∀ r m b, keylessRowMerge sch r m b = .ok ⟨none, false, true⟩) ∧
    (∀ res, mergeNomsTableData sch rows mergeRows ancRows tblEdit = .ok res →
      ∀ k, k ∈ (Index.Diff rows ancRows).map (fun c => c.Key) →
        k ∈ (Index.Diff mergeRows ancRows).map (fun c => c.Key) →
        res.conflicts.filter (fun e => e.1 == k) =
          [(k, ⟨ancRows.MaybeGet k, rows.MaybeGet k, mergeRows.MaybeGet k⟩)] ∧
        res.mergedRows.MaybeGet k = tblEdit.MaybeGet k) ∧
    ((∀ mc ∈ Index.Diff mergeRows ancRows, ∃ c ∈ Index.Diff rows ancRows, c.Key = mc.Key) →
      ∃ res, mergeNomsTableData sch rows mergeRows ancRows tblEdit = .ok res ∧
        res.mergedRows = tblEdit ∧
        res.stats = { Operation := TableMergeOp.TableModified } ∧
        res.conflicts.map (fun e => e.1) =
          (Index.Diff mergeRows ancRows).map (fun mc => mc.Key)) := by
  have hdef : mergeNomsTableData sch rows mergeRows ancRows tblEdit =
      (mergeWalk keylessRowMerge applyKeylessChange sch rows (Index.Diff rows ancRows)
        (Index.Diff mergeRows ancRows)
        { edit := { tblEdit := tblEdit, stats := { Operation := TableMergeOp.TableModified } },
          conflicts := [] }).map
        (fun st => { mergedRows := st.edit.tblEdit, conflicts := st.conflicts,
                     stats := st.edit.stats }) := by
    simp only [mergeNomsTableData, hkl, if_true, bind, Except.bind, pure, Except.pure]
    cases mergeWalk keylessRowMerge applyKeylessChange sch rows (Index.Diff rows ancRows)
        (Index.Diff mergeRows ancRows)
        { edit := { tblEdit := tblEdit, stats := { Operation := TableMergeOp.TableModified } },
          conflicts := [] } <;> rfl
  refine ⟨hdef, fun _ _ _ => rfl, ?_, ?_⟩
  · intro res hres k hk1 hk2
    obtain ⟨st, hst, rfl⟩ := mergeNomsTableData_eq_ok sch rows mergeRows ancRows tblEdit res hres
    simp only [hkl, if_true] at hst
    obtain ⟨c0, hc0, hck⟩ := List.mem_map.mp hk1
    obtain ⟨mc0, hmc0, hmck⟩ := List.mem_map.mp hk2
    have hv1 := Diff_values rows ancRows hrows hanc c0 hc0
    have hv2 := Diff_values mergeRows ancRows hmerge hanc mc0 hmc0
    rw [hck] at hv1
    rw [hmck] at hv2
    have := mergeWalk_conflict keylessRowMerge applyKeylessChange sch rows
      (fun e e1 ch k1 => applyKeylessChange_frame sch rows e e1 ch k1) k c0 mc0
      hck hmck ⟨none, false, true⟩ rfl rfl _ _ _ (Diff_ordered rows ancRows hrows hanc)
      (Diff_ordered mergeRows ancRows hmerge hanc) hc0 hmc0 st hst
    rw [hv1.1, hv1.2, hv2.2] at this
    simpa using this
  · intro hall
    obtain ⟨st1, h1, h2, h3⟩ := foldlM_keyless_all_conflict applyKeylessChange sch rows
      (Index.Diff rows ancRows) (Index.Diff mergeRows ancRows)
      { edit := { tblEdit := tblEdit, stats := { Operation := TableMergeOp.TableModified } },
        conflicts := [] } hall
    rw [← mergeWalk_eq_foldlM keylessRowMerge applyKeylessChange sch rows _ _ _
      (Diff_ordered rows ancRows hrows hanc) (Diff_ordered mergeRows ancRows hmerge hanc)] at h1
    refine ⟨{ mergedRows := st1.edit.tblEdit, conflicts := st1.conflicts,
              stats := st1.edit.stats }, ?_, ?_, ?_, ?_⟩
    · rw [hdef, h1]
      rfl
    · simp only [h2]
    · simp only [h2]
    · simpa using h3

/-- Witness of C22, scenario S6: the keyless ancestor holds the rows `(a)` and
`(b)`, and ours and theirs both added the row `(c)`. The merge returns one
conflict, at the surrogate key of `(c)`, and the editor keeps ours' rows. -/
theorem keyless_always_conflict_witness :
    ∃ res, mergeNomsTableData keylessSchema keylessWithC keylessWithC keylessBase keylessWithC =
        .ok res ∧
      res.mergedRows = keylessWithC ∧
      res.stats = { Operation := TableMergeOp.TableModified } ∧
      res.conflicts.map (fun e => e.1) = [3] := by
  obtain ⟨res, h1, h2, h3, h4⟩ :=
    (keyless_always_conflict keylessSchema (by decide) keylessWithC keylessWithC keylessBase
      keylessWithC (by decide) (by decide) (by decide)).2.2.2
      (fun mc hmc => ⟨mc, hmc, rfl⟩)
  refine ⟨res, h1, h2, h3, ?_⟩
  rw [h4]
  simp [Index.Diff, keylessWithC, keylessBase]


/-! ### The in-memory table -/

/-- Writing valid rows appends them, in order, without error. -/
theorem writeRows_valid {Row : Type} (IsValid : Row → Schema → Bool)
    (w : InMemTableWriter Row) (rs : List Row) (h : ∀ r ∈ rs, IsValid r w.tt.sch = true) :
    (writeRows IsValid w rs).1.tt.sch = w.tt.sch ∧
    (writeRows IsValid w rs).1.tt.rows = w.tt.rows ++ rs ∧
    (writeRows IsValid w rs).2 = List.replicate rs.length none := by
  induction rs generalizing w with
  | nil => simp [writeRows]
  | cons r rest ih =>
    have hr := h r (List.mem_cons_self _ _)
    have hw : w.WriteRow IsValid r = (⟨{ w.tt with rows := w.tt.rows ++ [r] }⟩, none) := by
      simp [InMemTableWriter.WriteRow, InMemTable.AppendRow, hr]
    obtain ⟨h1, h2, h3⟩ := ih ⟨{ w.tt with rows := w.tt.rows ++ [r] }⟩
      (fun x hx => h x (List.mem_cons_of_mem _ hx))
    simp only [writeRows, hw]
    refine ⟨h1, ?_, ?_⟩
    · rw [h2]
      simp
    · rw [h3]
      rfl

/-- Reading from position `i` of a table returns the rows from `i` on, in
order, and leaves the reader at the end. -/
theorem readRows_from {Row : Type} (imt : InMemTable Row) (n i : Nat)
    (h : i + n = imt.rows.length) :
    readRows (⟨imt, i⟩ : InMemTableReader Row) n =
      .ok ((imt.rows.drop i).map (fun r => (some r, none)), ⟨imt, (imt.rows.length : Nat)⟩) := by
  induction n generalizing i with
  | zero =>
    have hi : i = imt.rows.length := by omega
    subst hi
    simp [readRows]
  | succ n ih =>
    have hi : i < imt.rows.length := by omega
    have hlt : ((i : Int) < (imt.rows.length : Int)) := by exact_mod_cast hi
    have hnn : ¬ ((i : Int) < 0) := by omega
    have hread : (⟨imt, i⟩ : InMemTableReader Row).ReadRow =
        .ok ((some imt.rows[i], none), ⟨imt, ((i + 1 : Nat) : Int)⟩) := by
      simp only [InMemTableReader.ReadRow, InMemTable.NumRows, hlt, if_true, sliceAtInt, hnn,
        if_false, Int.toNat_ofNat, sliceAt, List.getElem?_eq_getElem hi, bind, Except.bind,
        pure, Except.pure]
      rfl
    rw [readRows, hread]
    simp only [bind, Except.bind, pure, Except.pure]
    rw [ih (i + 1) (by omega)]
    simp only [Except.ok.injEq, Prod.mk.injEq, and_true]
    rw [List.drop_eq_getElem_cons hi]
    rfl

/-- At the end of the table every read returns `io.EOF`. -/
theorem readRows_at_end {Row : Type} (imt : InMemTable Row) (m : Nat) :
    readRows (⟨imt, (imt.rows.length : Nat)⟩ : InMemTableReader Row) m =
      .ok (List.replicate m (none, some TableError.EOF), ⟨imt, (imt.rows.length : Nat)⟩) := by
  induction m with
  | zero => rfl
  | succ m ih =>
    have hread : (⟨imt, (imt.rows.length : Nat)⟩ : InMemTableReader Row).ReadRow =
        .ok ((none, some TableError.EOF), ⟨imt, (imt.rows.length : Nat)⟩) := by
      simp [InMemTableReader.ReadRow, InMemTable.NumRows, pure, Except.pure]
    rw [readRows, hread]
    simp only [bind, Except.bind, pure, Except.pure]
    rw [ih]
    rfl

/-- C23: write/read round trip of the in-memory table. For every list of rows
that are valid for the schema, writing them in order to an empty `InMemTable`
through an `InMemTableWriter` returns no error, and `NumRows` is then the
number of rows written; reading that many rows with a fresh `InMemTableReader`
returns exactly the written rows, in order, each without error, and every
further `ReadRow` returns `io.EOF`. -/
theorem InMemTable_round_trip {Row : Type} (IsValid : Row → Schema → Bool) (sch : Schema)
    (rs : List Row) (h : ∀ r ∈ rs, IsValid r sch = true) :
    (writeRows IsValid (NewInMemTableWriter (NewInMemTable sch)) rs).2 =
      List.replicate rs.length none ∧
    (writeRows IsValid (NewInMemTableWriter (NewInMemTable sch)) rs).1.tt.NumRows = rs.length ∧
    ∃ rd,
      readRows (NewInMemTableReader
          (writeRows IsValid (NewInMemTableWriter (NewInMemTable sch)) rs).1.tt) rs.length =
        .ok (rs.map (fun r => (some r, none)), rd) ∧
      ∀ m, readRows rd m = .ok (List.replicate m (none, some TableError.EOF), rd) := by
  obtain ⟨_, h2, h3⟩ := writeRows_valid IsValid (NewInMemTableWriter (NewInMemTable sch)) rs h
  have hrows : (writeRows IsValid (NewInMemTableWriter (NewInMemTable sch)) rs).1.tt.rows = rs := by
    rw [h2]
    rfl
  refine ⟨h3, ?_, ?_⟩
  · simp only [InMemTable.NumRows, hrows]
  · generalize (writeRows IsValid (NewInMemTableWriter (NewInMemTable sch)) rs).1.tt = imt at hrows
    refine ⟨⟨imt, (imt.rows.length : Nat)⟩, ?_, readRows_at_end imt⟩
    have := readRows_from imt rs.length 0 (by rw [hrows]; simp)
    rw [hrows] at this
    simpa [NewInMemTableReader, hrows] using this

/-- Witness of C23 with natural numbers as rows, all valid: the rows 5, 7, 9
are written and read back, and the fourth read returns `io.EOF`. -/
theorem InMemTable_round_trip_witness :
    ∃ rd,
      readRows (NewInMemTableReader
          (writeRows (fun (_ : Nat) _ => true) (NewInMemTableWriter (NewInMemTable scenarioSchema))
            [5, 7, 9]).1.tt) 3 =
        .ok ([(some 5, none), (some 7, none), (some 9, none)], rd) ∧
      readRows rd 1 = .ok ([(none, some TableError.EOF)], rd) := by
  obtain ⟨rd, h1, h2⟩ :=
    (InMemTable_round_trip (fun (_ : Nat) _ => true) scenarioSchema [5, 7, 9]
      (fun _ _ => rfl)).2.2
  exact ⟨rd, h1, h2 1⟩

/-- C30, the code at the failing input: a reader on a table with one row is
closed and then read. `Close` leaves `current = -1`, which is below `NumRows`,
so `ReadRow` indexes the row slice at `-1`: a runtime panic, neither a row nor
`io.EOF`. -/
theorem ReadRow_after_Close_panics :
    (InMemTableReader.Close
        (NewInMemTableReader (NewInMemTableWithData scenarioSchema [(5 : Nat)]))).1.ReadRow =
      .error "index out of range" :=
  rfl


/-! ### Cardinality accounting of keyless tables -/

/-- C25, as stated, fails: the old cardinality is 1 and the new cardinality is
`2^63 + 1`, so the new one is the larger, but `int64(newCard)` is negative and
`convertValueChanged` returns a removal, with the new value cleared, to be
applied `2^63` times, where the claim has an addition. -/
theorem convertValueChanged_large_cardinality :
    convertValueChanged
        ⟨DiffChangeType.DiffChangeModified, 1, some [(0, 1)], some [(0, 9223372036854775809)]⟩ =
      .ok (⟨DiffChangeType.DiffChangeRemoved, 1, some [(0, 1)], none⟩, 9223372036854775808) := by
  rfl

theorem toInt64_of_small (n : Nat) (h : n < 9223372036854775808) : toInt64 (n : Int) = n := by
  unfold toInt64
  omega

theorem toInt64_of_diff (a b : Nat) (ha : a < 9223372036854775808)
    (hb : b < 9223372036854775808) : toInt64 ((a : Int) - (b : Int)) = (a : Int) - (b : Int) := by
  unfold toInt64
  omega

theorem toUint64_of_small (n : Nat) (h : n < 18446744073709551616) :
    toUint64 (n : Int) = n := by
  unfold toUint64
  omega

/-- The function `convertValueChanged` reads the two cardinalities first. -/
theorem convertValueChanged_bind (vc : ValueChanged) :
    convertValueChanged vc =
      (cardOf vc.OldValue).bind (fun oldCard =>
        (cardOf vc.NewValue).bind (fun newCard =>
          match vc.ChangeType with
          | DiffChangeType.DiffChangeRemoved => .ok (vc, oldCard)
          | DiffChangeType.DiffChangeAdded => .ok (vc, newCard)
          | DiffChangeType.DiffChangeModified =>
            if toInt64 (toInt64 newCard - toInt64 oldCard) > 0 then
              .ok ({ vc with ChangeType := DiffChangeType.DiffChangeAdded, OldValue := none },
                   toUint64 (toInt64 (toInt64 newCard - toInt64 oldCard)))
            else if toInt64 (toInt64 newCard - toInt64 oldCard) < 0 then
              .ok ({ vc with ChangeType := DiffChangeType.DiffChangeRemoved, NewValue := none },
                   toUint64 (toInt64 (-(toInt64 (toInt64 newCard - toInt64 oldCard)))))
            else
              .error "diff with delta = 0 for key")) := by
  cases hov : vc.OldValue <;> cases hnv : vc.NewValue <;>
    simp only [convertValueChanged, cardOf, hov, hnv] <;> rfl

/-- What `convertValueChanged` returns, from the two cardinalities it reads. -/
theorem convertValueChanged_eq (vc : ValueChanged) (o n : Nat)
    (ho : cardOf vc.OldValue = .ok o) (hn : cardOf vc.NewValue = .ok n) :
    convertValueChanged vc =
      match vc.ChangeType with
      | DiffChangeType.DiffChangeRemoved => .ok (vc, o)
      | DiffChangeType.DiffChangeAdded => .ok (vc, n)
      | DiffChangeType.DiffChangeModified =>
        if toInt64 (toInt64 n - toInt64 o) > 0 then
          .ok ({ vc with ChangeType := DiffChangeType.DiffChangeAdded, OldValue := none },
               toUint64 (toInt64 (toInt64 n - toInt64 o)))
        else if toInt64 (toInt64 n - toInt64 o) < 0 then
          .ok ({ vc with ChangeType := DiffChangeType.DiffChangeRemoved, NewValue := none },
               toUint64 (toInt64 (-(toInt64 (toInt64 n - toInt64 o)))))
        else
          .error "diff with delta = 0 for key" := by
  rw [convertValueChanged_bind, ho, hn]
  rfl

theorem raise_raise (s : MergeStats) (ct : DiffChangeType) (a b : Nat) :
    (s.raise ct a).raise ct b = s.raise ct (a + b) := by
  cases ct <;> simp [MergeStats.raise, Nat.add_assoc]

theorem raise_zero (s : MergeStats) (ct : DiffChangeType) : s.raise ct 0 = s := by
  cases ct <;> rfl

/-- One call of the closure `apply` raises the counter of the change's type by
one. -/
theorem applyKeylessOnce_stats (st st1 : EditState) (ch : ValueChanged)
    (h : applyKeylessOnce st ch = .ok st1) : st1.stats = st.stats.raise ch.ChangeType 1 := by
  unfold applyKeylessOnce at h
  cases hct : ch.ChangeType <;>
    simp only [hct, bind, Except.bind, pure, Except.pure] at h <;>
    (repeat' split at h) <;>
    first
      | (cases h; done)
      | (cases h; rfl)

/-- The loop of `applyKeylessChange` raises the counter of the change's type by
the number of its rounds. -/
theorem applyTimes_stats (ch : ValueChanged) (card : Nat) (st st1 : EditState)
    (h : applyTimes ch card st = .ok st1) : st1.stats = st.stats.raise ch.ChangeType card := by
  induction card generalizing st with
  | zero =>
    cases h
    exact (raise_zero _ _).symm
  | succ card ih =>
    rw [applyTimes] at h
    cases h1 : applyKeylessOnce st ch with
    | error e => simp [h1, bind, Except.bind] at h
    | ok st2 =>
      simp only [h1, bind, Except.bind] at h
      rw [ih st2 h, applyKeylessOnce_stats st st2 ch h1, raise_raise, Nat.add_comm]

theorem setCard_ne_nil (row : NomsRow) (n : Nat) (h : row ≠ []) : setCard row n ≠ [] := by
  cases row with
  | nil => exact absurd rfl h
  | cons p rest => simp [setCard]

theorem keylessCard_ok_of_ne_nil (row : NomsRow) (h : row ≠ []) :
    ∃ c, keylessCard row = .ok c := by
  cases row with
  | nil => exact absurd rfl h
  | cons p rest => exact ⟨_, rfl⟩

theorem ne_nil_of_keylessCard_ok (row : NomsRow) (c : Nat) (h : keylessCard row = .ok c) :
    row ≠ [] := by
  cases row with
  | nil => cases h
  | cons p rest => simp

theorem rowsHaveCard_put (ed : Index) (k : Key) (v : NomsRow) (h : ed.rowsHaveCard)
    (hv : v ≠ []) : (ed.put k v).rowsHaveCard := by
  intro k1 row hrow
  rw [MaybeGet_put] at hrow
  split at hrow
  · cases hrow
    exact hv
  · exact h k1 row hrow

theorem rowsHaveCard_del (ed : Index) (k : Key) (h : ed.rowsHaveCard) :
    (ed.del k).rowsHaveCard := by
  intro k1 row hrow
  rw [MaybeGet_del] at hrow
  split at hrow
  · cases hrow
  · exact h k1 row hrow

/-- One insert or one delete of a keyless row whose cardinality field is there
returns, and every row of the editor keeps its cardinality field. -/
theorem applyKeylessOnce_total (st : EditState) (ch : ValueChanged)
    (hed : st.tblEdit.rowsHaveCard)
    (hch : (ch.ChangeType = DiffChangeType.DiffChangeAdded ∧
        ∃ v, ch.NewValue = some v ∧ v ≠ []) ∨
      (ch.ChangeType = DiffChangeType.DiffChangeRemoved ∧ ∃ v, ch.OldValue = some v)) :
    ∃ st1, applyKeylessOnce st ch = .ok st1 ∧ st1.tblEdit.rowsHaveCard := by
  rcases hch with ⟨hct, v, hv, hne⟩ | ⟨hct, v, hv⟩
  · cases hget : st.tblEdit.MaybeGet ch.Key with
    | none =>
      refine ⟨⟨st.tblEdit.put ch.Key (setCard v 1),
        { st.stats with Adds := st.stats.Adds + 1 }⟩, ?_,
        rowsHaveCard_put st.tblEdit ch.Key (setCard v 1) hed (setCard_ne_nil v 1 hne)⟩
      simp [applyKeylessOnce, hct, hv, asTuple, KeylessInsertRow, hget, bind, Except.bind,
        pure, Except.pure]
    | some old =>
      obtain ⟨c, hc⟩ := keylessCard_ok_of_ne_nil old (hed _ _ hget)
      refine ⟨⟨st.tblEdit.put ch.Key (setCard old (c + 1)),
        { st.stats with Adds := st.stats.Adds + 1 }⟩, ?_,
        rowsHaveCard_put st.tblEdit ch.Key (setCard old (c + 1)) hed
          (setCard_ne_nil old _ (hed _ _ hget))⟩
      simp [applyKeylessOnce, hct, hv, asTuple, KeylessInsertRow, hget, hc, bind, Except.bind,
        pure, Except.pure]
  · cases hget : st.tblEdit.MaybeGet ch.Key with
    | none =>
      refine ⟨⟨st.tblEdit, { st.stats with Deletes := st.stats.Deletes + 1 }⟩, ?_, hed⟩
      simp [applyKeylessOnce, hct, hv, asTuple, KeylessDeleteByKey, hget, bind, Except.bind,
        pure, Except.pure]
    | some old =>
      obtain ⟨c, hc⟩ := keylessCard_ok_of_ne_nil old (hed _ _ hget)
      by_cases hle : c ≤ 1
      · refine ⟨⟨st.tblEdit.del ch.Key, { st.stats with Deletes := st.stats.Deletes + 1 }⟩, ?_,
          rowsHaveCard_del st.tblEdit ch.Key hed⟩
        simp [applyKeylessOnce, hct, hv, asTuple, KeylessDeleteByKey, hget, hc, hle, bind,
          Except.bind, pure, Except.pure]
      · refine ⟨⟨st.tblEdit.put ch.Key (setCard old (c - 1)),
          { st.stats with Deletes := st.stats.Deletes + 1 }⟩, ?_,
          rowsHaveCard_put st.tblEdit ch.Key (setCard old (c - 1)) hed
            (setCard_ne_nil old _ (hed _ _ hget))⟩
        simp [applyKeylessOnce, hct, hv, asTuple, KeylessDeleteByKey, hget, hc, hle, bind,
          Except.bind, pure, Except.pure]

/-- The loop of `applyKeylessChange` returns when each round can. -/
theorem applyTimes_total (ch : ValueChanged) (card : Nat) (st : EditState)
    (hed : st.tblEdit.rowsHaveCard)
    (hch : 0 < card → (ch.ChangeType = DiffChangeType.DiffChangeAdded ∧
        ∃ v, ch.NewValue = some v ∧ v ≠ []) ∨
      (ch.ChangeType = DiffChangeType.DiffChangeRemoved ∧ ∃ v, ch.OldValue = some v)) :
    ∃ st1, applyTimes ch card st = .ok st1 := by
  induction card generalizing st with
  | zero => exact ⟨st, rfl⟩
  | succ card ih =>
    have hc := hch (Nat.succ_pos _)
    obtain ⟨st2, h2, hed2⟩ := applyKeylessOnce_total st ch hed hc
    obtain ⟨st1, h1⟩ := ih st2 hed2 (fun _ => hc)
    refine ⟨st1, ?_⟩
    rw [applyTimes]
    simp only [h2, bind, Except.bind]
    exact h1

theorem cardOf_pos_some (v : Option NomsRow) (c : Nat) (h : cardOf v = .ok c) (hc : 0 < c) :
    ∃ r, v = some r ∧ r ≠ [] := by
  cases v with
  | none =>
    cases h
    exact absurd hc (Nat.lt_irrefl 0)
  | some r => exact ⟨r, rfl, ne_nil_of_keylessCard_ok r c h⟩

/-- C25, amended: keyless cardinality accounting. For every change with old
cardinality `o` and new cardinality `n`, both below `2^63`,
`convertValueChanged` returns the change unchanged with count `n` for an added
and count `o` for a removed key; for a modified key with `n > o` it returns an
added change with the old value cleared and count `n - o`, and with `n < o` a
removed change with the new value cleared and count `o - n`.
`applyKeylessChange` is then the loop that applies the returned change count
times; when it returns, the counter of the returned change's type is raised by
count and no other counter moves, and it does return when every row of the
editor has its cardinality field. -/
theorem keyless_cardinality_accounting (sch : Schema) (rows : Index) (st : EditState)
    (vc : ValueChanged) (o n : Nat)
    (ho : cardOf vc.OldValue = .ok o) (hn : cardOf vc.NewValue = .ok n)
    (hob : o < 9223372036854775808) (hnb : n < 9223372036854775808) :
    (vc.ChangeType = DiffChangeType.DiffChangeAdded → convertValueChanged vc = .ok (vc, n)) ∧
    (vc.ChangeType = DiffChangeType.DiffChangeRemoved → convertValueChanged vc = .ok (vc, o)) ∧
    (vc.ChangeType = DiffChangeType.DiffChangeModified → o < n →
      convertValueChanged vc =
        .ok ({ vc with ChangeType := DiffChangeType.DiffChangeAdded, OldValue := none },
             n - o)) ∧
    (vc.ChangeType = DiffChangeType.DiffChangeModified → n < o →
      convertValueChanged vc =
        .ok ({ vc with ChangeType := DiffChangeType.DiffChangeRemoved, NewValue := none },
             o - n)) ∧
    (∀ ch count, convertValueChanged vc = .ok (ch, count) →
      applyKeylessChange sch rows st vc = applyTimes ch count st ∧
      (∀ st1, applyKeylessChange sch rows st vc = .ok st1 →
        st1.stats = st.stats.raise ch.ChangeType count) ∧
      (st.tblEdit.rowsHaveCard → ∃ st1, applyKeylessChange sch rows st vc = .ok st1)) := by
  have heq := convertValueChanged_eq vc o n ho hn
  have hd : toInt64 (toInt64 (n : Int) - toInt64 (o : Int)) = (n : Int) - (o : Int) := by
    rw [toInt64_of_small n hnb, toInt64_of_small o hob, toInt64_of_diff n o hnb hob]
  have hadd : vc.ChangeType = DiffChangeType.DiffChangeModified → o < n →
      convertValueChanged vc =
        .ok ({ vc with ChangeType := DiffChangeType.DiffChangeAdded, OldValue := none },
             n - o) := by
    intro hct hlt
    rw [heq, hct]
    simp only [hd]
    have hpos : (n : Int) - (o : Int) > 0 := by omega
    rw [if_pos hpos]
    have hcast : (n : Int) - (o : Int) = ((n - o : Nat) : Int) := by omega
    rw [hcast, toUint64_of_small (n - o) (by omega)]
  have hrem : vc.ChangeType = DiffChangeType.DiffChangeModified → n < o →
      convertValueChanged vc =
        .ok ({ vc with ChangeType := DiffChangeType.DiffChangeRemoved, NewValue := none },
             o - n) := by
    intro hct hlt
    rw [heq, hct]
    simp only [hd]
    have hnpos : ¬ ((n : Int) - (o : Int) > 0) := by omega
    have hneg : (n : Int) - (o : Int) < 0 := by omega
    rw [if_neg hnpos, if_pos hneg]
    have hcast : -((n : Int) - (o : Int)) = ((o - n : Nat) : Int) := by omega
    rw [hcast, toInt64_of_small (o - n) (by omega), toUint64_of_small (o - n) (by omega)]
  refine ⟨fun hct => by rw [heq, hct], fun hct => by rw [heq, hct], hadd, hrem, ?_⟩
  intro ch count hconv
  have happ : applyKeylessChange sch rows st vc = applyTimes ch count st := by
    simp only [applyKeylessChange, hconv, bind, Except.bind]
  refine ⟨happ, fun st1 h1 => applyTimes_stats ch count st st1 (happ ▸ h1), fun hed => ?_⟩
  rw [happ]
  apply applyTimes_total ch count st hed
  intro hcount
  cases hct : vc.ChangeType with
  | DiffChangeAdded =>
    rw [heq, hct] at hconv
    cases hconv
    exact Or.inl ⟨hct, cardOf_pos_some _ _ hn hcount⟩
  | DiffChangeRemoved =>
    rw [heq, hct] at hconv
    cases hconv
    obtain ⟨r, hr, _⟩ := cardOf_pos_some _ _ ho hcount
    exact Or.inr ⟨hct, r, hr⟩
  | DiffChangeModified =>
    rcases Nat.lt_trichotomy o n with hlt | heq2 | hgt
    · rw [hadd hct hlt] at hconv
      cases hconv
      exact Or.inl ⟨rfl, cardOf_pos_some _ _ hn (by omega)⟩
    · rw [heq, hct] at hconv
      simp only [hd] at hconv
      have h1 : ¬ ((n : Int) - (o : Int) > 0) := by omega
      have h2 : ¬ ((n : Int) - (o : Int) < 0) := by omega
      rw [if_neg h1, if_neg h2] at hconv
      cases hconv
    · rw [hrem hct hgt] at hconv
      cases hconv
      obtain ⟨r, hr, _⟩ := cardOf_pos_some _ _ ho (by omega)
      exact Or.inr ⟨rfl, r, hr⟩


/-- Witness of C25, amended: a keyless row whose cardinality rises from 1 to 3.
The change is turned into an addition to be applied twice, and the editor,
which holds the row once, then holds it three times, with two adds counted. -/
theorem keyless_cardinality_accounting_witness :
    convertValueChanged
        ⟨DiffChangeType.DiffChangeModified, 4, some [(0, 1), (1, 100)],
          some [(0, 3), (1, 100)]⟩ =
      .ok (⟨DiffChangeType.DiffChangeAdded, 4, none, some [(0, 3), (1, 100)]⟩, 2) ∧
    applyKeylessChange keylessSchema []
        { tblEdit := [(4, [(0, 1), (1, 100)])]
          stats := { Operation := TableMergeOp.TableModified } }
        ⟨DiffChangeType.DiffChangeModified, 4, some [(0, 1), (1, 100)],
          some [(0, 3), (1, 100)]⟩ =
      .ok { tblEdit := [(4, [(0, 3), (1, 100)])]
            stats := { Operation := TableMergeOp.TableModified, Adds := 2 } } :=
  have h := keyless_cardinality_accounting keylessSchema []
    { tblEdit := [(4, [(0, 1), (1, 100)])]
      stats := { Operation := TableMergeOp.TableModified } }
    ⟨DiffChangeType.DiffChangeModified, 4, some [(0, 1), (1, 100)], some [(0, 3), (1, 100)]⟩
    1 3 rfl rfl (by decide) (by decide)
  ⟨h.2.2.1 rfl (by decide),
   ((h.2.2.2.2 _ 2 (h.2.2.1 rfl (by decide))).1).trans rfl⟩


/-! ### The inserting conflict processor -/

theorem copy20_length (src : List Nat) : (copy20 src).length = 20 := by
  simp only [copy20, List.length_append, List.length_take, List.length_replicate]
  omega

theorem copy20_of_length (src : List Nat) (h : src.length = 20) : copy20 src = src := by
  simp [copy20, h, List.take_of_length_le]

/-- C26: for every conflict stream of `n` records that is then closed,
`insertingProcessor.process` returns no error, adds exactly `n` artifacts to
the editor, in stream order, each keyed by its record's key, with the artifact
type `Conflict` and the processor's provenance hash and metadata, and raises
`stats.Conflicts` by exactly `n`, leaving the other counters. The provenance
hash of a processor made by `newInsertingProcessor` has 20 bytes, the bytes of
the commit hash it was made from, and so has each hash of its metadata. -/
theorem insertingProcessor_process_inserts (p : insertingProcessor) (stats : MergeStats)
    (conflictChan : List confVals) (artEditor : List Artifact) :
    p.process stats conflictChan artEditor =
      { stats := { stats with Conflicts := stats.Conflicts + conflictChan.length }
        artEditor := artEditor ++ conflictChan.map (fun c =>
          ⟨c.key, p.cmHash, ArtifactType.ArtifactTypeConflict, p.metadataJson⟩)
        err := none } ∧
    (∀ cmHash baseTblHash theirTblHash : Hash,
      (newInsertingProcessor cmHash baseTblHash theirTblHash).cmHash.length = 20 ∧
      (newInsertingProcessor cmHash baseTblHash theirTblHash).metadataJson.BaseTblHash.length
        = 20 ∧
      (newInsertingProcessor cmHash baseTblHash theirTblHash).metadataJson.TheirTblHash.length
        = 20 ∧
      (cmHash.length = 20 →
        (newInsertingProcessor cmHash baseTblHash theirTblHash).cmHash = cmHash)) := by
  refine ⟨?_, fun cm b t => ⟨copy20_length cm, copy20_length b, copy20_length t,
    fun h => copy20_of_length cm h⟩⟩
  induction conflictChan generalizing stats artEditor with
  | nil =>
    simp [insertingProcessor.process]
  | cons c rest ih =>
    rw [insertingProcessor.process, ih]
    simp only [ArtifactsEditor.Add, List.length_cons, List.map_cons, List.append_assoc,
      List.singleton_append, ProcessResult.mk.injEq, and_true, true_and]
    congr 1
    omega

/-- Witness of C26: a processor made from the commit hash of twenty bytes `7`
receives two conflict records, at the keys `(1)` and `(2)`; it adds two conflict
artifacts with that hash, in this order, and counts two conflicts. -/
theorem insertingProcessor_process_inserts_witness :
    (newInsertingProcessor (List.replicate 20 7) Hash.zero Hash.zero).process
        { Operation := TableMergeOp.TableModified }
        [⟨some [some [1]], some [some [11]], some [some [12]], some [some [10]]⟩,
         ⟨some [some [2]], some [some [21]], some [some [22]], some [some [20]]⟩] [] =
      { stats := { Operation := TableMergeOp.TableModified, Conflicts := 2 }
        artEditor :=
          [⟨some [some [1]], List.replicate 20 7, ArtifactType.ArtifactTypeConflict,
             ⟨Hash.zero, Hash.zero⟩⟩,
           ⟨some [some [2]], List.replicate 20 7, ArtifactType.ArtifactTypeConflict,
             ⟨Hash.zero, Hash.zero⟩⟩]
        err := none } ∧
    (newInsertingProcessor (List.replicate 20 7) Hash.zero Hash.zero).cmHash =
      List.replicate 20 7 :=
  have h := insertingProcessor_process_inserts
    (newInsertingProcessor (List.replicate 20 7) Hash.zero Hash.zero)
    { Operation := TableMergeOp.TableModified }
    [⟨some [some [1]], some [some [11]], some [some [12]], some [some [10]]⟩,
     ⟨some [some [2]], some [some [21]], some [some [22]], some [some [20]]⟩] []
  ⟨h.1.trans rfl, (h.2 (List.replicate 20 7) Hash.zero Hash.zero).2.2.2 rfl⟩


/-! ### Schema evolution in the value merger -/

theorem sideValue_absent (mapping : List Int) (i : Nat) (t : Tuple)
    (h : mapping[i]? = some (-1)) : sideValue mapping i t = none := by
  simp [sideValue, h]

/-- C27: schema evolution. For a column `i` of the merged schema whose mapping
is `-1` in one side's schema and in the base schema, and a present base row,
`processColumn` of a constructed merger reports no conflict and returns the
value that the other side's row has for the column, NULL when that value is
NULL. The comparator is taken to equate NULL with NULL and with nothing
else. -/
theorem processColumn_schema_evolution (cmp : Comparator)
    (hnull : ∀ ty, cmp none none ty = 0)
    (hnull2 : ∀ x ty, cmp none x ty = 0 → x = none)
    (merged leftSch rightSch baseSch : Schema) (i : Nat)
    (hi : i < merged.GetNonPKCols.Size) (left right base : Tuple)
    (hb : (newValueMerger cmp merged leftSch rightSch baseSch).baseMapping[i]? = some (-1)) :
    ((newValueMerger cmp merged leftSch rightSch baseSch).rightMapping[i]? = some (-1) →
      (newValueMerger cmp merged leftSch rightSch baseSch).processColumn i left right
          (some base) =
        .ok (sideValue (newValueMerger cmp merged leftSch rightSch baseSch).leftMapping i left,
             false)) ∧
    ((newValueMerger cmp merged leftSch rightSch baseSch).leftMapping[i]? = some (-1) →
      (newValueMerger cmp merged leftSch rightSch baseSch).processColumn i left right
          (some base) =
        .ok (sideValue (newValueMerger cmp merged leftSch rightSch baseSch).rightMapping i right,
             false)) := by
  have hp := processColumn_newValueMerger cmp merged leftSch rightSch baseSch i hi left right
    base
  have hbv := sideValue_absent _ i base hb
  constructor
  · intro hr
    rw [hp, hbv, sideValue_absent _ i right hr]
    unfold columnDecision
    by_cases h1 : cmp (sideValue (newValueMerger cmp merged leftSch rightSch baseSch).leftMapping
        i left) none (columnType merged i) = 0
    · rw [if_pos h1]
    · rw [if_neg h1, if_neg (fun h => h.2 (hnull _)), if_pos h1]
  · intro hl
    rw [hp, hbv, sideValue_absent _ i left hl]
    unfold columnDecision
    by_cases h1 : cmp none (sideValue
        (newValueMerger cmp merged leftSch rightSch baseSch).rightMapping i right)
        (columnType merged i) = 0
    · rw [if_pos h1, hnull2 _ _ h1]
    · rw [if_neg h1, if_neg (fun h => h.1 (hnull _)), if_neg (fun h => h (hnull _))]

/-- Witness of C27, scenario S5: the merged schema and ours have the column
`w`, theirs and the base do not; ours' row is `(10, NULL)`, theirs changed `v`
to 11. Column `w` merges to NULL without conflict and `tryMerge` returns
`(11, NULL)` without conflict. -/
theorem processColumn_schema_evolution_witness :
    (newValueMerger bytesComparator scenarioSchemaW scenarioSchemaW scenarioSchema
        scenarioSchema).processColumn 1 [some [10], none] [some [11]] (some [some [10]]) =
      .ok (none, false) ∧
    (newValueMerger bytesComparator scenarioSchemaW scenarioSchemaW scenarioSchema
        scenarioSchema).tryMerge (some [some [10], none]) (some [some [11]])
        (some [some [10]]) =
      .ok (some [some [11], none], false) :=
  ⟨((processColumn_schema_evolution bytesComparator
      (fun ty => (bytesComparator_eq_zero_iff none none ty).mpr rfl)
      (fun x ty h => ((bytesComparator_eq_zero_iff none x ty).mp h).symm)
      scenarioSchemaW scenarioSchemaW scenarioSchema scenarioSchema 1 (by decide)
      [some [10], none] [some [11]] [some [10]] rfl).1 rfl).trans rfl,
   rfl⟩


/-! ### What the merge body of `MergeTable` can rely on -/

/-- When the rules from "deleted in both" on fall through, the variables are
unchanged, a table that the ancestor has is on both sides, theirs' hash is not
the ancestor hash, and ours' hash is not the ancestor hash unless the merge is
a cherry-pick. -/
theorem deletedOrFastForward_fallThrough (st : Store) (tblName : String) (isCherryPick : Bool)
    (v1 v : MergeVars) (h : deletedOrFastForward st tblName isCherryPick v1 = .fallThrough v) :
    v = v1 ∧ (v1.ancHasTable = true → v1.rootHasTable = true ∧ v1.mergeHasTable = true) ∧
      v1.mergeHash ≠ v1.ancHash ∧ (v1.rootHash ≠ v1.ancHash ∨ isCherryPick = true) := by
  unfold deletedOrFastForward at h
  split at h
  · cases h
  · rename_i h1
    split at h
    · split at h
      · cases h
      · split at h <;> cases h
    · rename_i h2
      split at h
      · cases h
      · rename_i h3
        split at h
        · split at h
          · split at h <;> cases h
          · cases h
        · rename_i h4
          cases h
          refine ⟨rfl, ?_, ?_, ?_⟩
          · intro ha
            cases hroot : v1.rootHasTable <;> cases hmerge : v1.mergeHasTable <;>
              simp [ha, hroot, hmerge] at h1 h2 ⊢
          · simpa using h3
          · cases isCherryPick
            · left
              simpa using h4
            · right
              rfl

/-- When the rule for an added table falls through, either the ancestor has
the table and nothing changed, or it lacks it while both sides have it, and
ours' table with empty rows stands in for the ancestor's. -/
theorem addedTable_fallThrough (v0 v1 : MergeVars) (h : addedTable v0 = .fallThrough v1) :
    (v0.ancHasTable = true ∧ v1 = v0) ∨
    (v0.ancHasTable = false ∧ v0.mergeHasTable = true ∧ v0.rootHasTable = true ∧
      v1 = { v0 with ancHasTable := true, ancSchema := v0.rootSchema, ancTbl := v0.tbl,
                     ancRows := some [] }) := by
  unfold addedTable at h
  split at h
  · rename_i ha
    split at h
    · rename_i hboth
      split at h
      · cases h
        right
        simp only [Bool.and_eq_true] at hboth
        refine ⟨by simpa using ha, hboth.1, hboth.2, rfl⟩
      · cases h
    · split at h <;> cases h
  · rename_i ha
    cases h
    left
    exact ⟨by simpa using ha, rfl⟩

/-- A fall-through of the short-circuit block passes the rule for an added
table and the rules after it. -/
theorem shortCircuit_fallThrough (st : Store) (tblName : String) (isCherryPick : Bool)
    (v0 v : MergeVars) (h : shortCircuit st tblName isCherryPick v0 = .fallThrough v) :
    ∃ v1, addedTable v0 = .fallThrough v1 ∧
      deletedOrFastForward st tblName isCherryPick v1 = .fallThrough v := by
  unfold shortCircuit at h
  split at h
  · cases h
  · split at h
    · cases h
    · split at h
      · cases h
      · rename_i v1 hv1
        exact ⟨v1, hv1, h⟩

/-- C29: whenever the short-circuit block of `MergeTable` falls through to the
three-way merge body, ours and theirs have the table, and the ancestor's table
is either the one of the ancestor root or, when that root lacks the table, ours'
table with empty rows; the tables, schemas and ancestor rows that the body
reads are all present; theirs' hash differs from the ancestor hash; and ours'
hash differs from the ancestor hash or the merge is a cherry-pick. -/
theorem MergeTable_body_preconditions (st : Store) (merger : Merger) (tblName : String)
    (isCherryPick : Bool) (v : MergeVars)
    (h : shortCircuit st tblName isCherryPick (initialVars st merger tblName) =
      .fallThrough v) :
    ∃ tbl mergeTbl ancTbl ancRows,
      merger.root.GetTable tblName = some tbl ∧
      merger.mergeRoot.GetTable tblName = some mergeTbl ∧
      ((merger.ancRoot.GetTable tblName = some ancTbl ∧ ancRows = ancTbl.rowData) ∨
        (merger.ancRoot.GetTable tblName = none ∧ ancTbl = tbl ∧ ancRows = [])) ∧
      (v.rootHasTable = true ∧ v.mergeHasTable = true ∧ v.ancHasTable = true) ∧
      (v.tbl = some tbl ∧ v.mergeTbl = some mergeTbl ∧ v.ancTbl = some ancTbl) ∧
      (v.rootSchema = some tbl.sch ∧ v.mergeSchema = some mergeTbl.sch ∧
        v.ancSchema = some ancTbl.sch) ∧
      v.ancRows = some ancRows ∧
      v.mergeHash ≠ v.ancHash ∧
      (v.rootHash ≠ v.ancHash ∨ isCherryPick = true) ∧
      MergeTable st merger tblName isCherryPick = threeWayMerge st tblName isCherryPick v := by
  have hmt : MergeTable st merger tblName isCherryPick =
      threeWayMerge st tblName isCherryPick v := by
    simp only [MergeTable, h]
  obtain ⟨v1, hadd, hdel⟩ := shortCircuit_fallThrough st tblName isCherryPick _ v h
  obtain ⟨hv, hpres, hmh, hrh⟩ := deletedOrFastForward_fallThrough st tblName isCherryPick v1 v hdel
  subst hv
  have hinit := initialVars_eq st merger tblName _ _ _ rfl rfl rfl
  rcases addedTable_fallThrough _ _ hadd with ⟨hanc, hv1⟩ | ⟨hanc, hmerge, hroot, hv1⟩
  · subst hv1
    obtain ⟨hroot, hmerge⟩ := hpres hanc
    rw [hinit] at hanc hroot hmerge hmh hrh
    simp only at hanc hroot hmerge hmh hrh
    cases hr : merger.root.GetTable tblName with
    | none => simp [hr] at hroot
    | some tbl =>
      cases hm : merger.mergeRoot.GetTable tblName with
      | none => simp [hm] at hmerge
      | some mergeTbl =>
        cases ha : merger.ancRoot.GetTable tblName with
        | none => simp [ha] at hanc
        | some ancTbl =>
          simp only [hr, hm, ha, Option.map_some', Option.getD_some] at hmh hrh
          rw [hr, hm, ha] at hinit
          rw [hinit] at hmt ⊢
          exact ⟨tbl, mergeTbl, ancTbl, ancTbl.rowData, rfl, rfl, Or.inl ⟨rfl, rfl⟩,
            ⟨rfl, rfl, rfl⟩, ⟨rfl, rfl, rfl⟩, ⟨rfl, rfl, rfl⟩, rfl, hmh, hrh, hmt⟩
  · subst hv1
    rw [hinit] at hanc hroot hmerge hmh hrh
    simp only at hanc hroot hmerge hmh hrh
    cases hr : merger.root.GetTable tblName with
    | none => simp [hr] at hroot
    | some tbl =>
      cases hm : merger.mergeRoot.GetTable tblName with
      | none => simp [hm] at hmerge
      | some mergeTbl =>
        cases ha : merger.ancRoot.GetTable tblName with
        | some ancTbl => simp [ha] at hanc
        | none =>
          simp only [hr, hm, ha, Option.map_some', Option.getD_some, Option.map_none',
            Option.getD_none] at hmh hrh
          rw [hr, hm, ha] at hinit
          rw [hinit] at hmt ⊢
          exact ⟨tbl, mergeTbl, tbl, [], rfl, rfl, Or.inr ⟨rfl, rfl, rfl⟩,
            ⟨rfl, rfl, rfl⟩, ⟨rfl, rfl, rfl⟩, ⟨rfl, rfl, rfl⟩, rfl, hmh, hrh, hmt⟩

/-- Witness of C29, scenario S2: the ancestor holds `(1,10)`, ours changed the
row to `(1,11)` and theirs to `(1,12)`. The short-circuit block falls through
with the variables as they were on entry, and the three tables are present with
three different hashes. -/
theorem MergeTable_body_preconditions_witness :
    shortCircuit scenarioStore "t" false
        (initialVars scenarioStore
          (scenarioMerger scenarioSchema [(1, [(1, 11)])] [(1, [(1, 12)])] [(1, [(1, 10)])])
          "t") =
      .fallThrough (initialVars scenarioStore
        (scenarioMerger scenarioSchema [(1, [(1, 11)])] [(1, [(1, 12)])] [(1, [(1, 10)])])
        "t") ∧
    ∃ tbl mergeTbl ancTbl ancRows,
      (scenarioMerger scenarioSchema [(1, [(1, 11)])] [(1, [(1, 12)])]
        [(1, [(1, 10)])]).root.GetTable "t" = some tbl ∧
      (scenarioMerger scenarioSchema [(1, [(1, 11)])] [(1, [(1, 12)])]
        [(1, [(1, 10)])]).mergeRoot.GetTable "t" = some mergeTbl ∧
      (((scenarioMerger scenarioSchema [(1, [(1, 11)])] [(1, [(1, 12)])]
          [(1, [(1, 10)])]).ancRoot.GetTable "t" = some ancTbl ∧ ancRows = ancTbl.rowData) ∨
        ((scenarioMerger scenarioSchema [(1, [(1, 11)])] [(1, [(1, 12)])]
          [(1, [(1, 10)])]).ancRoot.GetTable "t" = none ∧ ancTbl = tbl ∧ ancRows = [])) :=
  ⟨rfl,
   (MergeTable_body_preconditions scenarioStore
      (scenarioMerger scenarioSchema [(1, [(1, 11)])] [(1, [(1, 12)])] [(1, [(1, 10)])])
      "t" false _ rfl).imp
      (fun _ h => h.imp (fun _ h => h.imp (fun _ h => h.imp
        (fun _ h => ⟨h.1, h.2.1, h.2.2.1⟩))))⟩


/-! ### The row mergers of the two formats -/

/-- C28, as stated, fails, at two inputs. With the base row absent, ours' row
`(NULL)` and theirs' row `(5)` in the column `v`, `nomsPkRowMerge` merges the
cells to `(5)` without conflict, while `tryMerge` reports a conflict. And with
the base row `(10)`, ours' row `(11)` and theirs' row `(12)`, under a
comparator that compares the fields of 11 and 12 as equal, `nomsPkRowMerge`
reports a conflict, while `tryMerge` returns `(11)` without conflict. -/
theorem row_mergers_disagree_on_null_insert :
    nomsPkRowMerge scenarioSchema (some (nomsRowOf [1] (fun _ => none)))
        (some (nomsRowOf [1] (fun _ => some 5))) none =
      .ok ⟨some [(1, 5)], true, false⟩ ∧
    (newValueMerger bytesComparator scenarioSchema scenarioSchema scenarioSchema
        scenarioSchema).tryMerge (some (tupleOf [1] (fun _ => none)))
        (some (tupleOf [1] (fun _ => some 5))) none =
      .ok (none, true) ∧
    nomsPkRowMerge scenarioSchema (some (nomsRowOf [1] (fun _ => some 11)))
        (some (nomsRowOf [1] (fun _ => some 12))) (some (nomsRowOf [1] (fun _ => some 10))) =
      .ok ⟨none, false, true⟩ ∧
    (newValueMerger lengthComparator scenarioSchema scenarioSchema scenarioSchema
        scenarioSchema).tryMerge (some (tupleOf [1] (fun _ => some 11)))
        (some (tupleOf [1] (fun _ => some 12))) (some (tupleOf [1] (fun _ => some 10))) =
      .ok (some [some [11]], false) :=
  ⟨rfl, rfl, rfl, rfl⟩

/-- The lookup of a tag in the old-format row of `f` gives `f tag`. -/
theorem Get_nomsRowOf (tags : List Nat) (f : Nat → Option Nat) (tag : Nat) (h : tag ∈ tags) :
    TaggedValues.Get (nomsRowOf tags f) tag = f tag := by
  induction tags with
  | nil => cases h
  | cons t rest ih =>
    unfold nomsRowOf TaggedValues.Get
    rw [List.filterMap_cons]
    by_cases ht : t = tag
    · subst ht
      cases hf : f t with
      | some x => simp [List.find?_cons]
      | none =>
        simp only [Option.map_none']
        have hnone : (List.filterMap (fun tag => (f tag).map (fun x => (tag, x))) rest).find?
            (fun e => e.1 == t) = none := by
          rw [List.find?_eq_none]
          intro e he
          obtain ⟨a, _, hae⟩ := List.mem_filterMap.mp he
          cases hfa : f a with
          | none => simp [hfa] at hae
          | some x =>
            simp only [hfa, Option.map_some', Option.some.injEq] at hae
            subst hae
            intro hx
            have : a = t := by simpa using hx
            rw [this, hf] at hfa
            cases hfa
        rw [hnone]
        rfl
    · have hin : tag ∈ rest := by
        rcases List.mem_cons.mp h with h1 | h1
        · exact absurd h1.symm ht
        · exact h1
      have := ih hin
      unfold nomsRowOf TaggedValues.Get at this
      cases hf : f t with
      | some x =>
        have hb : (t == tag) = false := by simp [ht]
        simp only [Option.map_some', List.find?_cons, hb]
        exact this
      | none =>
        simp only [Option.map_none']
        exact this

/-- The row of the empty tagged values, which stand for an absent base row,
has no value under any tag. -/
theorem Get_nil (tag : Nat) : TaggedValues.Get [] tag = none := rfl

/-- The loop of `nomsPkRowMerge` over the tags, given the decision on each
tag. -/
theorem mergeTags_eq (baseVals rowVals mergeVals : NomsRow) (tags : List Nat) :
    mergeTags baseVals rowVals mergeVals tags =
      if ∃ tag ∈ tags, (processTagFunc baseVals rowVals mergeVals tag).2.1 = true then none
      else some (nomsRowOf tags (fun tag => (processTagFunc baseVals rowVals mergeVals tag).1),
                 tags.any (fun tag => (processTagFunc baseVals rowVals mergeVals tag).2.2)) := by
  induction tags with
  | nil => simp [mergeTags, nomsRowOf]
  | cons t rest ih =>
    rw [mergeTags, ih]
    rcases hp : processTagFunc baseVals rowVals mergeVals t with ⟨v, c, d⟩
    cases c with
    | true => simp [hp]
    | false =>
      by_cases hex : ∃ tag ∈ rest, (processTagFunc baseVals rowVals mergeVals tag).2.1 = true
      · simp [hp, hex]
      · simp only [hex, if_false, List.mem_cons, exists_eq_or_imp, hp, Bool.false_eq_true,
          false_or]
        cases v with
        | none => simp [nomsRowOf, hp, List.any_cons]
        | some x => simp [nomsRowOf, hp, List.any_cons]

theorem nomsRowOf_none (tags : List Nat) : nomsRowOf tags (fun _ => none) = [] := by
  induction tags with
  | nil => rfl
  | cons t rest ih =>
    unfold nomsRowOf at ih ⊢
    rw [List.filterMap_cons]
    exact ih

theorem nomsRowOf_congr (tags : List Nat) (f g : Nat → Option Nat)
    (h : ∀ tag ∈ tags, f tag = g tag) : nomsRowOf tags f = nomsRowOf tags g := by
  induction tags with
  | nil => rfl
  | cons t rest ih =>
    unfold nomsRowOf at ih ⊢
    rw [List.filterMap_cons, List.filterMap_cons, h t (List.mem_cons_self _ _),
      ih (fun x hx => h x (List.mem_cons_of_mem _ hx))]

theorem tupleOf_congr (tags : List Nat) (f g : Nat → Option Nat)
    (h : ∀ tag ∈ tags, f tag = g tag) : tupleOf tags f = tupleOf tags g := by
  unfold tupleOf
  apply List.map_congr_left
  intro tag ht
  rw [h tag ht]

/-- The decision of `processTagFunc` on the rows of three value assignments. -/
theorem processTagFunc_rows (tags : List Nat) (b o t : Nat → Option Nat) (tag : Nat)
    (h : tag ∈ tags) :
    processTagFunc (nomsRowOf tags b) (nomsRowOf tags o) (nomsRowOf tags t) tag =
      if o tag = t tag then (o tag, false, false)
      else if o tag ≠ b tag ∧ t tag ≠ b tag then (none, true, false)
      else if o tag ≠ b tag then (o tag, false, true)
      else (t tag, false, true) := by
  unfold processTagFunc
  simp only [Get_nomsRowOf tags _ tag h]
  by_cases h1 : o tag = t tag
  · simp [h1]
  · by_cases h2 : o tag = b tag <;> by_cases h3 : t tag = b tag <;> simp [h1, h2, h3]

theorem map_singleton_inj (a b : Option Nat) :
    a.map (fun x => [x]) = b.map (fun x => [x]) ↔ a = b := by
  cases a <;> cases b <;> simp

/-- The three-way decision of the value merger on the encoded values of a
column is the decision of `processTagFunc` on the values. -/
theorem columnDecision_rows (cmp : Comparator) (hcmp : ∀ a b ty, cmp a b ty = 0 ↔ a = b)
    (ty : ValType) (tags : List Nat) (b o t : Nat → Option Nat) (tag : Nat) (h : tag ∈ tags) :
    columnDecision cmp ty ((o tag).map (fun x => [x])) ((t tag).map (fun x => [x]))
        ((b tag).map (fun x => [x])) =
      (((processTagFunc (nomsRowOf tags b) (nomsRowOf tags o) (nomsRowOf tags t) tag).1).map
          (fun x => [x]),
       (processTagFunc (nomsRowOf tags b) (nomsRowOf tags o) (nomsRowOf tags t) tag).2.1) := by
  rw [processTagFunc_rows tags b o t tag h]
  unfold columnDecision
  simp only [hcmp, map_singleton_inj, ne_eq]
  by_cases h1 : o tag = t tag
  · simp [h1]
  · by_cases h2 : o tag = b tag
    · have h3 : ¬ t tag = b tag := fun h => h1 (h2.trans h.symm)
      have h4 : ¬ b tag = t tag := fun h => h3 h.symm
      simp [h2, h3, h4]
    · by_cases h3 : t tag = b tag <;> simp [h1, h2, h3]

theorem findIdx?_go_nodup (l : List Nat) (i s : Nat) (hi : i < l.length) (hnd : l.Nodup) :
    l.findIdx? (fun x => x == l[i]) s = some (s + i) := by
  induction l generalizing i s with
  | nil => cases hi
  | cons a rest ih =>
    rw [List.findIdx?_cons]
    cases i with
    | zero => simp
    | succ j =>
      have hj : j < rest.length := by simpa using hi
      have hne : a ≠ rest[j] := by
        intro heq
        have hmem : rest[j] ∈ rest := List.getElem_mem _
        rw [← heq] at hmem
        exact (List.nodup_cons.mp hnd).1 hmem
      have hb : (a == (a :: rest)[j + 1]) = false := by
        simp only [List.getElem_cons_succ]
        simp [hne]
      rw [hb]
      simp only [Bool.false_eq_true, if_false, List.getElem_cons_succ]
      rw [ih j (s + 1) hj (List.nodup_cons.mp hnd).2]
      congr 1
      omega

/-- With pairwise different tags the ordinal of a schema's own column is its
position: the mappings of a schema onto itself are the identity. -/
theorem ordinalOf_self (sch : Schema) (hnd : sch.GetNonPKCols.Tags.Nodup) (i : Nat)
    (hi : i < sch.GetNonPKCols.Tags.length) :
    ordinalOf sch (sch.GetNonPKCols.Tags[i]) = (i : Int) := by
  unfold ordinalOf ColCollection.TagToIdx
  have := findIdx?_go_nodup sch.GetNonPKCols.Tags i 0 hi hnd
  simp only [Nat.zero_add] at this
  simp only [this]

/-- The value that the merger of a schema with itself reads for column `i` of
the tuple of `f`. -/
theorem sideValue_tupleOf (sch : Schema) (hnd : sch.GetNonPKCols.Tags.Nodup)
    (f : Nat → Option Nat) (i : Nat) (hi : i < sch.GetNonPKCols.Tags.length) :
    sideValue (sch.GetNonPKCols.Tags.map (ordinalOf sch)) i (tupleOf sch.GetNonPKCols.Tags f) =
      (f (sch.GetNonPKCols.Tags[i])).map (fun x => [x]) := by
  unfold sideValue
  have hget : (sch.GetNonPKCols.Tags.map (ordinalOf sch))[i]? = some (i : Int) := by
    rw [List.getElem?_map, List.getElem?_eq_getElem hi, Option.map_some',
      ordinalOf_self sch hnd i hi]
  rw [hget]
  have hne : ¬ ((i : Int) = -1) := by omega
  have hnn : ¬ ((i : Int) < 0) := by omega
  simp only [hne, if_false, Tuple.GetField, hnn, Int.toNat_ofNat, tupleOf, List.getElem?_map,
    List.getElem?_eq_getElem hi, Option.map_some', Option.join]
  rfl

theorem range_map_getD {β : Type} (l : List Nat) (G : Nat → β) :
    (List.range l.length).map (fun i => G (l.getD i 0)) = l.map G := by
  apply List.ext_getElem
  · simp
  · intro i h1 h2
    have hi : i < l.length := by simpa using h2
    simp [List.getD_eq_getElem?_getD, List.getElem?_eq_getElem hi]

theorem exists_range_getD (l : List Nat) (P : Nat → Prop) :
    (∃ i ∈ List.range l.length, P (l.getD i 0)) ↔ ∃ x ∈ l, P x := by
  constructor
  · rintro ⟨i, hi, hp⟩
    have hlt : i < l.length := List.mem_range.mp hi
    refine ⟨l[i], List.getElem_mem _, ?_⟩
    simpa [List.getD_eq_getElem?_getD, List.getElem?_eq_getElem hlt] using hp
  · rintro ⟨x, hx, hp⟩
    obtain ⟨i, hlt, hxi⟩ := List.getElem_of_mem hx
    refine ⟨i, List.mem_range.mpr hlt, ?_⟩
    simpa [List.getD_eq_getElem?_getD, List.getElem?_eq_getElem hlt, hxi] using hp

theorem Tags_length (sch : Schema) : sch.GetNonPKCols.Tags.length = sch.GetNonPKCols.Size := by
  simp [ColCollection.Tags, ColCollection.Size]

/-- What `tryMerge` of the merger of a schema with itself returns on the tuples
of three value assignments, the base row being present: the decisions of
`processTagFunc`, tag by tag. -/
theorem tryMerge_rows_base (cmp : Comparator) (hcmp : ∀ a b ty, cmp a b ty = 0 ↔ a = b)
    (sch : Schema) (hnd : sch.GetNonPKCols.Tags.Nodup) (o t b : Nat → Option Nat) :
    (newValueMerger cmp sch sch sch sch).tryMerge (some (tupleOf sch.GetNonPKCols.Tags o))
        (some (tupleOf sch.GetNonPKCols.Tags t)) (some (tupleOf sch.GetNonPKCols.Tags b)) =
      .ok (if ∃ tag ∈ sch.GetNonPKCols.Tags,
              (processTagFunc (nomsRowOf sch.GetNonPKCols.Tags b)
                (nomsRowOf sch.GetNonPKCols.Tags o) (nomsRowOf sch.GetNonPKCols.Tags t) tag).2.1
                = true
           then (none, true)
           else (some (tupleOf sch.GetNonPKCols.Tags (fun tag =>
                  (processTagFunc (nomsRowOf sch.GetNonPKCols.Tags b)
                    (nomsRowOf sch.GetNonPKCols.Tags o) (nomsRowOf sch.GetNonPKCols.Tags t)
                    tag).1)), false)) := by
  have htry : (newValueMerger cmp sch sch sch sch).tryMerge
      (some (tupleOf sch.GetNonPKCols.Tags o)) (some (tupleOf sch.GetNonPKCols.Tags t))
      (some (tupleOf sch.GetNonPKCols.Tags b)) =
      (newValueMerger cmp sch sch sch sch).mergeColumns (tupleOf sch.GetNonPKCols.Tags o)
        (tupleOf sch.GetNonPKCols.Tags t) (some (tupleOf sch.GetNonPKCols.Tags b))
        (List.range sch.GetNonPKCols.Tags.length) := by
    rw [Tags_length]
    rfl
  have hcols := mergeColumns_eq (newValueMerger cmp sch sch sch sch)
    (tupleOf sch.GetNonPKCols.Tags o) (tupleOf sch.GetNonPKCols.Tags t)
    (some (tupleOf sch.GetNonPKCols.Tags b))
    (fun i =>
      (((processTagFunc (nomsRowOf sch.GetNonPKCols.Tags b) (nomsRowOf sch.GetNonPKCols.Tags o)
          (nomsRowOf sch.GetNonPKCols.Tags t) (sch.GetNonPKCols.Tags.getD i 0)).1).map
          (fun x => [x]),
       (processTagFunc (nomsRowOf sch.GetNonPKCols.Tags b) (nomsRowOf sch.GetNonPKCols.Tags o)
          (nomsRowOf sch.GetNonPKCols.Tags t) (sch.GetNonPKCols.Tags.getD i 0)).2.1))
    (List.range sch.GetNonPKCols.Tags.length)
    (fun i hi => by
      have hlt : i < sch.GetNonPKCols.Tags.length := List.mem_range.mp hi
      have hget : sch.GetNonPKCols.Tags.getD i 0 = sch.GetNonPKCols.Tags[i] := by
        simp [List.getD_eq_getElem?_getD, List.getElem?_eq_getElem hlt]
      rw [processColumn_newValueMerger cmp sch sch sch sch i (by rw [← Tags_length]; exact hlt)]
      simp only [hget]
      have hl := sideValue_tupleOf sch hnd o i hlt
      have hr := sideValue_tupleOf sch hnd t i hlt
      have hb := sideValue_tupleOf sch hnd b i hlt
      have e1 : (newValueMerger cmp sch sch sch sch).leftMapping =
          sch.GetNonPKCols.Tags.map (ordinalOf sch) := rfl
      have e2 : (newValueMerger cmp sch sch sch sch).rightMapping =
          sch.GetNonPKCols.Tags.map (ordinalOf sch) := rfl
      have e3 : (newValueMerger cmp sch sch sch sch).baseMapping =
          sch.GetNonPKCols.Tags.map (ordinalOf sch) := rfl
      rw [e1, e2, e3, hl, hr, hb]
      rw [columnDecision_rows cmp hcmp _ sch.GetNonPKCols.Tags b o t _ (List.getElem_mem _)])
  rw [htry, hcols]
  congr 1
  have hex := exists_range_getD sch.GetNonPKCols.Tags (fun tag =>
    (processTagFunc (nomsRowOf sch.GetNonPKCols.Tags b) (nomsRowOf sch.GetNonPKCols.Tags o)
      (nomsRowOf sch.GetNonPKCols.Tags t) tag).2.1 = true)
  have hmap := range_map_getD sch.GetNonPKCols.Tags (fun tag =>
    ((processTagFunc (nomsRowOf sch.GetNonPKCols.Tags b) (nomsRowOf sch.GetNonPKCols.Tags o)
      (nomsRowOf sch.GetNonPKCols.Tags t) tag).1).map (fun x => [x]))
  simp only at hex hmap ⊢
  by_cases hc : ∃ tag ∈ sch.GetNonPKCols.Tags,
      (processTagFunc (nomsRowOf sch.GetNonPKCols.Tags b) (nomsRowOf sch.GetNonPKCols.Tags o)
        (nomsRowOf sch.GetNonPKCols.Tags t) tag).2.1 = true
  · rw [if_pos hc, if_pos (hex.mpr hc)]
  · rw [if_neg hc, if_neg (fun h => hc (hex.mp h)), hmap]
    rfl

/-- What `tryMerge` of the merger of a schema with itself returns on the tuples
of two value assignments, the base row being absent: a conflict when some
column differs, ours' tuple otherwise. -/
theorem tryMerge_rows_no_base (cmp : Comparator) (hcmp : ∀ a b ty, cmp a b ty = 0 ↔ a = b)
    (sch : Schema) (hnd : sch.GetNonPKCols.Tags.Nodup) (o t : Nat → Option Nat) :
    (newValueMerger cmp sch sch sch sch).tryMerge (some (tupleOf sch.GetNonPKCols.Tags o))
        (some (tupleOf sch.GetNonPKCols.Tags t)) none =
      .ok (if ∃ tag ∈ sch.GetNonPKCols.Tags, o tag ≠ t tag then (none, true)
           else (some (tupleOf sch.GetNonPKCols.Tags o), false)) := by
  have htry : (newValueMerger cmp sch sch sch sch).tryMerge
      (some (tupleOf sch.GetNonPKCols.Tags o)) (some (tupleOf sch.GetNonPKCols.Tags t)) none =
      (newValueMerger cmp sch sch sch sch).mergeColumns (tupleOf sch.GetNonPKCols.Tags o)
        (tupleOf sch.GetNonPKCols.Tags t) none (List.range sch.GetNonPKCols.Tags.length) := by
    rw [Tags_length]
    rfl
  have hcols := mergeColumns_eq (newValueMerger cmp sch sch sch sch)
    (tupleOf sch.GetNonPKCols.Tags o) (tupleOf sch.GetNonPKCols.Tags t) none
    (fun i =>
      if o (sch.GetNonPKCols.Tags.getD i 0) = t (sch.GetNonPKCols.Tags.getD i 0) then
        ((o (sch.GetNonPKCols.Tags.getD i 0)).map (fun x => [x]), false)
      else (none, true))
    (List.range sch.GetNonPKCols.Tags.length)
    (fun i hi => by
      have hlt : i < sch.GetNonPKCols.Tags.length := List.mem_range.mp hi
      have hget : sch.GetNonPKCols.Tags.getD i 0 = sch.GetNonPKCols.Tags[i] := by
        simp [List.getD_eq_getElem?_getD, List.getElem?_eq_getElem hlt]
      rw [processColumn_no_base cmp sch sch sch sch i (by rw [← Tags_length]; exact hlt)]
      simp only [hget]
      have hl := sideValue_tupleOf sch hnd o i hlt
      have hr := sideValue_tupleOf sch hnd t i hlt
      have e1 : (newValueMerger cmp sch sch sch sch).leftMapping =
          sch.GetNonPKCols.Tags.map (ordinalOf sch) := rfl
      have e2 : (newValueMerger cmp sch sch sch sch).rightMapping =
          sch.GetNonPKCols.Tags.map (ordinalOf sch) := rfl
      rw [e1, e2, hl, hr]
      simp only [hcmp, map_singleton_inj])
  rw [htry, hcols]
  congr 1
  have hex := exists_range_getD sch.GetNonPKCols.Tags (fun tag => o tag ≠ t tag)
  have hmap := range_map_getD sch.GetNonPKCols.Tags (fun tag => (o tag).map (fun x => [x]))
  simp only at hex hmap
  have hnc : ∀ i, o (sch.GetNonPKCols.Tags.getD i 0) = t (sch.GetNonPKCols.Tags.getD i 0) →
      (if o (sch.GetNonPKCols.Tags.getD i 0) = t (sch.GetNonPKCols.Tags.getD i 0) then
        ((o (sch.GetNonPKCols.Tags.getD i 0)).map (fun x => [x]), false)
      else ((none : Field), true)) =
        ((o (sch.GetNonPKCols.Tags.getD i 0)).map (fun x => [x]), false) :=
    fun i h => if_pos h
  have hcf : ∀ i, o (sch.GetNonPKCols.Tags.getD i 0) ≠ t (sch.GetNonPKCols.Tags.getD i 0) →
      (if o (sch.GetNonPKCols.Tags.getD i 0) = t (sch.GetNonPKCols.Tags.getD i 0) then
        ((o (sch.GetNonPKCols.Tags.getD i 0)).map (fun x => [x]), false)
      else ((none : Field), true)) = (none, true) :=
    fun i h => if_neg h
  by_cases hc : ∃ tag ∈ sch.GetNonPKCols.Tags, o tag ≠ t tag
  · obtain ⟨i, hi, hne⟩ := hex.mpr hc
    rw [if_pos hc, if_pos]
    refine ⟨i, hi, ?_⟩
    show (if o (sch.GetNonPKCols.Tags.getD i 0) = t (sch.GetNonPKCols.Tags.getD i 0) then
        ((o (sch.GetNonPKCols.Tags.getD i 0)).map (fun x => [x]), false)
      else ((none : Field), true)).2 = true
    rw [hcf i hne]
  · have hall : ∀ i ∈ List.range sch.GetNonPKCols.Tags.length,
        o (sch.GetNonPKCols.Tags.getD i 0) = t (sch.GetNonPKCols.Tags.getD i 0) := by
      intro i hi
      by_contra hne
      exact hc (hex.mp ⟨i, hi, hne⟩)
    rw [if_neg hc, if_neg]
    · congr 2
      unfold tupleOf
      rw [← hmap]
      apply List.map_congr_left
      intro i hi
      show (if o (sch.GetNonPKCols.Tags.getD i 0) = t (sch.GetNonPKCols.Tags.getD i 0) then
          ((o (sch.GetNonPKCols.Tags.getD i 0)).map (fun x => [x]), false)
        else ((none : Field), true)).1 = _
      rw [hnc i (hall i hi)]
    · rintro ⟨i, hi, hcfl⟩
      have hcfl2 : (if o (sch.GetNonPKCols.Tags.getD i 0) = t (sch.GetNonPKCols.Tags.getD i 0) then
          ((o (sch.GetNonPKCols.Tags.getD i 0)).map (fun x => [x]), false)
        else ((none : Field), true)).2 = true := hcfl
      rw [hnc i (hall i hi)] at hcfl2
      cases hcfl2

/-- What `nomsPkRowMerge` returns on three present rows. -/
theorem nomsPkRowMerge_rows_base (sch : Schema) (rowVals mergeVals baseVals : NomsRow) :
    nomsPkRowMerge sch (some rowVals) (some mergeVals) (some baseVals) =
      .ok (match mergeTags baseVals rowVals mergeVals sch.GetNonPKCols.Tags with
           | none => ⟨none, false, true⟩
           | some (vals, didMerge) => ⟨some vals, didMerge, false⟩) := by
  simp only [nomsPkRowMerge, Option.isNone_some, Bool.and_self, Bool.false_eq_true, if_false,
    Bool.or_self]
  cases mergeTags baseVals rowVals mergeVals sch.GetNonPKCols.Tags with
  | none => rfl
  | some p => rfl

/-- What `nomsPkRowMerge` returns on two present rows and an absent base row. -/
theorem nomsPkRowMerge_rows_no_base (sch : Schema) (rowVals mergeVals : NomsRow) :
    nomsPkRowMerge sch (some rowVals) (some mergeVals) none =
      if mergeVals = rowVals then .ok ⟨some rowVals, false, false⟩
      else
        .ok (match mergeTags [] rowVals mergeVals sch.GetNonPKCols.Tags with
             | none => ⟨none, false, true⟩
             | some (vals, didMerge) => ⟨some vals, didMerge, false⟩) := by
  simp only [nomsPkRowMerge, Option.some.injEq]
  by_cases h : mergeVals = rowVals
  · simp [h]
  · simp only [h, if_false]
    cases mergeTags [] rowVals mergeVals sch.GetNonPKCols.Tags with
    | none => rfl
    | some p => rfl

/-- C28, amended: the old-format and the new-format row merger agree under a
comparator that compares two fields as equal exactly when they are identical.
For a table whose non-primary-key columns, with pairwise different tags, are
the same on all three sides (identity column mappings), and for every present
ours row and theirs row, both mergers return, and: when the base row is
present, `nomsPkRowMerge` reports a conflict exactly when `tryMerge` does, and
when neither reports a conflict they produce the same merged column values;
with the base row absent the same holds provided no column is NULL in one of
the two rows and not NULL in the other; in general, with the base row absent,
a conflict of `nomsPkRowMerge` is a conflict of `tryMerge`, and when `tryMerge`
reports no conflict both return ours' row. -/
theorem row_mergers_agree (cmp : Comparator) (hcmp : ∀ a b ty, cmp a b ty = 0 ↔ a = b)
    (sch : Schema) (hnd : sch.GetNonPKCols.Tags.Nodup)
    (o t : Nat → Option Nat) (base : Option (Nat → Option Nat)) :
    ∃ r p,
      nomsPkRowMerge sch (some (nomsRowOf sch.GetNonPKCols.Tags o))
          (some (nomsRowOf sch.GetNonPKCols.Tags t))
          (base.map (nomsRowOf sch.GetNonPKCols.Tags)) = .ok r ∧
      (newValueMerger cmp sch sch sch sch).tryMerge (some (tupleOf sch.GetNonPKCols.Tags o))
          (some (tupleOf sch.GetNonPKCols.Tags t))
          (base.map (tupleOf sch.GetNonPKCols.Tags)) = .ok p ∧
      (r.isConflict = true → p.2 = true) ∧
      ((base.isSome = true ∨
          ∀ tag ∈ sch.GetNonPKCols.Tags, (o tag).isSome = (t tag).isSome) →
        (r.isConflict = true ↔ p.2 = true)) ∧
      (p.2 = false → ∃ g, r.mergedRow = some (nomsRowOf sch.GetNonPKCols.Tags g) ∧
        p.1 = some (tupleOf sch.GetNonPKCols.Tags g)) ∧
      (base.isNone = true → p.2 = false →
        r = ⟨some (nomsRowOf sch.GetNonPKCols.Tags o), false, false⟩ ∧
        p = (some (tupleOf sch.GetNonPKCols.Tags o), false)) := by
  cases base with
  | some b =>
    simp only [Option.map_some']
    rw [nomsPkRowMerge_rows_base, mergeTags_eq, tryMerge_rows_base cmp hcmp sch hnd o t b]
    by_cases hc : ∃ tag ∈ sch.GetNonPKCols.Tags,
        (processTagFunc (nomsRowOf sch.GetNonPKCols.Tags b) (nomsRowOf sch.GetNonPKCols.Tags o)
          (nomsRowOf sch.GetNonPKCols.Tags t) tag).2.1 = true
    · rw [if_pos hc, if_pos hc]
      exact ⟨_, _, rfl, rfl, fun _ => rfl, fun _ => ⟨fun _ => rfl, fun _ => rfl⟩,
        fun h => (by cases h), fun h => (by cases h)⟩
    · rw [if_neg hc, if_neg hc]
      refine ⟨_, _, rfl, rfl, fun h => (by cases h), fun _ => ⟨fun h => (by cases h),
        fun h => (by cases h)⟩, fun _ => ⟨_, rfl, rfl⟩, fun h => (by cases h)⟩
  | none =>
    simp only [Option.map_none']
    rw [nomsPkRowMerge_rows_no_base, tryMerge_rows_no_base cmp hcmp sch hnd o t]
    by_cases heq : ∀ tag ∈ sch.GetNonPKCols.Tags, o tag = t tag
    · have hrows : nomsRowOf sch.GetNonPKCols.Tags t = nomsRowOf sch.GetNonPKCols.Tags o :=
        nomsRowOf_congr _ _ _ (fun tag h => (heq tag h).symm)
      have hno : ¬ ∃ tag ∈ sch.GetNonPKCols.Tags, o tag ≠ t tag := by
        rintro ⟨tag, h, hne⟩
        exact hne (heq tag h)
      rw [if_pos hrows, if_neg hno]
      refine ⟨_, _, rfl, rfl, fun h => (by cases h), fun _ => ⟨fun h => (by cases h),
        fun h => (by cases h)⟩, fun _ => ⟨o, rfl, rfl⟩, fun _ _ => ⟨rfl, rfl⟩⟩
    · have hdiff : ∃ tag ∈ sch.GetNonPKCols.Tags, o tag ≠ t tag := by
        by_contra hno
        apply heq
        intro tag h
        by_contra hne
        exact hno ⟨tag, h, hne⟩
      have hrows : ¬ nomsRowOf sch.GetNonPKCols.Tags t = nomsRowOf sch.GetNonPKCols.Tags o := by
        intro hr
        obtain ⟨tag, h, hne⟩ := hdiff
        apply hne
        rw [← Get_nomsRowOf _ o tag h, ← Get_nomsRowOf _ t tag h, hr]
      rw [if_neg hrows, if_pos hdiff]
      refine ⟨_, _, rfl, rfl, fun _ => rfl, ?_, fun h => (by cases h),
        fun _ h => (by cases h)⟩
      intro hor
      refine ⟨fun _ => rfl, fun _ => ?_⟩
      rcases hor with hb | hsame
      · cases hb
      · obtain ⟨tag, h, hne⟩ := hdiff
        have hconf : ∃ tag ∈ sch.GetNonPKCols.Tags,
            (processTagFunc [] (nomsRowOf sch.GetNonPKCols.Tags o)
              (nomsRowOf sch.GetNonPKCols.Tags t) tag).2.1 = true := by
          refine ⟨tag, h, ?_⟩
          rw [← nomsRowOf_none sch.GetNonPKCols.Tags,
            processTagFunc_rows _ (fun _ => none) o t tag h]
          have hs := hsame tag h
          cases ho : o tag with
          | none =>
            cases ht : t tag with
            | none => exact absurd (ho.trans ht.symm) hne
            | some y => rw [ho, ht] at hs; cases hs
          | some x =>
            cases ht : t tag with
            | none => rw [ho, ht] at hs; cases hs
            | some y =>
              have hxy : x ≠ y := by
                intro hxy
                apply hne
                rw [ho, ht, hxy]
              simp [hxy]
        rw [mergeTags_eq, if_pos hconf]

/-- Witness of C28, amended, on the scenario schema with the byte comparator.
The base row is `(10)`, ours is `(11)` and theirs is `(10)`: both mergers
return `(11)` without conflict. With the base row absent and the row `(11)` on
both sides, both mergers return ours' row. -/
theorem row_mergers_agree_witness :
    nomsPkRowMerge scenarioSchema (some [(1, 11)]) (some [(1, 10)]) (some [(1, 10)]) =
      .ok ⟨some [(1, 11)], true, false⟩ ∧
    (newValueMerger bytesComparator scenarioSchema scenarioSchema scenarioSchema
        scenarioSchema).tryMerge (some [some [11]]) (some [some [10]]) (some [some [10]]) =
      .ok (some [some [11]], false) ∧
    (∃ r p,
      nomsPkRowMerge scenarioSchema (some (nomsRowOf scenarioSchema.GetNonPKCols.Tags
          (fun _ => some 11)))
          (some (nomsRowOf scenarioSchema.GetNonPKCols.Tags (fun _ => some 10)))
          ((some (fun _ => some 10)).map (nomsRowOf scenarioSchema.GetNonPKCols.Tags)) = .ok r ∧
      (newValueMerger bytesComparator scenarioSchema scenarioSchema scenarioSchema
          scenarioSchema).tryMerge
          (some (tupleOf scenarioSchema.GetNonPKCols.Tags (fun _ => some 11)))
          (some (tupleOf scenarioSchema.GetNonPKCols.Tags (fun _ => some 10)))
          ((some (fun _ => some 10)).map (tupleOf scenarioSchema.GetNonPKCols.Tags)) = .ok p ∧
      (r.isConflict = true ↔ p.2 = true)) ∧
    (∃ r p,
      nomsPkRowMerge scenarioSchema (some (nomsRowOf scenarioSchema.GetNonPKCols.Tags
          (fun _ => some 11)))
          (some (nomsRowOf scenarioSchema.GetNonPKCols.Tags (fun _ => some 11)))
          ((none : Option (Nat → Option Nat)).map
            (nomsRowOf scenarioSchema.GetNonPKCols.Tags)) = .ok r ∧
      (newValueMerger bytesComparator scenarioSchema scenarioSchema scenarioSchema
          scenarioSchema).tryMerge
          (some (tupleOf scenarioSchema.GetNonPKCols.Tags (fun _ => some 11)))
          (some (tupleOf scenarioSchema.GetNonPKCols.Tags (fun _ => some 11)))
          ((none : Option (Nat → Option Nat)).map
            (tupleOf scenarioSchema.GetNonPKCols.Tags)) = .ok p ∧
      (p.2 = false →
        r = ⟨some [(1, 11)], false, false⟩ ∧ p = (some [some [11]], false))) :=
  ⟨rfl, rfl,
   (row_mergers_agree bytesComparator bytesComparator_eq_zero_iff scenarioSchema (by decide)
      (fun _ => some 11) (fun _ => some 10) (some (fun _ => some 10))).imp
      (fun _ h => h.imp (fun _ h => ⟨h.1, h.2.1, h.2.2.2.1 (Or.inl rfl)⟩)),
   (row_mergers_agree bytesComparator bytesComparator_eq_zero_iff scenarioSchema (by decide)
      (fun _ => some 11) (fun _ => some 11) none).imp
      (fun _ h => h.imp (fun _ h => ⟨h.1, h.2.1, h.2.2.2.2.2 rfl⟩))⟩

end Dolt
